import Mathlib

/-!
Verification of the PlutoOFDMTransceiver core codecs.

This file gives a shallow embedding, as pure Lean functions over `Nat` and
`List Nat`, of the two core native subsystems of the repository:

* the Reed-Solomon v4 container codec (`src/native/Rs_Container/rs_container.c`):
  CRC engines, frame assembly (`pack_impl`), slice-interleaved emission, and the
  resynchronizing decoder (`rs_unpack_internal`);
* the bit-level wrap/unwrap codec (`src/native/Bitwrap/bitwrap.cpp`,
  `bitunwrap.cpp`): `BitWriter`, the Mersenne-Twister-64 dummy-bit generator,
  `wrap_file_bits`, the bit-alphabet KMP matcher `BitKMP`, and
  `unwrap_file_bits`.

Files are modelled as byte lists (a byte is a `Nat` below 256); file I/O always
succeeds and heap allocation never fails.  The cooperative cancellation flag
and the progress callback are external inputs that are never triggered here, so
they are elided.  Machine integers are `Nat` with explicit `% 2^w` or `&&& mask`
truncation exactly where the C types truncate.

The Reed-Solomon encoder/decoder itself lives in the external `libfec` library;
only its header `fec.h` is part of the repository, so `encode_rs_char` and
`decode_rs_char` are modelled from the specification (see their doc comments).
-/

set_option maxRecDepth 100000

namespace RSV4

/-! ## Generic bit-twiddling helpers -/

theorem xor_shiftRight_distrib (x y k : Nat) :
    (x ^^^ y) >>> k = (x >>> k) ^^^ (y >>> k) := by
  apply Nat.eq_of_testBit_eq
  intro i
  simp [Nat.testBit_shiftRight, Nat.testBit_xor]

theorem xor_shiftLeft_distrib (x y k : Nat) :
    (x ^^^ y) <<< k = (x <<< k) ^^^ (y <<< k) := by
  apply Nat.eq_of_testBit_eq
  intro i
  simp only [Nat.testBit_shiftLeft, Nat.testBit_xor]
  rcases Decidable.em (k ≤ i) with h | h <;> simp [h]

theorem and_xor_right (x y m : Nat) :
    (x ^^^ y) &&& m = (x &&& m) ^^^ (y &&& m) :=
  Nat.and_xor_distrib_right

/-- Splitting a natural number at bit `k`: low bits xor shifted high bits. -/
theorem split_low_high (u k : Nat) :
    u = (u &&& (2 ^ k - 1)) ^^^ ((u >>> k) <<< k) := by
  apply Nat.eq_of_testBit_eq
  intro i
  simp only [Nat.testBit_xor, Nat.testBit_and, Nat.testBit_shiftLeft,
    Nat.testBit_shiftRight, Nat.testBit_two_pow_sub_one]
  rcases Decidable.em (k ≤ i) with h | h
  · have h2 : ¬ i < k := by omega
    have h3 : k + (i - k) = i := by omega
    simp [h, h2, h3]
  · have h2 : i < k := by omega
    simp [h, h2]

theorem shiftRight_eq_self_of_lt {b k : Nat} (h : b < 2 ^ k) : b >>> k = 0 := by
  simp [Nat.shiftRight_eq_div_pow, Nat.div_eq_of_lt h]

theorem and_two_pow_sub_one_eq_self {b k : Nat} (h : b < 2 ^ k) :
    b &&& (2 ^ k - 1) = b :=
  Nat.and_pow_two_sub_one_of_lt_two_pow h

theorem shiftLeft_shiftRight_one (h : Nat) : (h <<< 1) >>> 1 = h := by
  simp [Nat.shiftLeft_eq, Nat.shiftRight_eq_div_pow]

theorem shiftLeft_one_mod_two (h : Nat) : (h <<< 1) % 2 = 0 := by
  simp [Nat.shiftLeft_eq]

theorem xor_mod_two_of_even {x y : Nat} (hy : y % 2 = 0) :
    (x ^^^ y) % 2 = x % 2 := by
  rcases Nat.mod_two_eq_zero_or_one x with hx | hx
  · have : ¬ (x ^^^ y) % 2 = 1 := by
      simp only [Nat.xor_mod_two_eq_one]
      intro hc
      exact hc ⟨fun h => by omega, fun h => by omega⟩
    omega
  · have : (x ^^^ y) % 2 = 1 := by
      simp only [Nat.xor_mod_two_eq_one]
      intro hc
      omega
    omega

theorem xor_shiftRight_one (x y : Nat) : (x ^^^ y) >>> 1 = (x >>> 1) ^^^ (y >>> 1) :=
  xor_shiftRight_distrib x y 1

/-! ## CRC engines (rs_container.c, lines 118-157)

The source builds 256-entry tables lazily (`crc32_init`, `crc16_init`) and then
folds over the buffer.  The table is embedded as a function computing the same
8-step recurrence the init loop runs for entry `i`. -/

/-- One iteration of the inner loop of `crc32_init`:
`c = (c & 1) ? (0xEDB88320u ^ (c >> 1)) : (c >> 1)`. -/
def crc32_step (c : Nat) : Nat :=
  if c % 2 = 1 then 0xEDB88320 ^^^ (c >>> 1) else c >>> 1

/-- Entry `i` of `crc32_table`: eight iterations of `crc32_step` on `i`. -/
def crc32_table (i : Nat) : Nat := crc32_step^[8] i

/-- The per-byte update of `crc32_calc`:
`c = crc32_table[(c ^ buf[i]) & 0xFFu] ^ (c >> 8)`. -/
def crc32_upd (c b : Nat) : Nat := crc32_table ((c ^^^ b) &&& 0xFF) ^^^ (c >>> 8)

/-- `crc32_calc` from the source: init `0xFFFFFFFF`, table-driven fold, final
xor `0xFFFFFFFF`. -/
def crc32_calc (buf : List Nat) : Nat :=
  (buf.foldl crc32_upd 0xFFFFFFFF) ^^^ 0xFFFFFFFF

/-- One iteration of the inner loop of `crc16_init`:
`c = (c & 0x8000) ? ((c << 1) ^ 0x1021) : (c << 1)` in `uint16` arithmetic. -/
def crc16_step (c : Nat) : Nat :=
  if c &&& 0x8000 = 0x8000 then ((c <<< 1) ^^^ 0x1021) &&& 0xFFFF
  else (c <<< 1) &&& 0xFFFF

/-- Entry `i` of `crc16_table`: eight iterations of `crc16_step` on
`(uint16)(i << 8)`. -/
def crc16_table (i : Nat) : Nat := crc16_step^[8] ((i <<< 8) &&& 0xFFFF)

/-- The per-byte update of `crc16_ccitt`:
`crc = (uint16)((crc << 8) ^ crc16_table[((crc >> 8) ^ buf[i]) & 0xFF])`. -/
def crc16_upd (c b : Nat) : Nat :=
  ((c <<< 8) ^^^ crc16_table (((c >>> 8) ^^^ b) &&& 0xFF)) &&& 0xFFFF

/-- `crc16_ccitt` from the source: init `0xFFFF`, table-driven fold, no final
xor. -/
def crc16_ccitt (buf : List Nat) : Nat := buf.foldl crc16_upd 0xFFFF

/-! ### Reference CRC definitions (from the specification's words)

The spec fixes CRC-32 as the IEEE 802.3 CRC: reflected polynomial `0xEDB88320`
processed bit-serially LSB-first, init `0xFFFFFFFF`, final xor `0xFFFFFFFF`;
and CRC-16-CCITT: polynomial `0x1021` MSB-first, init `0xFFFF`, no reflection,
no final xor. -/

/-- Reference reflected CRC-32, one input bit (LSB-first): xor the bit into the
low end, then shift right, folding in the polynomial if a 1 dropped out. -/
def crc32_ref_bit (c bit : Nat) : Nat :=
  let c' := c ^^^ (bit &&& 1)
  if c' % 2 = 1 then 0xEDB88320 ^^^ (c' >>> 1) else c' >>> 1

/-- The bits of a byte, least significant first. -/
def bitsLSB (n b : Nat) : List Nat := (List.range n).map (fun k => (b >>> k) &&& 1)

/-- Reference reflected CRC-32 over a byte list. -/
def crc32_ref (buf : List Nat) : Nat :=
  (buf.foldl (fun c b => (bitsLSB 8 b).foldl crc32_ref_bit c) 0xFFFFFFFF) ^^^ 0xFFFFFFFF

/-- Reference CRC-16-CCITT, one input bit (MSB-first): xor the bit into the top
of the 16-bit register, then shift left, folding in `0x1021` if a 1 dropped
out. -/
def crc16_ref_bit (c bit : Nat) : Nat :=
  crc16_step ((c ^^^ ((bit &&& 1) <<< 15)) &&& 0xFFFF)

/-- The bits of a byte, most significant first. -/
def bitsMSB (n b : Nat) : List Nat :=
  (List.range n).map (fun k => (b >>> (n - 1 - k)) &&& 1)

/-- Reference CRC-16-CCITT over a byte list. -/
def crc16_ref (buf : List Nat) : Nat :=
  buf.foldl (fun c b => (bitsMSB 8 b).foldl crc16_ref_bit c) 0xFFFF

/-! ### Equivalence of the table-driven CRCs with the bit-serial references -/

theorem crc32_step_xor_even {x y : Nat} (hy : y % 2 = 0) :
    crc32_step (x ^^^ y) = crc32_step x ^^^ (y >>> 1) := by
  unfold crc32_step
  rw [xor_mod_two_of_even hy]
  rcases Nat.mod_two_eq_zero_or_one x with hx | hx
  · simp [hx, xor_shiftRight_one]
  · simp [hx, xor_shiftRight_one, Nat.xor_assoc]

theorem crc32_iterate_xor_shifted (n : Nat) :
    ∀ x h, crc32_step^[n] (x ^^^ (h <<< n)) = crc32_step^[n] x ^^^ h := by
  induction n with
  | zero => intro x h; simp
  | succ n ih =>
    intro x h
    rw [Function.iterate_succ_apply, Function.iterate_succ_apply]
    have hsplit : h <<< (n + 1) = (h <<< n) <<< 1 := by
      rw [Nat.shiftLeft_add]
    rw [hsplit, crc32_step_xor_even (shiftLeft_one_mod_two _), shiftLeft_shiftRight_one]
    exact ih (crc32_step x) h

theorem bitsLSB_succ (n b : Nat) :
    bitsLSB (n + 1) b = (b &&& 1) :: bitsLSB n (b >>> 1) := by
  unfold bitsLSB
  rw [List.range_succ_eq_map, List.map_cons, List.map_map]
  have h1 : b >>> 0 &&& 1 = b &&& 1 := by simp
  have h2 : List.map ((fun k => b >>> k &&& 1) ∘ Nat.succ) (List.range n)
      = List.map (fun k => b >>> 1 >>> k &&& 1) (List.range n) := by
    apply List.map_congr_left
    intro k _
    simp only [Function.comp]
    rw [show Nat.succ k = 1 + k by omega, Nat.shiftRight_add]
  rw [h1, h2]

theorem crc32_ref_bit_eq (c bit : Nat) :
    crc32_ref_bit c bit = crc32_step (c ^^^ (bit &&& 1)) := rfl

theorem crc32_iterate_eq_bits (n : Nat) :
    ∀ c b, b < 2 ^ n → crc32_step^[n] (c ^^^ b) = (bitsLSB n b).foldl crc32_ref_bit c := by
  induction n with
  | zero =>
    intro c b hb
    have hb0 : b = 0 := by omega
    simp [hb0, bitsLSB]
  | succ n ih =>
    intro c b hb
    rw [bitsLSB_succ, List.foldl_cons, Function.iterate_succ_apply]
    have hdec : b = (b &&& (2 ^ 1 - 1)) ^^^ ((b >>> 1) <<< 1) := split_low_high b 1
    have hone : (2 ^ 1 - 1 : Nat) = 1 := by norm_num
    rw [hone] at hdec
    conv_lhs => rw [hdec]
    rw [← Nat.xor_assoc, crc32_step_xor_even (shiftLeft_one_mod_two _),
      shiftLeft_shiftRight_one]
    have hbit : crc32_step (c ^^^ (b &&& 1)) = crc32_ref_bit c (b &&& 1) := by
      rw [crc32_ref_bit_eq]
      norm_num
    rw [hbit]
    apply ih
    have : b >>> 1 = b / 2 := Nat.shiftRight_one b
    rw [this]
    have h2 : 2 ^ (n + 1) = 2 ^ n * 2 := by ring
    omega

theorem crc32_upd_eq_iterate (c b : Nat) (hb : b < 256) :
    crc32_upd c b = crc32_step^[8] (c ^^^ b) := by
  unfold crc32_upd crc32_table
  have h1 : (c ^^^ b) >>> 8 = c >>> 8 := by
    rw [xor_shiftRight_distrib, shiftRight_eq_self_of_lt (show b < 2 ^ 8 by norm_num at hb ⊢; omega),
      Nat.xor_zero]
  rw [← h1]
  generalize c ^^^ b = u
  conv_rhs => rw [split_low_high u 8]
  rw [crc32_iterate_xor_shifted]
  norm_num

theorem crc32_fold_eq (buf : List Nat) :
    ∀ c, (∀ b ∈ buf, b < 256) →
      buf.foldl crc32_upd c =
        buf.foldl (fun c b => (bitsLSB 8 b).foldl crc32_ref_bit c) c := by
  induction buf with
  | nil => intro c _; rfl
  | cons b bs ih =>
    intro c h
    rw [List.foldl_cons, List.foldl_cons]
    have hb : b < 256 := h b (List.mem_cons_self b bs)
    have hb' : b < 2 ^ 8 := by norm_num; omega
    rw [crc32_upd_eq_iterate c b hb, crc32_iterate_eq_bits 8 c b hb']
    exact ih _ (fun x hx => h x (List.mem_cons_of_mem b hx))

theorem crc16_step_lt (x : Nat) : crc16_step x < 2 ^ 16 := by
  unfold crc16_step
  have h1 : (0xFFFF : Nat) = 2 ^ 16 - 1 := by norm_num
  rcases Decidable.em (x &&& 0x8000 = 0x8000) with h | h <;>
    simp only [h, if_true, if_false, h1] <;>
    [skip; skip] <;>
    · rw [Nat.and_pow_two_sub_one_eq_mod]
      exact Nat.mod_lt _ (by norm_num)

theorem crc16_step_xor_low {x y : Nat} (hy : y &&& 0x8000 = 0) :
    crc16_step (x ^^^ y) = crc16_step x ^^^ ((y <<< 1) &&& 0xFFFF) := by
  unfold crc16_step
  have hand : (x ^^^ y) &&& 0x8000 = x &&& 0x8000 := by
    rw [and_xor_right, hy, Nat.xor_zero]
  rw [hand, xor_shiftLeft_distrib]
  rcases Decidable.em (x &&& 0x8000 = 0x8000) with h | h
  · simp only [h, if_true]
    rw [Nat.xor_assoc (x <<< 1) (y <<< 1) 0x1021, Nat.xor_comm (y <<< 1) 0x1021,
      ← Nat.xor_assoc, and_xor_right]
  · simp only [h, if_false]
    rw [and_xor_right]

theorem and_top_zero_of_lt {y : Nat} (h : y < 2 ^ 15) : y &&& 0x8000 = 0 := by
  have h1 : (0x8000 : Nat) = 2 ^ 15 := by norm_num
  apply Nat.eq_of_testBit_eq
  intro i
  simp only [Nat.testBit_and, Nat.zero_testBit, h1, Nat.testBit_two_pow]
  rcases Decidable.em (15 = i) with hi | hi
  · subst hi
    simp [Nat.testBit_lt_two_pow h]
  · simp [hi]

theorem and_ffff_of_lt {y : Nat} (h : y < 2 ^ 16) : y &&& 0xFFFF = y := by
  have h1 : (0xFFFF : Nat) = 2 ^ 16 - 1 := by norm_num
  rw [h1]
  exact Nat.and_pow_two_sub_one_of_lt_two_pow h

theorem crc16_iterate_xor_low (n : Nat) (hn : n ≤ 8) :
    ∀ x lo, lo < 2 ^ (16 - n) →
      crc16_step^[n] (x ^^^ lo) = crc16_step^[n] x ^^^ ((lo <<< n) &&& 0xFFFF) := by
  induction n with
  | zero =>
    intro x lo hlo
    simp only [Function.iterate_zero, id_eq, Nat.shiftLeft_zero]
    rw [and_ffff_of_lt hlo]
  | succ n ih =>
    intro x lo hlo
    have hlt15 : lo < 2 ^ 15 := by
      apply Nat.lt_of_lt_of_le hlo
      apply Nat.pow_le_pow_right (by norm_num)
      omega
    rw [Function.iterate_succ_apply, Function.iterate_succ_apply,
      crc16_step_xor_low (and_top_zero_of_lt hlt15)]
    have hmask : (lo <<< 1) &&& 0xFFFF = lo <<< 1 := by
      apply and_ffff_of_lt
      rw [Nat.shiftLeft_eq, Nat.pow_one]
      have h15 : (2 : Nat) ^ 15 = 32768 := by norm_num
      have h16 : (2 : Nat) ^ 16 = 65536 := by norm_num
      omega
    rw [hmask]
    have hlo' : lo <<< 1 < 2 ^ (16 - n) := by
      have he : 16 - n = (16 - (n + 1)) + 1 := by omega
      rw [Nat.shiftLeft_eq, Nat.pow_one, he, Nat.pow_succ]
      omega
    rw [ih (by omega) (crc16_step x) (lo <<< 1) hlo']
    rw [← Nat.shiftLeft_add, Nat.add_comm 1 n]

theorem shiftRight_and_one (y j : Nat) : (y >>> j) &&& 1 = y / 2 ^ j % 2 := by
  rw [Nat.and_one_is_mod, Nat.shiftRight_eq_div_pow]

theorem bitsMSB_succ (n b : Nat) (hb : b < 2 ^ (n + 1)) :
    bitsMSB (n + 1) b = (b >>> n) :: bitsMSB n (b &&& (2 ^ n - 1)) := by
  unfold bitsMSB
  rw [List.range_succ_eq_map, List.map_cons, List.map_map]
  have hhead : (b >>> (n + 1 - 1 - 0)) &&& 1 = b >>> n := by
    have e : n + 1 - 1 - 0 = n := by omega
    rw [e, Nat.and_one_is_mod]
    have hlt : b >>> n < 2 := by
      rw [Nat.shiftRight_eq_div_pow]
      apply Nat.div_lt_of_lt_mul
      have h2 : 2 ^ n * 2 = 2 ^ (n + 1) := by ring
      omega
    exact Nat.mod_eq_of_lt hlt
  rw [hhead]
  congr 1
  apply List.map_congr_left
  intro k hk
  have hk' : k < n := List.mem_range.mp hk
  simp only [Function.comp]
  have e1 : n + 1 - 1 - Nat.succ k = n - 1 - k := by omega
  rw [e1, shiftRight_and_one, shiftRight_and_one, Nat.and_pow_two_sub_one_eq_mod]
  have hj : n - 1 - k < n := by omega
  rw [← Nat.toNat_testBit, ← Nat.toNat_testBit, Nat.testBit_mod_two_pow]
  simp [hj]

theorem shiftLeft_lt_two_pow {x a b : Nat} (hx : x < 2 ^ a) (hab : a + b ≤ 16) :
    x <<< b < 2 ^ 16 := by
  rw [Nat.shiftLeft_eq]
  calc x * 2 ^ b < 2 ^ a * 2 ^ b := by
        apply Nat.mul_lt_mul_of_lt_of_le hx (Nat.le_refl _) (by positivity)
    _ = 2 ^ (a + b) := by rw [Nat.pow_add]
    _ ≤ 2 ^ 16 := Nat.pow_le_pow_right (by norm_num) hab

theorem crc16_iterate_eq_bits (n : Nat) (hn : n ≤ 8) :
    ∀ c b, c < 2 ^ 16 → b < 2 ^ n →
      crc16_step^[n] ((c ^^^ (b <<< (16 - n))) &&& 0xFFFF) =
        (bitsMSB n b).foldl crc16_ref_bit c := by
  induction n with
  | zero =>
    intro c b hc hb
    have hb0 : b = 0 := by omega
    subst hb0
    simp only [Nat.zero_shiftLeft, Nat.xor_zero, Function.iterate_zero, id_eq]
    rw [and_ffff_of_lt hc]
    rfl
  | succ n ih =>
    intro c b hc hb
    have hn' : n ≤ 8 := by omega
    have hbn : b >>> n < 2 := by
      rw [Nat.shiftRight_eq_div_pow]
      apply Nat.div_lt_of_lt_mul
      have h2 : 2 ^ n * 2 = 2 ^ (n + 1) := by ring
      omega
    have hlowb : b &&& (2 ^ n - 1) < 2 ^ n := by
      rw [Nat.and_pow_two_sub_one_eq_mod]
      exact Nat.mod_lt _ (by positivity)
    have hsplit : b <<< (16 - (n + 1)) =
        ((b >>> n) <<< 15) ^^^ ((b &&& (2 ^ n - 1)) <<< (15 - n)) := by
      conv_lhs => rw [split_low_high b n]
      rw [xor_shiftLeft_distrib, ← Nat.shiftLeft_add]
      have e1 : 16 - (n + 1) = 15 - n := by omega
      have e2 : n + (15 - n) = 15 := by omega
      rw [e1, e2, Nat.xor_comm]
    have hlow15 : (b &&& (2 ^ n - 1)) <<< (15 - n) < 2 ^ 15 := by
      rw [Nat.shiftLeft_eq]
      calc (b &&& (2 ^ n - 1)) * 2 ^ (15 - n) < 2 ^ n * 2 ^ (15 - n) := by
            apply Nat.mul_lt_mul_of_lt_of_le hlowb (Nat.le_refl _) (by positivity)
        _ = 2 ^ (n + (15 - n)) := by rw [Nat.pow_add]
        _ = 2 ^ 15 := by rw [show n + (15 - n) = 15 by omega]
    have hbn15 : (b >>> n) <<< 15 < 2 ^ 16 := shiftLeft_lt_two_pow (by omega : b >>> n < 2 ^ 1) (by omega)
    have harg : c ^^^ (b <<< (16 - (n + 1))) < 2 ^ 16 := by
      rw [hsplit]
      apply Nat.xor_lt_two_pow hc
      apply Nat.xor_lt_two_pow hbn15
      calc (b &&& (2 ^ n - 1)) <<< (15 - n) < 2 ^ 15 := hlow15
        _ < 2 ^ 16 := by norm_num
    rw [and_ffff_of_lt harg, hsplit, ← Nat.xor_assoc, Function.iterate_succ_apply,
      crc16_step_xor_low (and_top_zero_of_lt hlow15)]
    have hmask2 : ((b &&& (2 ^ n - 1)) <<< (15 - n) <<< 1) &&& 0xFFFF
        = (b &&& (2 ^ n - 1)) <<< (16 - n) := by
      rw [← Nat.shiftLeft_add, show 15 - n + 1 = 16 - n by omega]
      apply and_ffff_of_lt
      exact shiftLeft_lt_two_pow hlowb (by omega)
    rw [hmask2]
    have hrefbit : crc16_step (c ^^^ ((b >>> n) <<< 15)) = crc16_ref_bit c (b >>> n) := by
      unfold crc16_ref_bit
      have e1 : (b >>> n) &&& 1 = b >>> n := by
        rw [Nat.and_one_is_mod]
        exact Nat.mod_eq_of_lt hbn
      rw [e1, and_ffff_of_lt (Nat.xor_lt_two_pow hc hbn15)]
    rw [hrefbit]
    have harg2 : crc16_ref_bit c (b >>> n) ^^^ (b &&& (2 ^ n - 1)) <<< (16 - n) < 2 ^ 16 := by
      apply Nat.xor_lt_two_pow (crc16_step_lt _)
      exact shiftLeft_lt_two_pow hlowb (by omega)
    rw [← and_ffff_of_lt harg2,
      ih hn' (crc16_ref_bit c (b >>> n)) (b &&& (2 ^ n - 1)) (crc16_step_lt _) hlowb,
      bitsMSB_succ n b hb, List.foldl_cons]

theorem crc16_upd_eq_iterate (c b : Nat) (hc : c < 2 ^ 16) (hb : b < 256) :
    crc16_upd c b = crc16_step^[8] ((c ^^^ (b <<< 8)) &&& 0xFFFF) := by
  unfold crc16_upd crc16_table
  have hb8 : b < 2 ^ 8 := by norm_num at hb ⊢; omega
  have hhi : c >>> 8 < 2 ^ 8 := by
    rw [Nat.shiftRight_eq_div_pow]
    apply Nat.div_lt_of_lt_mul
    have : 2 ^ 8 * 2 ^ 8 = 2 ^ 16 := by norm_num
    omega
  have hx : (c >>> 8) ^^^ b < 2 ^ 8 := Nat.xor_lt_two_pow hhi hb8
  have hmask1 : ((c >>> 8) ^^^ b) &&& 0xFF = (c >>> 8) ^^^ b := by
    have h1 : (0xFF : Nat) = 2 ^ 8 - 1 := by norm_num
    rw [h1]
    exact Nat.and_pow_two_sub_one_of_lt_two_pow hx
  rw [hmask1]
  have hmask2 : ((((c >>> 8) ^^^ b) <<< 8) &&& 0xFFFF) = ((c >>> 8) ^^^ b) <<< 8 :=
    and_ffff_of_lt (shiftLeft_lt_two_pow hx (by omega))
  rw [hmask2]
  have hdecomp : c ^^^ (b <<< 8) = (((c >>> 8) ^^^ b) <<< 8) ^^^ (c &&& (2 ^ 8 - 1)) := by
    conv_lhs => rw [split_low_high c 8]
    rw [xor_shiftLeft_distrib]
    rw [Nat.xor_comm (c &&& (2 ^ 8 - 1)) ((c >>> 8) <<< 8), Nat.xor_assoc,
      Nat.xor_comm (c &&& (2 ^ 8 - 1)) (b <<< 8), ← Nat.xor_assoc]
  have hlo : c &&& (2 ^ 8 - 1) < 2 ^ 8 := by
    rw [Nat.and_pow_two_sub_one_eq_mod]
    exact Nat.mod_lt _ (by norm_num)
  have hargall : (((c >>> 8) ^^^ b) <<< 8) ^^^ (c &&& (2 ^ 8 - 1)) < 2 ^ 16 := by
    apply Nat.xor_lt_two_pow (shiftLeft_lt_two_pow hx (by omega))
    calc c &&& (2 ^ 8 - 1) < 2 ^ 8 := hlo
      _ < 2 ^ 16 := by norm_num
  rw [hdecomp, and_ffff_of_lt hargall,
    crc16_iterate_xor_low 8 (by omega) _ _ (by norm_num at hlo ⊢; omega)]
  have hshift : (c <<< 8) &&& 0xFFFF = ((c &&& (2 ^ 8 - 1)) <<< 8) &&& 0xFFFF := by
    apply Nat.eq_of_testBit_eq
    intro i
    have hff : (0xFFFF : Nat) = 2 ^ 16 - 1 := by norm_num
    simp only [hff, Nat.testBit_and, Nat.testBit_shiftLeft, Nat.testBit_two_pow_sub_one]
    rcases Decidable.em (8 ≤ i) with h8 | h8
    · rcases Decidable.em (i < 16) with h16 | h16
      · have hlt : i - 8 < 8 := by omega
        simp [h8, h16, hlt]
      · simp [h16]
    · simp [h8]
  have hmask3 : ((c &&& (2 ^ 8 - 1)) <<< 8) &&& 0xFFFF = (c &&& (2 ^ 8 - 1)) <<< 8 :=
    and_ffff_of_lt (shiftLeft_lt_two_pow hlo (by omega))
  rw [and_xor_right, hshift, hmask3]
  have hstep : crc16_step^[8] (((c >>> 8) ^^^ b) <<< 8)
      = (crc16_step^[8] (((c >>> 8) ^^^ b) <<< 8)) &&& 0xFFFF := by
    rw [and_ffff_of_lt]
    rw [show (8 : Nat) = 7 + 1 by rfl, Function.iterate_succ_apply']
    exact crc16_step_lt _
  rw [← hstep, Nat.xor_comm ((c &&& (2 ^ 8 - 1)) <<< 8)]

theorem foldl_crc16_ref_bit_lt (l : List Nat) :
    ∀ c, c < 2 ^ 16 → l.foldl crc16_ref_bit c < 2 ^ 16 := by
  induction l with
  | nil => intro c hc; exact hc
  | cons x xs ih => intro c _; exact ih _ (crc16_step_lt _)

theorem crc16_fold_eq (buf : List Nat) :
    ∀ c, c < 2 ^ 16 → (∀ b ∈ buf, b < 256) →
      buf.foldl crc16_upd c =
        buf.foldl (fun c b => (bitsMSB 8 b).foldl crc16_ref_bit c) c := by
  induction buf with
  | nil => intro c _ _; rfl
  | cons b bs ih =>
    intro c hc h
    rw [List.foldl_cons, List.foldl_cons]
    have hb : b < 256 := h b (List.mem_cons_self b bs)
    have hb8 : b < 2 ^ 8 := by norm_num at hb ⊢; omega
    have h16 : crc16_step^[8] ((c ^^^ (b <<< (16 - 8))) &&& 0xFFFF)
        = (bitsMSB 8 b).foldl crc16_ref_bit c :=
      crc16_iterate_eq_bits 8 (by omega) c b hc hb8
    simp only [show (16 : Nat) - 8 = 8 from rfl] at h16
    rw [crc16_upd_eq_iterate c b hc hb, h16]
    exact ih _ (foldl_crc16_ref_bit_lt _ _ hc) (fun x hx => h x (List.mem_cons_of_mem b hx))

/-- C6: for every byte sequence, `crc32_calc` equals the reference IEEE 802.3
CRC-32 (reflected polynomial `0xEDB88320`, init `0xFFFFFFFF`, final xor
`0xFFFFFFFF`, bit-serial LSB-first) and `crc16_ccitt` equals the reference
CRC-16-CCITT (polynomial `0x1021`, init `0xFFFF`, no reflection, no final
xor, bit-serial MSB-first).  Both are pure Lean functions of the input bytes,
hence return the same value on every call. -/
theorem crc_engines_match_reference (buf : List Nat) (h : ∀ b ∈ buf, b < 256) :
    crc32_calc buf = crc32_ref buf ∧ crc16_ccitt buf = crc16_ref buf := by
  constructor
  · unfold crc32_calc crc32_ref
    rw [crc32_fold_eq buf _ h]
  · unfold crc16_ccitt crc16_ref
    rw [crc16_fold_eq buf _ (by norm_num) h]

/-- Witness for C6 at the standard nine-byte CRC test vector "123456789";
the reference values there are the published check values
`0xCBF43926` (CRC-32) and `0x29B1` (CRC-16-CCITT with init `0xFFFF`). -/
theorem crc_engines_match_reference_witness :
    (∀ b ∈ [0x31, 0x32, 0x33, 0x34, 0x35, 0x36, 0x37, 0x38, 0x39], b < 256) ∧
    (crc32_calc [0x31, 0x32, 0x33, 0x34, 0x35, 0x36, 0x37, 0x38, 0x39] = 0xCBF43926 ∧
     crc16_ccitt [0x31, 0x32, 0x33, 0x34, 0x35, 0x36, 0x37, 0x38, 0x39] = 0x29B1) ∧
    (crc32_calc [0x31, 0x32, 0x33, 0x34, 0x35, 0x36, 0x37, 0x38, 0x39] =
       crc32_ref [0x31, 0x32, 0x33, 0x34, 0x35, 0x36, 0x37, 0x38, 0x39] ∧
     crc16_ccitt [0x31, 0x32, 0x33, 0x34, 0x35, 0x36, 0x37, 0x38, 0x39] =
       crc16_ref [0x31, 0x32, 0x33, 0x34, 0x35, 0x36, 0x37, 0x38, 0x39]) :=
  ⟨by decide, ⟨by decide, by decide⟩,
    crc_engines_match_reference [0x31, 0x32, 0x33, 0x34, 0x35, 0x36, 0x37, 0x38, 0x39]
      (by decide)⟩

/-! ## Container constants (rs_container.c, lines 32-49) -/

def K_SHARDS : Nat := 192
def SHARD_LEN : Nat := 64
def FRAME_BYTES : Nat := K_SHARDS * SHARD_LEN
def MAX_R : Nat := 63
def GLOBAL_MAGIC : Nat := 0x54435352
def FRAME_MAGIC_V4 : Nat := 0x34534652
def SLICE_MAGIC_V4 : Nat := 0x344C5352
def IL_DEPTH_DEFAULT : Nat := 16
def SLICE_BYTES_DEFAULT : Nat := 512

/-- Frame payload length in bytes (`payload_len_bytes`, lines 185-188). -/
def payload_len_bytes (r : Nat) : Nat :=
  FRAME_BYTES + r * SHARD_LEN + K_SHARDS * 2 + r * 2

/-- Shortening pad (`compute_pad`, line 184). -/
def compute_pad (r : Nat) : Nat := 255 - (K_SHARDS + r)

/-! ## GF(2^8) arithmetic and the Reed-Solomon codec model

The RS encoder/decoder used by the container is `libfec`; only its header
`fec.h` is under the repository sources, so the two entry points are modelled
from the specification (spec sections 3.3 and 4.1): GF(2^8) with primitive
polynomial `0x11d`, first consecutive root `fcr = 1`, primitive element index
`prim = 1`, generator polynomial `g(x) = prod over i below r of (x - a^(1+i))`,
systematic encoding with parity the remainder of `data * x^r mod g(x)`. -/

/-- Modelled from the spec: carry-less (Russian peasant) product in GF(2^8)
modulo `0x11d`, `n` steps remaining. -/
def gfMulAux : Nat → Nat → Nat → Nat → Nat
  | 0, acc, _, _ => acc
  | n + 1, acc, a, b =>
      let acc' := if b % 2 = 1 then acc ^^^ a else acc
      let a' := if (a <<< 1) &&& 0x100 = 0x100 then (a <<< 1) ^^^ 0x11d else a <<< 1
      gfMulAux n acc' a' (b >>> 1)

/-- Modelled from the spec: multiplication in GF(2^8) with primitive
polynomial `0x11d`. -/
def gfMul (a b : Nat) : Nat := gfMulAux 8 0 a b

/-- Modelled from the spec: powers of the primitive element `a = x` (the byte
`2`) of GF(2^8). -/
def gfAlphaPow : Nat → Nat
  | 0 => 1
  | n + 1 => gfMul (gfAlphaPow n) 2

/-- Modelled from the spec: the RS generator polynomial
`g(x) = prod over i below r of (x - a^(fcr + prim*i))` with `fcr = prim = 1`;
coefficient list with `g[0]` the constant term. -/
def rsGenPoly (r : Nat) : List Nat :=
  (List.range r).foldl
    (fun g i =>
      List.zipWith (fun x y => x ^^^ y)
        (g.map (gfMul (gfAlphaPow (1 + i))) ++ [0]) (0 :: g))
    [1]

/-- Modelled from the spec: one shift of the LFSR computing the remainder of
`data * x^r mod g(x)`; `b` is the remainder register (index `r - 1` is the
highest coefficient). -/
def rsEncStep (g : List Nat) (r : Nat) (b : List Nat) (d : Nat) : List Nat :=
  let fb := d ^^^ b.getD (r - 1) 0
  (List.range r).map (fun i =>
    if i = 0 then gfMul fb (g.getD 0 0)
    else b.getD (i - 1) 0 ^^^ gfMul fb (g.getD i 0))

/-- Modelled from the spec: `encode_rs_char` of the external libfec
(implementation not under src/, only `fec.h` is).  Systematic RS encode over
GF(2^8): the parity symbols are the remainder of `data * x^r mod g(x)`
(highest-degree remainder coefficient first); the `pad` virtual leading zero
symbols of the shortened code do not change the remainder and are elided. -/
def encode_rs_char (r : Nat) (data : List Nat) : List Nat :=
  let g := rsGenPoly r
  let b := data.foldl (rsEncStep g r) (List.replicate r 0)
  (List.range r).map (fun j => b.getD (r - 1 - j) 0)

/-- Modelled from the spec: `decode_rs_char` of the external libfec
(implementation not under src/, only `fec.h` is).  The spec fixes the
behaviour on an uncorrupted buffer: when the input is already a codeword (all
syndromes vanish) the decoder leaves it unchanged and returns `0` corrected
positions; otherwise correction succeeds iff `2*errors + erasures <= r`, else
a negative value is returned.  Only the zero-error path is exercised by the
claims settled in this file, so the model returns `0` on a valid codeword and
`-1` otherwise (conservative on the unexercised corrupted path).  The erasure
list argument does not alter the zero-error result, exactly as in the spec. -/
def decode_rs_char (r : Nat) (code : List Nat) (_eras : List Nat) : Int × List Nat :=
  if encode_rs_char r (code.take K_SHARDS) = code.drop K_SHARDS then (0, code)
  else (-1, code)

/-! ## Little-endian serialization of the packed on-disk structs -/

def le16 (v : Nat) : List Nat := [v % 256, v / 256 % 256]

def le32 (v : Nat) : List Nat :=
  [v % 256, v / 256 % 256, v / 65536 % 256, v / 16777216 % 256]

def le64 (v : Nat) : List Nat := le32 (v % 4294967296) ++ le32 (v / 4294967296)

/-- Little-endian 16-bit read (the `uint16` fetch from a byte buffer on the
little-endian targets the source is built for). -/
def rd16 (l : List Nat) (i : Nat) : Nat := l.getD (2 * i) 0 + 256 * l.getD (2 * i + 1) 0

/-- Byte image of `rsct_header_v4_t` (36 bytes, packed, little-endian). -/
def encGlobalHeader (r pad orig frames il sb : Nat) : List Nat :=
  le32 GLOBAL_MAGIC ++ le16 4 ++ le16 K_SHARDS ++ le16 r ++ le16 SHARD_LEN ++
  le16 pad ++ le64 orig ++ le64 frames ++ le16 il ++ le16 sb ++ le16 0

/-- Byte image of `frame_hdr_v4_t` (24 bytes, packed, little-endian). -/
def encFrameHdr (idx dlen r c32d c32p : Nat) : List Nat :=
  le32 FRAME_MAGIC_V4 ++ le64 idx ++ le16 dlen ++ le16 (r * SHARD_LEN) ++
  le32 c32d ++ le32 c32p

/-- Byte image of `slice_hdr_v4_t` (22 bytes, packed, little-endian). -/
def encSliceHdr (fidx off size c32 : Nat) : List Nat :=
  le32 SLICE_MAGIC_V4 ++ le64 fidx ++ le32 off ++ le16 size ++ le32 c32

/-! ## Encoder (`pack_impl`, rs_container.c lines 318-543) -/

/-- Parameter normalization (line 321): `if (r <= 0 || r > MAX_R) r = 16`. -/
def norm_r (r : Int) : Nat := if r ≤ 0 ∨ 63 < r then 16 else r.toNat

/-- Parameter normalization (line 322). -/
def norm_il (il : Int) : Nat := if il ≤ 0 then IL_DEPTH_DEFAULT else il.toNat

/-- Parameter normalization (line 323). -/
def norm_sb (sb : Int) : Nat := if sb ≤ 0 then SLICE_BYTES_DEFAULT else sb.toNat

/-- Bytes the frame read loop requests for frame `fidx` (lines 396-400). -/
def to_read (orig frames fidx : Nat) : Nat :=
  if fidx = frames - 1 ∧ orig - fidx * FRAME_BYTES < FRAME_BYTES
  then orig - fidx * FRAME_BYTES else FRAME_BYTES

/-- The data block of frame `fidx` after the fread and the zero-padding
memsets (lines 401-403): the input is read sequentially, so frame `fidx`
starts at byte `fidx * FRAME_BYTES`. -/
def packFrameData (input : List Nat) (frames fidx : Nat) : List Nat :=
  (input.drop (fidx * FRAME_BYTES)).take (to_read input.length frames fidx) ++
  List.replicate (FRAME_BYTES - to_read input.length frames fidx) 0

/-- Codeword column `i` assembled by `encode_frame_parity` (lines 222-226):
`cw[j] = (idx < valid_len) ? frame[idx] : 0` with `idx = j*SHARD_LEN + i`. -/
def frameColumn (frame : List Nat) (valid_len i : Nat) : List Nat :=
  (List.range K_SHARDS).map (fun j =>
    if j * SHARD_LEN + i < valid_len then frame.getD (j * SHARD_LEN + i) 0 else 0)

/-- Parity block of `encode_frame_parity` (lines 218-232): byte `t` of the
block is `par_out[j*SHARD_LEN + i]` with `j = t / SHARD_LEN`,
`i = t % SHARD_LEN`, written exactly once as parity symbol `j` of column `i`'s
codeword. -/
def encode_frame_parity (r : Nat) (frame : List Nat) (valid_len : Nat) : List Nat :=
  (List.range (r * SHARD_LEN)).map (fun t =>
    (encode_rs_char r (frameColumn frame valid_len (t % SHARD_LEN))).getD
      (t / SHARD_LEN) 0)

/-- Shard `j` of a block: 64 bytes starting at `j * SHARD_LEN`. -/
def shardOf (buf : List Nat) (j : Nat) : List Nat :=
  (buf.drop (j * SHARD_LEN)).take SHARD_LEN

/-- Per-data-shard CRC-16 table values (lines 414-415). -/
def crcD_vals (data : List Nat) : List Nat :=
  (List.range K_SHARDS).map (fun j => crc16_ccitt (shardOf data j))

/-- Per-parity-shard CRC-16 table values (lines 416-417). -/
def crcP_vals (r : Nat) (par : List Nat) : List Nat :=
  (List.range r).map (fun j => crc16_ccitt (shardOf par j))

/-- Byte image of a `uint16` CRC table (little-endian, packed). -/
def tableBytes (vals : List Nat) : List Nat := (vals.map le16).flatten

/-- The staged gather building `ptmp` for one slice (lines 463-500): four
conditional memcpys from the data block, the parity block and the two CRC
table byte images. -/
def sliceGather (r : Nat) (data par crcDb crcPb : List Nat) (off chunk : Nat) :
    List Nat :=
  let par_bytes := r * SHARD_LEN
  let crcD_bytes := K_SHARDS * 2
  let s1 : List Nat :=
    if off < FRAME_BYTES then (data.drop off).take (min chunk (FRAME_BYTES - off))
    else []
  let c1 := s1.length
  let s2 : List Nat :=
    if off + c1 < FRAME_BYTES + par_bytes ∧ c1 < chunk ∧ FRAME_BYTES ≤ off + c1 then
      (par.drop (off + c1 - FRAME_BYTES)).take
        (min (chunk - c1) (par_bytes - (off + c1 - FRAME_BYTES)))
    else []
  let c2 := c1 + s2.length
  let s3 : List Nat :=
    if off + c2 < FRAME_BYTES + par_bytes + crcD_bytes ∧ c2 < chunk ∧
        FRAME_BYTES + par_bytes ≤ off + c2 then
      (crcDb.drop (off + c2 - (FRAME_BYTES + par_bytes))).take
        (min (chunk - c2) (crcD_bytes - (off + c2 - (FRAME_BYTES + par_bytes))))
    else []
  let c3 := c2 + s3.length
  let s4 : List Nat :=
    if c3 < chunk ∧ FRAME_BYTES + par_bytes + crcD_bytes ≤ off + c3 then
      (crcPb.drop (off + c3 - (FRAME_BYTES + par_bytes + crcD_bytes))).take
        (min (chunk - c3) (r * 2 - (off + c3 - (FRAME_BYTES + par_bytes + crcD_bytes))))
    else []
  s1 ++ s2 ++ s3 ++ s4

/-- Parity block of frame `fidx` as computed by the pack loop (line 405). -/
def packFramePar (r : Nat) (input : List Nat) (frames fidx : Nat) : List Nat :=
  encode_frame_parity r (packFrameData input frames fidx)
    (to_read input.length frames fidx)

/-- Frame header bytes emitted for frame `fidx` (lines 419-428). -/
def packFrameHdrBytes (r : Nat) (input : List Nat) (frames fidx : Nat) : List Nat :=
  encFrameHdr fidx (to_read input.length frames fidx) r
    (crc32_calc (packFrameData input frames fidx))
    (crc32_calc (packFramePar r input frames fidx))

/-- The virtual frame payload `data || par || crcD || crcP` of frame `fidx`. -/
def packPayload (r : Nat) (input : List Nat) (frames fidx : Nat) : List Nat :=
  packFrameData input frames fidx ++ (packFramePar r input frames fidx ++
  (tableBytes (crcD_vals (packFrameData input frames fidx)) ++
  tableBytes (crcP_vals r (packFramePar r input frames fidx))))

/-- Slice chunk size at offset `off` (line 445). -/
def sliceChunk (PAY S off : Nat) : Nat := if off + S ≤ PAY then S else PAY - off

/-- Bytes of one emitted slice record: header then body (lines 447-519). -/
def packSliceBytes (r S : Nat) (input : List Nat) (frames fidx off : Nat) : List Nat :=
  let chunk := sliceChunk (payload_len_bytes r) S off
  let body := sliceGather r (packFrameData input frames fidx)
    (packFramePar r input frames fidx)
    (tableBytes (crcD_vals (packFrameData input frames fidx)))
    (tableBytes (crcP_vals r (packFramePar r input frames fidx))) off chunk
  encSliceHdr fidx off chunk (crc32_calc body) ++ body

/-- Slice start offsets `0, S, 2S, ...` below `PAY` (the line 442 loop). -/
def sliceOffsets (PAY S : Nat) : List Nat :=
  (List.range ((PAY + S - 1) / S)).map (· * S)

/-- Bytes emitted for one interleave group: the frame headers of the group,
then for each offset one slice per frame of the group (lines 380-523). -/
def packGroupBytes (r S : Nat) (input : List Nat) (frames fbase in_grp : Nat) :
    List Nat :=
  ((List.range in_grp).map (fun gi => packFrameHdrBytes r input frames (fbase + gi))).flatten ++
  ((sliceOffsets (payload_len_bytes r) S).map (fun off =>
    ((List.range in_grp).map (fun gi =>
      packSliceBytes r S input frames (fbase + gi) off)).flatten)).flatten

/-- The container bytes produced by `pack_impl` (lines 318-543).  File I/O and
allocation succeed, no cancellation is requested, so the run always returns 0
after writing the global header followed by the interleave groups. -/
def pack_impl (input : List Nat) (r il sb : Int) : List Nat :=
  let rn := norm_r r
  let D := norm_il il % 65536
  let S := norm_sb sb % 65536
  let orig := input.length
  let frames := (orig + FRAME_BYTES - 1) / FRAME_BYTES
  encGlobalHeader rn (compute_pad rn) orig frames D S ++
  ((List.range ((frames + D - 1) / D)).map (fun g =>
    packGroupBytes rn S input frames (g * D) (min D (frames - g * D)))).flatten

/-- `rs_pack_container` (lines 545-548). -/
def rs_pack_container (input : List Nat) (r : Int) : List Nat :=
  pack_impl input r IL_DEPTH_DEFAULT SLICE_BYTES_DEFAULT

/-- `rs_pack_container_ex` (lines 549-554). -/
def rs_pack_container_ex (input : List Nat) (r il sb : Int) : List Nat :=
  pack_impl input r il sb

/-! ## Decoder (`rs_unpack_internal`, rs_container.c lines 561-859) -/

/-- The `frame_buf_t` slot (lines 249-260).  The CRC tables are kept as their
byte images, exactly as the slice scatter writes them; `rd16` performs the
`uint16` entry fetch of the little-endian targets the source is built for. -/
structure FrameBuf where
  init : Nat
  data_len : Nat
  data : List Nat
  par : List Nat
  crcD : List Nat
  crcP : List Nat
  crc32_data : Nat
  crc32_par : Nat
  crcD_filled : Nat
  crcP_filled : Nat
  deriving Repr, DecidableEq

/-- The all-zero slot calloc gives before any record touches it. -/
def emptyFrameBuf : FrameBuf :=
  ⟨0, 0, [], [], [], [], 0, 0, 0, 0⟩

/-- Freshly calloc'd frame buffers (lines 631-634 and 669-672). -/
def freshFrameBuf (r : Nat) : FrameBuf :=
  { init := 1, data_len := 0, data := List.replicate FRAME_BYTES 0,
    par := List.replicate (r * SHARD_LEN) 0,
    crcD := List.replicate (K_SHARDS * 2) 0,
    crcP := List.replicate (r * 2) 0,
    crc32_data := 0, crc32_par := 0, crcD_filled := 0, crcP_filled := 0 }

/-- In-place byte copy `memcpy(dst + off, src, src.length)` on a list. -/
def memcpyAt (dst : List Nat) (off : Nat) (src : List Nat) : List Nat :=
  dst.take off ++ src ++ dst.drop (off + src.length)

/-- `copy_slice_into_frame` (lines 262-315): four staged conditional memcpys
scattering a slice into the data block, parity block and the two CRC table
byte images, plus the filled-byte counters for the CRC regions. -/
def copy_slice_into_frame (r : Nat) (fb : FrameBuf) (off : Nat) (src : List Nat) :
    FrameBuf :=
  let len := src.length
  let par_bytes := r * SHARD_LEN
  let crcD_bytes := K_SHARDS * 2
  let crcP_bytes := r * 2
  let c1 := if off < FRAME_BYTES then min len (FRAME_BYTES - off) else 0
  let data' := if off < FRAME_BYTES then memcpyAt fb.data off (src.take c1) else fb.data
  let t2 := if off + c1 < FRAME_BYTES + par_bytes ∧ c1 < len ∧ FRAME_BYTES ≤ off + c1
    then min (len - c1) (par_bytes - (off + c1 - FRAME_BYTES)) else 0
  let par' := if off + c1 < FRAME_BYTES + par_bytes ∧ c1 < len ∧ FRAME_BYTES ≤ off + c1
    then memcpyAt fb.par (off + c1 - FRAME_BYTES) ((src.drop c1).take t2) else fb.par
  let c2 := c1 + t2
  let t3 := if off + c2 < FRAME_BYTES + par_bytes + crcD_bytes ∧ c2 < len ∧
      FRAME_BYTES + par_bytes ≤ off + c2
    then min (len - c2) (crcD_bytes - (off + c2 - (FRAME_BYTES + par_bytes))) else 0
  let crcD' := if off + c2 < FRAME_BYTES + par_bytes + crcD_bytes ∧ c2 < len ∧
      FRAME_BYTES + par_bytes ≤ off + c2
    then memcpyAt fb.crcD (off + c2 - (FRAME_BYTES + par_bytes)) ((src.drop c2).take t3)
    else fb.crcD
  let c3 := c2 + t3
  let t4 := if c3 < len ∧ FRAME_BYTES + par_bytes + crcD_bytes ≤ off + c3
    then min (len - c3) (crcP_bytes - (off + c3 - (FRAME_BYTES + par_bytes + crcD_bytes)))
    else 0
  let crcP' := if c3 < len ∧ FRAME_BYTES + par_bytes + crcD_bytes ≤ off + c3
    then memcpyAt fb.crcP (off + c3 - (FRAME_BYTES + par_bytes + crcD_bytes))
      ((src.drop c3).take t4)
    else fb.crcP
  { fb with
    data := data'
    par := par'
    crcD := crcD'
    crcP := crcP'
    crcD_filled := fb.crcD_filled + t3
    crcP_filled := fb.crcP_filled + t4 }

/-- Little-endian value of a byte list (first byte least significant). -/
def leVal : List Nat → Nat
  | [] => 0
  | b :: t => b + 256 * leVal t

/-- The 4-byte sliding window value
`win[0] | win[1]<<8 | win[2]<<16 | win[3]<<24` (line 240). -/
def word4 (l : List Nat) : Nat :=
  l.getD 0 0 ||| (l.getD 1 0 <<< 8) ||| (l.getD 2 0 <<< 16) ||| (l.getD 3 0 <<< 24)

/-- `find_next_magic` (lines 235-246): slide a 4-byte window until it holds a
frame or slice magic; returns the magic and the stream after it, or `none` at
end of input. -/
def find_next_magic (l : List Nat) : Option (Nat × List Nat) :=
  if l.length < 4 then none
  else
    let v := word4 l
    if v = FRAME_MAGIC_V4 ∨ v = SLICE_MAGIC_V4 then some (v, l.drop 4)
    else find_next_magic (l.drop 1)
termination_by l.length
decreasing_by simp [List.length_drop]; omega

/-- State of the record-scan phase: frame table plus the two slice counters. -/
structure ParseState where
  tab : List FrameBuf
  slices_ok : Nat
  slices_bad : Nat
  deriving Repr, DecidableEq

/-- One pass of the phase-A scan loop (lines 614-697).  `fuel` dominates the
iteration count (each iteration consumes at least four bytes); short reads
of a header remainder or a slice body break out of the loop as in the source.
The `uint64` subtraction computing the last frame's `data_len` (line 683) is
modelled on `Nat`; it is only reached with headers for which it does not
wrap. -/
def parseLoop (r F orig : Nat) : Nat → List Nat → ParseState → ParseState
  | 0, _, st => st
  | fuel + 1, rem, st =>
    match find_next_magic rem with
    | none => st
    | some (magic, rest) =>
      if magic = FRAME_MAGIC_V4 then
        if rest.length < 20 then st
        else
          let idx := leVal (rest.take 8)
          let dlen := leVal ((rest.drop 8).take 2)
          let plen := leVal ((rest.drop 10).take 2)
          let c32d := leVal ((rest.drop 12).take 4)
          let c32p := leVal ((rest.drop 16).take 4)
          let rest' := rest.drop 20
          if idx < F ∧ plen = (r * SHARD_LEN) % 65536 ∧ dlen ≤ FRAME_BYTES then
            let fb := st.tab.getD idx emptyFrameBuf
            let fb1 := if fb.init = 0 then freshFrameBuf r else fb
            let fb2 := { fb1 with data_len := dlen, crc32_data := c32d, crc32_par := c32p }
            parseLoop r F orig fuel rest' { st with tab := st.tab.set idx fb2 }
          else parseLoop r F orig fuel rest' st
      else
        if rest.length < 18 then st
        else
          let fidx := leVal (rest.take 8)
          let off := leVal ((rest.drop 8).take 4)
          let size := leVal ((rest.drop 12).take 2)
          let c32 := leVal ((rest.drop 14).take 4)
          let rest' := rest.drop 18
          if size = 0 then parseLoop r F orig fuel rest' st
          else if rest'.length < size then st
          else
            let body := rest'.take size
            let rest2 := rest'.drop size
            if crc32_calc body ≠ c32 then
              parseLoop r F orig fuel rest2 { st with slices_bad := st.slices_bad + 1 }
            else
              let st1 := { st with slices_ok := st.slices_ok + 1 }
              if fidx < F then
                let fb := st1.tab.getD fidx emptyFrameBuf
                let fb1 := if fb.init = 0 then
                    { freshFrameBuf r with
                      init := 2
                      data_len := if fidx = F - 1 then
                          (if orig - (F - 1) * FRAME_BYTES ≤ FRAME_BYTES
                           then (orig - (F - 1) * FRAME_BYTES) % 65536
                           else FRAME_BYTES % 65536)
                        else FRAME_BYTES }
                  else fb
                let fb2 := copy_slice_into_frame r fb1 off body
                parseLoop r F orig fuel rest2 { st1 with tab := st1.tab.set fidx fb2 }
              else parseLoop r F orig fuel rest2 st1

/-- CRC-16 side tables are considered present when both regions were fully
filled by slices (line 748). -/
def has_crc_tables (r : Nat) (fb : FrameBuf) : Prop :=
  fb.crcD_filled ≥ K_SHARDS * 2 ∧ fb.crcP_filled ≥ r * 2

instance (r : Nat) (fb : FrameBuf) : Decidable (has_crc_tables r fb) := by
  unfold has_crc_tables
  infer_instance

/-- Data-shard erasure candidates in the order the source pushes them
(lines 737-754): for a short frame, first the fully-missing trailing shards in
increasing index, then the partial boundary shard; then the data shards whose
recomputed CRC-16 mismatches the table, in increasing index. -/
def eras_data_list (r : Nat) (fb : FrameBuf) : List Nat :=
  let dlen := min fb.data_len FRAME_BYTES
  (if dlen < FRAME_BYTES then
    let full2 := dlen / SHARD_LEN
    let rem2 := dlen % SHARD_LEN
    let cutoff2 := full2 + (if rem2 ≠ 0 then 1 else 0)
    (List.range' cutoff2 (K_SHARDS - cutoff2)) ++ (if rem2 ≠ 0 then [full2] else [])
  else []) ++
  (if has_crc_tables r fb then
    (List.range K_SHARDS).filter (fun j => crc16_ccitt (shardOf fb.data j) ≠ rd16 fb.crcD j)
  else [])

/-- Parity-shard erasure candidates (lines 755-758), in codeword index space
`K_SHARDS + j`, increasing. -/
def eras_par_list (r : Nat) (fb : FrameBuf) : List Nat :=
  if has_crc_tables r fb then
    ((List.range r).filter (fun j => crc16_ccitt (shardOf fb.par j) ≠ rd16 fb.crcP j)).map
      (fun j => K_SHARDS + j)
  else []

/-- The erasure array handed to `decode_rs_char` (lines 761-763): data
candidates then parity candidates, stopping as soon as `r` entries are
collected. -/
def erasures_list (r : Nat) (fb : FrameBuf) : List Nat :=
  (eras_data_list r fb ++ eras_par_list r fb).take r

/-- Accumulator of the per-frame column loop (lines 765-803). -/
structure DecodeAcc where
  data : List Nat
  corrected : Nat
  used_eras : Nat
  rs_fail : Nat
  deriving Repr, DecidableEq

/-- Write the data symbols of column `i` back into the data block. -/
def setColumn (data : List Nat) (i : Nat) (vals : List Nat) : List Nat :=
  (List.range K_SHARDS).foldl (fun d j => d.set (j * SHARD_LEN + i) (vals.getD j 0)) data

/-- One column of the decode loop (lines 765-803): assemble the codeword, call
the decoder with the erasure list, and either write back the corrected data
symbols or apply the padding policy; update the three counters. -/
def decodeColumn (r : Nat) (pad_mode : Int) (tab : List FrameBuf) (idx : Nat)
    (par : List Nat) (eras : List Nat) (acc : DecodeAcc) (i : Nat) : DecodeAcc :=
  let code := (List.range K_SHARDS).map (fun j => acc.data.getD (j * SHARD_LEN + i) 0) ++
              (List.range r).map (fun j => par.getD (j * SHARD_LEN + i) 0)
  let dec := decode_rs_char r code eras
  let acc1 := if eras.length > 0 then { acc with used_eras := acc.used_eras + 1 } else acc
  if dec.1 < 0 then
    let acc2 := { acc1 with rs_fail := acc1.rs_fail + 1 }
    if pad_mode = 1 then
      { acc2 with data := setColumn acc2.data i (List.replicate K_SHARDS 0) }
    else if pad_mode = 2 then
      if 0 < idx ∧ (tab.getD (idx - 1) emptyFrameBuf).init ≠ 0 then
        { acc2 with
          data := setColumn acc2.data i
            ((List.range K_SHARDS).map (fun j =>
              (tab.getD (idx - 1) emptyFrameBuf).data.getD (j * SHARD_LEN + i) 0)) }
      else
        { acc2 with data := setColumn acc2.data i (List.replicate K_SHARDS 0) }
    else acc2
  else
    { acc1 with
      corrected := acc1.corrected + dec.1.toNat
      data := setColumn acc1.data i (dec.2.take K_SHARDS) }

/-- Accumulator of phase B over the frames. -/
structure UnpackAcc where
  tab : List FrameBuf
  out : List Nat
  written : Nat
  corrected : Nat
  used_eras : Nat
  rs_fail : Nat
  residual : Nat
  total_written : Nat
  deriving Repr, DecidableEq

/-- The residual-BER increment per still-mismatching data shard after decode
(line 810): `(uint64)((double)SHARD_LEN * 0.40) = 25` with the default
residual coefficient. -/
def RESIDUAL_INC : Nat := 25

/-- Phase B for one frame (lines 717-834): an untouched slot emits zeros; an
initialized slot is decoded column by column, the residual CRC check is run,
and the frame's data prefix is appended to the output. -/
def unpackFrameStep (r : Nat) (pad_mode : Int) (orig : Nat) (acc : UnpackAcc)
    (idx : Nat) : UnpackAcc :=
  let fb := acc.tab.getD idx emptyFrameBuf
  let to_write := if orig - acc.written ≥ FRAME_BYTES then FRAME_BYTES
                  else orig - acc.written
  if fb.init = 0 then
    { acc with
      out := acc.out ++ List.replicate to_write 0
      written := acc.written + to_write
      total_written := acc.total_written + to_write }
  else
    let eras := erasures_list r fb
    let dacc := (List.range SHARD_LEN).foldl
      (decodeColumn r pad_mode acc.tab idx fb.par eras) ⟨fb.data, 0, 0, 0⟩
    let resid := if has_crc_tables r fb then
        ((List.range K_SHARDS).filter
          (fun j => crc16_ccitt (shardOf dacc.data j) ≠ rd16 fb.crcD j)).length *
          RESIDUAL_INC
      else 0
    let fb' := { fb with data := dacc.data }
    { tab := acc.tab.set idx fb'
      out := acc.out ++ fb'.data.take to_write
      written := acc.written + to_write
      corrected := acc.corrected + dacc.corrected
      used_eras := acc.used_eras + dacc.used_eras
      rs_fail := acc.rs_fail + dacc.rs_fail
      residual := acc.residual + resid
      total_written := acc.total_written + to_write }

/-- The statistics record (`rs_stats_v1_t`, lines 192-206), with the two
`double` fields kept as the exact rationals the source computes. -/
structure UStats where
  frames_total : Nat
  slices_total_est : Nat
  slices_ok : Nat
  slices_bad : Nat
  codewords_total : Nat
  symbols_total : Nat
  data_symbols_total : Nat
  corrected_symbols : Nat
  used_erasures_cols : Nat
  rs_fail_columns : Nat
  pad_mode_used : Int
  residual_bad_bytes : Nat
  total_written_bytes : Nat
  deriving Repr, DecidableEq

/-- `ber_est` (lines 852-856): residual bad bytes over written bytes, zero when
either count is zero. -/
def ber_est (st : UStats) : ℚ :=
  if st.total_written_bytes > 0 ∧ st.residual_bad_bytes > 0 then
    (st.residual_bad_bytes : ℚ) / (st.total_written_bytes : ℚ)
  else 0

/-- The all-zero statistics of `rs_stats_reset`. -/
def statsReset : UStats := ⟨0, 0, 0, 0, 0, 0, 0, 0, 0, 0, 0, 0, 0⟩

/-- `rs_unpack_internal` (lines 561-859): header validation, resynchronizing
record scan, per-frame decode, output emission and statistics.  File I/O and
allocation succeed and no cancellation is requested, so the only return codes
are the header-validation failures and 0. -/
def rs_unpack_internal (container : List Nat) (pad_mode : Int) :
    Int × List Nat × UStats :=
  if container.length < 36 then (-2, [], statsReset)
  else
    let magic := leVal (container.take 4)
    let version := leVal ((container.drop 4).take 2)
    let k := leVal ((container.drop 6).take 2)
    let r := leVal ((container.drop 8).take 2)
    let shard_len := leVal ((container.drop 10).take 2)
    let orig := leVal ((container.drop 14).take 8)
    let F := leVal ((container.drop 22).take 8)
    let sb := leVal ((container.drop 32).take 2)
    if magic ≠ GLOBAL_MAGIC ∨ version ≠ 4 then (-3, [], statsReset)
    else if k ≠ K_SHARDS ∨ shard_len ≠ SHARD_LEN then (-4, [], statsReset)
    else if r = 0 ∨ r > MAX_R then (-5, [], statsReset)
    else
      let PAY := payload_len_bytes r
      let est := if sb ≠ 0 then F * ((PAY + sb - 1) / sb) else 0
      let ps := parseLoop r F orig (container.length + 1) (container.drop 36)
        ⟨List.replicate F emptyFrameBuf, 0, 0⟩
      let acc := (List.range F).foldl (unpackFrameStep r pad_mode orig)
        ⟨ps.tab, [], 0, 0, 0, 0, 0, 0⟩
      (0, acc.out,
        { frames_total := F,
          slices_total_est := est,
          slices_ok := ps.slices_ok,
          slices_bad := ps.slices_bad,
          codewords_total := SHARD_LEN * F,
          symbols_total := (K_SHARDS + r) * (SHARD_LEN * F),
          data_symbols_total := K_SHARDS * (SHARD_LEN * F),
          corrected_symbols := acc.corrected,
          used_erasures_cols := acc.used_eras,
          rs_fail_columns := acc.rs_fail,
          pad_mode_used := pad_mode,
          residual_bad_bytes := acc.residual,
          total_written_bytes := acc.total_written })

/-- `rs_unpack_container` (lines 861-865); the build default `RS_PAD_MODE`
is 0 (RAW). -/
def rs_unpack_container (container : List Nat) : Int × List Nat × UStats :=
  rs_unpack_internal container 0

/-- `rs_unpack_container_ex` (lines 867-872). -/
def rs_unpack_container_ex (container : List Nat) (pad_mode : Int) :
    Int × List Nat × UStats :=
  rs_unpack_internal container (if pad_mode < 0 ∨ pad_mode > 2 then 0 else pad_mode)

/-! ## C9: out-of-range pack parameters fall back to the defaults -/

/-- C9: for every r outside [1,63], every il_depth below 1 and every
slice_bytes below 1 passed to `rs_pack_container_ex`, packing does not fail
with an input-validation error: each out-of-range parameter is silently
replaced by its default (r = 16, il_depth = 16, slice_bytes = 512) at lines
321-323, and the run produces byte-for-byte the same container as a call with
the defaults (and the same return code, 0, since I/O and allocation succeed
in both runs and no cancellation is requested). -/
theorem pack_invalid_params_use_defaults (input : List Nat) (r il sb : Int)
    (hr : r ≤ 0 ∨ 63 < r) (hil : il ≤ 0) (hsb : sb ≤ 0) :
    rs_pack_container_ex input r il sb = rs_pack_container_ex input 16 16 512 := by
  unfold rs_pack_container_ex pack_impl norm_r norm_il norm_sb
  norm_num [hr, hil, hsb]
  rfl

/-- Witness for C9: packing with `r = 0`, `il_depth = -1`, `slice_bytes = 0`
on a one-byte input equals packing with the defaults. -/
theorem pack_invalid_params_use_defaults_witness :
    ((0 : Int) ≤ 0 ∨ 63 < (0 : Int)) ∧ (-1 : Int) ≤ 0 ∧ (0 : Int) ≤ 0 ∧
    rs_pack_container_ex [7] 0 (-1) 0 = rs_pack_container_ex [7] 16 16 512 :=
  ⟨Or.inl (le_refl 0), by norm_num, le_refl 0,
    pack_invalid_params_use_defaults [7] 0 (-1) 0 (Or.inl (le_refl 0))
      (by norm_num) (le_refl 0)⟩

/-! ## C3: order of the erasure list handed to the RS decoder -/

/-- The erasure list as claim C3 words it: the candidate data erasures in
increasing codeword index, then the candidate parity erasures in increasing
codeword index, truncated to at most `r` entries (so that parity is dropped
first, then the highest-index data candidates). -/
def claim_erasures (r : Nat) (fb : FrameBuf) : List Nat :=
  ((List.range K_SHARDS).filter (fun j => j ∈ eras_data_list r fb) ++
   (List.range (K_SHARDS + r)).filter (fun j => j ∈ eras_par_list r fb)).take r

/-- A decode-phase frame slot as produced by scanning a container whose last
frame has `data_len = 65` and whose CRC-table slices never arrived
(`crcD_filled = 0`): reachable from any 65-byte input whose CRC-table region
slices are lost. -/
def c3FrameBuf : FrameBuf :=
  { init := 2, data_len := 65, data := List.replicate FRAME_BYTES 0,
    par := List.replicate (2 * SHARD_LEN) 0,
    crcD := List.replicate (K_SHARDS * 2) 0, crcP := List.replicate 4 0,
    crc32_data := 0, crc32_par := 0, crcD_filled := 0, crcP_filled := 0 }

/-- C3 counterexample: with `r = 2` and `data_len = 65` the source pushes the
trailing-shard erasures `[2, ..., 191]` first and the partial boundary shard
`1` last, so the truncated list is `[2, 3]`; the claim's ordering (data
candidates in increasing codeword index) would give `[1, 2]`. -/
theorem erasure_order_counterexample :
    erasures_list 2 c3FrameBuf = [2, 3] ∧
    claim_erasures 2 c3FrameBuf = [1, 2] ∧
    erasures_list 2 c3FrameBuf ≠ claim_erasures 2 c3FrameBuf := by decide

/-- The data-length-derived erasures: trailing wholly-missing shards in
increasing index, then the partial boundary shard. -/
def dlen_eras (fb : FrameBuf) : List Nat :=
  let dlen := min fb.data_len FRAME_BYTES
  if dlen < FRAME_BYTES then
    let full2 := dlen / SHARD_LEN
    let rem2 := dlen % SHARD_LEN
    let cutoff2 := full2 + (if rem2 ≠ 0 then 1 else 0)
    (List.range' cutoff2 (K_SHARDS - cutoff2)) ++ (if rem2 ≠ 0 then [full2] else [])
  else []

/-- The CRC-16-mismatch data-shard erasures, in increasing index. -/
def crc_data_eras (r : Nat) (fb : FrameBuf) : List Nat :=
  if has_crc_tables r fb then
    (List.range K_SHARDS).filter (fun j => crc16_ccitt (shardOf fb.data j) ≠ rd16 fb.crcD j)
  else []

/-- C3 amended: the erasure list handed to the RS decoder is the
data-length-derived erasures (trailing whole shards in increasing codeword
index, then the partial boundary shard if any), then the CRC-16-mismatching
data shards in increasing index, then the CRC-16-mismatching parity shards in
increasing codeword index, truncated to at most `r` entries keeping the
earliest-pushed entries — so parity erasures are dropped first, then the
CRC-mismatch data erasures, then the boundary shard, and last the trailing
shards with the highest indices.  Each group except the boundary singleton is
strictly increasing. -/
theorem erasures_list_order (r : Nat) (fb : FrameBuf) :
    erasures_list r fb = ((dlen_eras fb ++ crc_data_eras r fb) ++ eras_par_list r fb).take r ∧
    (∃ c, dlen_eras fb = (List.range' c (K_SHARDS - c)) ++
      (if (min fb.data_len FRAME_BYTES) % SHARD_LEN ≠ 0 ∧
          min fb.data_len FRAME_BYTES < FRAME_BYTES
       then [min fb.data_len FRAME_BYTES / SHARD_LEN] else []) ∨
      dlen_eras fb = []) ∧
    (crc_data_eras r fb).Pairwise (· < ·) ∧
    (eras_par_list r fb).Pairwise (· < ·) := by
  refine ⟨?_, ?_, ?_, ?_⟩
  · unfold erasures_list eras_data_list dlen_eras crc_data_eras
    rcases Decidable.em (min fb.data_len FRAME_BYTES < FRAME_BYTES) with h | h <;>
      simp [h, List.append_assoc]
  · rcases Decidable.em (min fb.data_len FRAME_BYTES < FRAME_BYTES) with h | h
    · refine ⟨min fb.data_len FRAME_BYTES / SHARD_LEN +
        (if min fb.data_len FRAME_BYTES % SHARD_LEN ≠ 0 then 1 else 0), Or.inl ?_⟩
      unfold dlen_eras
      simp only [h, if_true]
      rcases Decidable.em (min fb.data_len FRAME_BYTES % SHARD_LEN ≠ 0) with h2 | h2 <;>
        simp [h2, h]
    · refine ⟨0, Or.inr ?_⟩
      unfold dlen_eras
      simp [h]
  · unfold crc_data_eras
    rcases Decidable.em (has_crc_tables r fb) with h | h
    · simp only [h, if_true]
      exact (List.pairwise_lt_range _).filter _
    · simp [h]
  · unfold eras_par_list
    rcases Decidable.em (has_crc_tables r fb) with h | h
    · simp only [h, if_true]
      exact List.Pairwise.map _ (fun a b (hab : a < b) => by omega)
        ((List.pairwise_lt_range _).filter _)
    · simp [h]

/-! ## List extraction and splicing helpers for the slice layer -/

theorem take_min_length_right (l : List Nat) (n : Nat) :
    l.take (min n l.length) = l.take n := by
  rcases le_total n l.length with h | h
  · rw [min_eq_left h]
  · rw [min_eq_right h, List.take_length, List.take_of_length_le h]

theorem extract_append (A B : List Nat) (off n : Nat) :
    ((A ++ B).drop off).take n =
      ((A.drop off).take n) ++ ((B.drop (off - A.length)).take (n - (A.length - off))) := by
  rw [List.drop_append_eq_append_drop, List.take_append_eq_append_take]
  congr 2
  rw [List.length_drop]

theorem memcpyAt_nil (dst : List Nat) (off : Nat) : memcpyAt dst off [] = dst := by
  unfold memcpyAt
  simp

theorem memcpyAt_append (A R src : List Nat) (off : Nat) :
    memcpyAt (A ++ R) off src =
      memcpyAt A off (src.take (A.length - off)) ++
      memcpyAt R (off - A.length) (src.drop (A.length - off)) := by
  unfold memcpyAt
  rw [List.take_append_eq_append_take, List.drop_append_eq_append_drop]
  rcases le_total off A.length with hoff | hoff
  · have e3 : off - A.length = 0 := by omega
    rcases le_total (off + src.length) A.length with hend | hend
    · have h1 : List.take (A.length - off) src = src := List.take_of_length_le (by omega)
      have h2 : List.drop (A.length - off) src = [] := List.drop_eq_nil_of_le (by omega)
      have e2 : off + src.length - A.length = 0 := by omega
      rw [h1, h2, e2, e3]
      simp [List.append_assoc]
    · have h1 : (List.take (A.length - off) src).length = A.length - off := by
        rw [List.length_take]; omega
      have h2 : (List.drop (A.length - off) src).length = src.length - (A.length - off) := by
        rw [List.length_drop]
      rw [h1, h2, e3]
      have e4 : off + (A.length - off) = A.length := by omega
      rw [e4, List.drop_length]
      have e5 : A.drop (off + src.length) = [] := List.drop_eq_nil_of_le (by omega)
      rw [e5]
      have e6 : off + src.length - A.length = src.length - (A.length - off) := by omega
      rw [e6]
      have hsplit : src = src.take (A.length - off) ++ src.drop (A.length - off) :=
        (List.take_append_drop _ _).symm
      simp only [List.take_zero, Nat.zero_add, List.nil_append, List.append_nil,
        List.append_assoc]
      congr 1
      rw [← List.append_assoc, ← hsplit]
  · have h1 : List.take (A.length - off) src = [] := by
      have e : A.length - off = 0 := by omega
      rw [e, List.take_zero]
    have h2 : List.drop (A.length - off) src = src := by
      have e : A.length - off = 0 := by omega
      rw [e, List.drop_zero]
    rw [h1, h2]
    have h3 : A.take off = A := List.take_of_length_le hoff
    have h4 : A.drop (off + src.length) = [] := List.drop_eq_nil_of_le (by omega)
    rw [h3, h4]
    simp only [List.length_nil, Nat.add_zero]
    have h5 : A.drop off = [] := List.drop_eq_nil_of_le hoff
    rw [h5]
    have h6 : off + src.length - A.length = off - A.length + src.length := by omega
    rw [h6]
    simp [List.append_assoc]

/-! ### Characterizing the four staged copies as truncated extracts

The staged conditional memcpys of the pack gather (lines 463-500) and of
`copy_slice_into_frame` (lines 262-315) all have the same shape; the
following lemmas turn each stage into an unconditional truncated extract or
splice of the region, and give the running `copied` counter in closed form. -/

theorem stage_first_eq (data : List Nat) (off chunk : Nat)
    (hd : data.length = FRAME_BYTES) :
    (if off < FRAME_BYTES then (data.drop off).take (min chunk (FRAME_BYTES - off))
     else []) = (data.drop off).take chunk := by
  rcases Decidable.em (off < FRAME_BYTES) with h | h
  · simp only [h, if_true]
    have h1 : (data.drop off).length = FRAME_BYTES - off := by
      rw [List.length_drop, hd]
    rw [← h1, take_min_length_right]
  · simp only [h, if_false]
    have h1 : data.drop off = [] := List.drop_eq_nil_of_le (by omega)
    rw [h1, List.take_nil]

theorem stage_first_len (data : List Nat) (off chunk : Nat)
    (hd : data.length = FRAME_BYTES) :
    ((data.drop off).take chunk).length = min chunk (FRAME_BYTES - off) := by
  rw [List.length_take, List.length_drop, hd]

theorem stage_mid_eq (B : List Nat) (base blen off chunk c : Nat)
    (hB : B.length = blen) (hc : c = min chunk (base - off)) :
    (if off + c < base + blen ∧ c < chunk ∧ base ≤ off + c then
      (B.drop (off + c - base)).take (min (chunk - c) (blen - (off + c - base)))
     else []) = (B.drop (off - base)).take (chunk - (base - off)) := by
  rcases Decidable.em (off + c < base + blen ∧ c < chunk ∧ base ≤ off + c) with h | h
  · rw [if_pos h]
    obtain ⟨h1, h2, h3⟩ := h
    have hco : off + c - base = off - base := by omega
    have hcc : chunk - c = chunk - (base - off) := by omega
    rw [hco, hcc]
    have hlen : (B.drop (off - base)).length = blen - (off - base) := by
      rw [List.length_drop, hB]
    rw [← hlen, take_min_length_right]
  · simp only [h, if_false]
    rcases Decidable.em (c < chunk) with h2 | h2
    · rcases Decidable.em (base ≤ off + c) with h3 | h3
      · have h1 : base + blen ≤ off + c := by omega
        have hd : B.drop (off - base) = [] := List.drop_eq_nil_of_le (by omega)
        rw [hd, List.take_nil]
      · have hc2 : c = chunk := by omega
        have : chunk - (base - off) = 0 := by omega
        rw [this, List.take_zero]
    · have hc2 : c = chunk := by omega
      have : chunk - (base - off) = 0 := by omega
      rw [this, List.take_zero]

theorem stage_mid_len (B : List Nat) (base blen off chunk c : Nat)
    (hB : B.length = blen) (hc : c = min chunk (base - off)) :
    c + ((B.drop (off - base)).take (chunk - (base - off))).length =
      min chunk (base + blen - off) := by
  rw [List.length_take, List.length_drop, hB]
  omega

theorem stage_last_eq (B : List Nat) (base blen off chunk c : Nat)
    (hB : B.length = blen) (hc : c = min chunk (base - off)) :
    (if c < chunk ∧ base ≤ off + c then
      (B.drop (off + c - base)).take (min (chunk - c) (blen - (off + c - base)))
     else []) = (B.drop (off - base)).take (chunk - (base - off)) := by
  rcases Decidable.em (c < chunk ∧ base ≤ off + c) with h | h
  · rw [if_pos h]
    obtain ⟨h2, h3⟩ := h
    have hco : off + c - base = off - base := by omega
    have hcc : chunk - c = chunk - (base - off) := by omega
    rw [hco, hcc]
    have hlen : (B.drop (off - base)).length = blen - (off - base) := by
      rw [List.length_drop, hB]
    rw [← hlen, take_min_length_right]
  · simp only [h, if_false]
    rcases Decidable.em (c < chunk) with h2 | h2
    · have h3 : ¬ base ≤ off + c := by tauto
      have hc2 : c = chunk := by omega
      have : chunk - (base - off) = 0 := by omega
      rw [this, List.take_zero]
    · have hc2 : c = chunk := by omega
      have : chunk - (base - off) = 0 := by omega
      rw [this, List.take_zero]

/-- The pack-side staged gather is the truncated extract of the virtual frame
payload `data || par || crcD || crcP`. -/
theorem sliceGather_eq_extract (r : Nat) (data par cD cP : List Nat) (off chunk : Nat)
    (hd : data.length = FRAME_BYTES) (hp : par.length = r * SHARD_LEN)
    (hcD : cD.length = K_SHARDS * 2) (hcP : cP.length = r * 2) :
    sliceGather r data par cD cP off chunk =
      ((data ++ (par ++ (cD ++ cP))).drop off).take chunk := by
  simp only [sliceGather]
  rw [stage_first_eq data off chunk hd, stage_first_len data off chunk hd,
    stage_mid_eq par FRAME_BYTES (r * SHARD_LEN) off chunk
      (min chunk (FRAME_BYTES - off)) hp rfl,
    stage_mid_len par FRAME_BYTES (r * SHARD_LEN) off chunk
      (min chunk (FRAME_BYTES - off)) hp rfl,
    stage_mid_eq cD (FRAME_BYTES + r * SHARD_LEN) (K_SHARDS * 2) off chunk
      (min chunk (FRAME_BYTES + r * SHARD_LEN - off)) hcD rfl,
    stage_mid_len cD (FRAME_BYTES + r * SHARD_LEN) (K_SHARDS * 2) off chunk
      (min chunk (FRAME_BYTES + r * SHARD_LEN - off)) hcD rfl,
    stage_last_eq cP (FRAME_BYTES + r * SHARD_LEN + K_SHARDS * 2) (r * 2) off chunk
      (min chunk (FRAME_BYTES + r * SHARD_LEN + K_SHARDS * 2 - off)) hcP rfl]
  rw [extract_append data (par ++ (cD ++ cP)) off chunk, hd,
    extract_append par (cD ++ cP) (off - FRAME_BYTES) (chunk - (FRAME_BYTES - off)), hp,
    extract_append cD cP (off - FRAME_BYTES - r * SHARD_LEN)
      (chunk - (FRAME_BYTES - off) - (r * SHARD_LEN - (off - FRAME_BYTES))), hcD]
  simp only [List.append_assoc]
  have e3 : chunk - (FRAME_BYTES - off) - (r * SHARD_LEN - (off - FRAME_BYTES)) -
      (K_SHARDS * 2 - (off - FRAME_BYTES - r * SHARD_LEN)) =
      chunk - (FRAME_BYTES + r * SHARD_LEN + K_SHARDS * 2 - off) := by omega
  have e4 : off - FRAME_BYTES - r * SHARD_LEN - K_SHARDS * 2 =
      off - (FRAME_BYTES + r * SHARD_LEN + K_SHARDS * 2) := by omega
  have e1 : chunk - (FRAME_BYTES - off) - (r * SHARD_LEN - (off - FRAME_BYTES)) =
      chunk - (FRAME_BYTES + r * SHARD_LEN - off) := by omega
  have e2 : off - FRAME_BYTES - r * SHARD_LEN = off - (FRAME_BYTES + r * SHARD_LEN) := by omega
  rw [e3, e4, e1, e2]

theorem take_min_length_left (l : List Nat) (n : Nat) :
    l.take (min l.length n) = l.take n := by
  rw [min_comm]
  exact take_min_length_right l n

theorem memcpyAt_length (dst src : List Nat) (o : Nat) (h : o + src.length ≤ dst.length) :
    (memcpyAt dst o src).length = dst.length := by
  unfold memcpyAt
  simp only [List.length_append, List.length_take, List.length_drop]
  omega

theorem memcpyAt_piece_length (dst src : List Nat) (o bl : Nat) (hdst : dst.length = bl) :
    (memcpyAt dst o (src.take (bl - o))).length = bl := by
  rcases le_total o bl with h | h
  · rw [memcpyAt_length]
    · exact hdst
    · simp only [List.length_take]
      omega
  · have e : bl - o = 0 := by omega
    rw [e, List.take_zero, memcpyAt_nil, hdst]

theorem stage_first_copy (B src : List Nat) (off : Nat) :
    (if off < FRAME_BYTES then
       memcpyAt B off
         (src.take (if off < FRAME_BYTES then min src.length (FRAME_BYTES - off) else 0))
     else B) = memcpyAt B off (src.take (FRAME_BYTES - off)) := by
  rcases Decidable.em (off < FRAME_BYTES) with h | h
  · simp only [h, if_true]
    rw [take_min_length_left]
  · simp only [h, if_false]
    have e : FRAME_BYTES - off = 0 := by omega
    rw [e, List.take_zero, memcpyAt_nil]

theorem stage_mid_copy (B src : List Nat) (base blen off c : Nat)
    (hc : c = min src.length (base - off)) :
    (if off + c < base + blen ∧ c < src.length ∧ base ≤ off + c then
       memcpyAt B (off + c - base)
         ((src.drop c).take
           (if off + c < base + blen ∧ c < src.length ∧ base ≤ off + c then
             min (src.length - c) (blen - (off + c - base)) else 0))
     else B) =
    memcpyAt B (off - base) ((src.drop (base - off)).take (blen - (off - base))) := by
  rcases Decidable.em (off + c < base + blen ∧ c < src.length ∧ base ≤ off + c) with h | h
  · rw [if_pos h, if_pos h]
    obtain ⟨h1, h2, h3⟩ := h
    have hco : off + c - base = off - base := by omega
    have hcd : c = base - off := by omega
    have hlen : (src.drop c).length = src.length - c := by rw [List.length_drop]
    rw [hco, ← hlen, take_min_length_left, hcd]
  · rw [if_neg h]
    rcases Decidable.em (c < src.length) with h2 | h2
    · rcases Decidable.em (base ≤ off + c) with h3 | h3
      · have h1 : base + blen ≤ off + c := by omega
        have e : blen - (off - base) = 0 := by omega
        rw [e, List.take_zero, memcpyAt_nil]
      · have hc2 : c = src.length := by omega
        have e : src.drop (base - off) = [] := List.drop_eq_nil_of_le (by omega)
        rw [e, List.take_nil, memcpyAt_nil]
    · have hc2 : c = src.length := by omega
      have e : src.drop (base - off) = [] := List.drop_eq_nil_of_le (by omega)
      rw [e, List.take_nil, memcpyAt_nil]

theorem stage_last_copy (B src : List Nat) (base blen off c : Nat)
    (hc : c = min src.length (base - off)) :
    (if c < src.length ∧ base ≤ off + c then
       memcpyAt B (off + c - base)
         ((src.drop c).take
           (if c < src.length ∧ base ≤ off + c then
             min (src.length - c) (blen - (off + c - base)) else 0))
     else B) =
    memcpyAt B (off - base) ((src.drop (base - off)).take (blen - (off - base))) := by
  rcases Decidable.em (c < src.length ∧ base ≤ off + c) with h | h
  · rw [if_pos h, if_pos h]
    obtain ⟨h2, h3⟩ := h
    have hco : off + c - base = off - base := by omega
    have hcd : c = base - off := by omega
    have hlen : (src.drop c).length = src.length - c := by rw [List.length_drop]
    rw [hco, ← hlen, take_min_length_left, hcd]
  · rw [if_neg h]
    rcases Decidable.em (c < src.length) with h2 | h2
    · have h3 : ¬ base ≤ off + c := by tauto
      have hc2 : c = src.length := by omega
      have e : src.drop (base - off) = [] := List.drop_eq_nil_of_le (by omega)
      rw [e, List.take_nil, memcpyAt_nil]
    · have hc2 : c = src.length := by omega
      have e : src.drop (base - off) = [] := List.drop_eq_nil_of_le (by omega)
      rw [e, List.take_nil, memcpyAt_nil]

theorem stage_mid_count (base blen off len c : Nat) (hc : c = min len (base - off)) :
    c + (if off + c < base + blen ∧ c < len ∧ base ≤ off + c
         then min (len - c) (blen - (off + c - base)) else 0) =
      min len (base + blen - off) := by
  rcases Decidable.em (off + c < base + blen ∧ c < len ∧ base ≤ off + c) with h | h
  · rw [if_pos h]
    obtain ⟨h1, h2, h3⟩ := h
    omega
  · rw [if_neg h]
    have h' : ¬ (off + c < base + blen) ∨ ¬ (c < len) ∨ ¬ (base ≤ off + c) := by tauto
    rcases h' with h1 | h2 | h3 <;> omega

theorem stage_last_count (base blen off len c : Nat) (hc : c = min len (base - off)) :
    c + (if c < len ∧ base ≤ off + c
         then min (len - c) (blen - (off + c - base)) else 0) =
      min len (base + blen - off) := by
  rcases Decidable.em (c < len ∧ base ≤ off + c) with h | h
  · rw [if_pos h]
    obtain ⟨h2, h3⟩ := h
    omega
  · rw [if_neg h]
    have h' : ¬ (c < len) ∨ ¬ (base ≤ off + c) := by tauto
    rcases h' with h2 | h3 <;> omega

theorem hc1_canon (off : Nat) (src : List Nat) :
    (if off < FRAME_BYTES then min src.length (FRAME_BYTES - off) else 0) =
      min src.length (FRAME_BYTES - off) := by
  rcases Decidable.em (off < FRAME_BYTES) with h | h
  · rw [if_pos h]
  · rw [if_neg h]
    omega

/-- Each buffer of `copy_slice_into_frame` in canonical spliced form. -/
theorem copy_slice_data (r : Nat) (fb : FrameBuf) (off : Nat) (src : List Nat) :
    (copy_slice_into_frame r fb off src).data =
      memcpyAt fb.data off (src.take (FRAME_BYTES - off)) := by
  simp only [copy_slice_into_frame]
  exact stage_first_copy fb.data src off

theorem copy_slice_par (r : Nat) (fb : FrameBuf) (off : Nat) (src : List Nat) :
    (copy_slice_into_frame r fb off src).par =
      memcpyAt fb.par (off - FRAME_BYTES)
        ((src.drop (FRAME_BYTES - off)).take (r * SHARD_LEN - (off - FRAME_BYTES))) := by
  simp only [copy_slice_into_frame]
  rw [hc1_canon]
  exact stage_mid_copy fb.par src FRAME_BYTES (r * SHARD_LEN) off _ rfl

theorem copy_slice_crcD (r : Nat) (fb : FrameBuf) (off : Nat) (src : List Nat) :
    (copy_slice_into_frame r fb off src).crcD =
      memcpyAt fb.crcD (off - (FRAME_BYTES + r * SHARD_LEN))
        ((src.drop (FRAME_BYTES + r * SHARD_LEN - off)).take
          (K_SHARDS * 2 - (off - (FRAME_BYTES + r * SHARD_LEN)))) := by
  simp only [copy_slice_into_frame]
  rw [hc1_canon,
    stage_mid_count FRAME_BYTES (r * SHARD_LEN) off src.length _ rfl]
  exact stage_mid_copy fb.crcD src (FRAME_BYTES + r * SHARD_LEN) (K_SHARDS * 2) off _ rfl

theorem copy_slice_crcP (r : Nat) (fb : FrameBuf) (off : Nat) (src : List Nat) :
    (copy_slice_into_frame r fb off src).crcP =
      memcpyAt fb.crcP (off - (FRAME_BYTES + r * SHARD_LEN + K_SHARDS * 2))
        ((src.drop (FRAME_BYTES + r * SHARD_LEN + K_SHARDS * 2 - off)).take
          (r * 2 - (off - (FRAME_BYTES + r * SHARD_LEN + K_SHARDS * 2)))) := by
  simp only [copy_slice_into_frame]
  rw [hc1_canon,
    stage_mid_count FRAME_BYTES (r * SHARD_LEN) off src.length _ rfl,
    stage_mid_count (FRAME_BYTES + r * SHARD_LEN) (K_SHARDS * 2) off src.length _ rfl]
  exact stage_last_copy fb.crcP src (FRAME_BYTES + r * SHARD_LEN + K_SHARDS * 2) (r * 2)
    off _ rfl

/-- The untouched fields of `copy_slice_into_frame`. -/
theorem copy_slice_same (r : Nat) (fb : FrameBuf) (off : Nat) (src : List Nat) :
    (copy_slice_into_frame r fb off src).init = fb.init ∧
    (copy_slice_into_frame r fb off src).data_len = fb.data_len ∧
    (copy_slice_into_frame r fb off src).crc32_data = fb.crc32_data ∧
    (copy_slice_into_frame r fb off src).crc32_par = fb.crc32_par :=
  ⟨rfl, rfl, rfl, rfl⟩

/-- The filled-byte counters of `copy_slice_into_frame` in closed form: each
advances by the overlap of `[off, off + src.length)` with its region. -/
theorem copy_slice_filled (r : Nat) (fb : FrameBuf) (off : Nat) (src : List Nat) :
    (copy_slice_into_frame r fb off src).crcD_filled = fb.crcD_filled +
      (min src.length (FRAME_BYTES + r * SHARD_LEN + K_SHARDS * 2 - off) -
        min src.length (FRAME_BYTES + r * SHARD_LEN - off)) ∧
    (copy_slice_into_frame r fb off src).crcP_filled = fb.crcP_filled +
      (min src.length (FRAME_BYTES + r * SHARD_LEN + K_SHARDS * 2 + r * 2 - off) -
        min src.length (FRAME_BYTES + r * SHARD_LEN + K_SHARDS * 2 - off)) := by
  simp only [copy_slice_into_frame]
  rw [hc1_canon]
  constructor
  · rw [stage_mid_count FRAME_BYTES (r * SHARD_LEN) off src.length _ rfl]
    have h := stage_mid_count (FRAME_BYTES + r * SHARD_LEN) (K_SHARDS * 2) off src.length
      (min src.length (FRAME_BYTES + r * SHARD_LEN - off)) rfl
    omega
  · rw [stage_mid_count FRAME_BYTES (r * SHARD_LEN) off src.length _ rfl,
      stage_mid_count (FRAME_BYTES + r * SHARD_LEN) (K_SHARDS * 2) off src.length _ rfl]
    have h := stage_last_count (FRAME_BYTES + r * SHARD_LEN + K_SHARDS * 2) (r * 2) off
      src.length (min src.length (FRAME_BYTES + r * SHARD_LEN + K_SHARDS * 2 - off)) rfl
    omega

/-- Scattering a slice into a frame slot splices it into the concatenated
virtual payload. -/
theorem copy_slice_payload (r : Nat) (fb : FrameBuf) (off : Nat) (src : List Nat)
    (hd : fb.data.length = FRAME_BYTES) (hp : fb.par.length = r * SHARD_LEN)
    (hcD : fb.crcD.length = K_SHARDS * 2)
    (hfit : off + src.length ≤ payload_len_bytes r) :
    (copy_slice_into_frame r fb off src).data ++
      ((copy_slice_into_frame r fb off src).par ++
        ((copy_slice_into_frame r fb off src).crcD ++
          (copy_slice_into_frame r fb off src).crcP)) =
      memcpyAt (fb.data ++ (fb.par ++ (fb.crcD ++ fb.crcP))) off src := by
  rw [copy_slice_data, copy_slice_par, copy_slice_crcD, copy_slice_crcP,
    memcpyAt_append fb.data (fb.par ++ (fb.crcD ++ fb.crcP)) src off, hd,
    memcpyAt_append fb.par (fb.crcD ++ fb.crcP) _ _, hp,
    memcpyAt_append fb.crcD fb.crcP _ _, hcD]
  simp only [List.drop_drop]
  have hPAY : payload_len_bytes r =
      FRAME_BYTES + r * SHARD_LEN + K_SHARDS * 2 + r * 2 := by
    unfold payload_len_bytes
    ring
  have hlast : (List.take (r * 2 - (off - (FRAME_BYTES + r * SHARD_LEN + K_SHARDS * 2)))
      (List.drop (FRAME_BYTES + r * SHARD_LEN + K_SHARDS * 2 - off) src)) =
      List.drop (FRAME_BYTES + r * SHARD_LEN + K_SHARDS * 2 - off) src := by
    apply List.take_of_length_le
    rw [List.length_drop]
    omega
  rw [hlast]
  have e4 : FRAME_BYTES - off + (r * SHARD_LEN - (off - FRAME_BYTES)) +
      (K_SHARDS * 2 - (off - FRAME_BYTES - r * SHARD_LEN)) =
      FRAME_BYTES + r * SHARD_LEN + K_SHARDS * 2 - off := by omega
  have e3 : FRAME_BYTES - off + (r * SHARD_LEN - (off - FRAME_BYTES)) =
      FRAME_BYTES + r * SHARD_LEN - off := by omega
  have e1 : off - FRAME_BYTES - r * SHARD_LEN = off - (FRAME_BYTES + r * SHARD_LEN) := by
    omega
  have e5 : off - (FRAME_BYTES + r * SHARD_LEN) - K_SHARDS * 2 =
      off - (FRAME_BYTES + r * SHARD_LEN + K_SHARDS * 2) := by omega
  rw [e4, e3, e1, e5]

/-- Buffer lengths are preserved by the scatter. -/
theorem copy_slice_lengths (r : Nat) (fb : FrameBuf) (off : Nat) (src : List Nat)
    (hd : fb.data.length = FRAME_BYTES) (hp : fb.par.length = r * SHARD_LEN)
    (hcD : fb.crcD.length = K_SHARDS * 2) (hcP : fb.crcP.length = r * 2) :
    (copy_slice_into_frame r fb off src).data.length = FRAME_BYTES ∧
    (copy_slice_into_frame r fb off src).par.length = r * SHARD_LEN ∧
    (copy_slice_into_frame r fb off src).crcD.length = K_SHARDS * 2 ∧
    (copy_slice_into_frame r fb off src).crcP.length = r * 2 := by
  rw [copy_slice_data, copy_slice_par, copy_slice_crcD, copy_slice_crcP]
  exact ⟨memcpyAt_piece_length _ _ _ _ hd, memcpyAt_piece_length _ _ _ _ hp,
    memcpyAt_piece_length _ _ _ _ hcD, memcpyAt_piece_length _ _ _ _ hcP⟩

/-! ## Byte-level parsing helpers for the record scan -/

theorem take_append_len (a b : List Nat) (n : Nat) (h : a.length = n) :
    (a ++ b).take n = a := by
  rw [← h, List.take_left]

theorem drop_append_len (a b : List Nat) (n : Nat) (h : a.length = n) :
    (a ++ b).drop n = b := by
  rw [← h, List.drop_left]

theorem le16_length (v : Nat) : (le16 v).length = 2 := rfl

theorem le32_length (v : Nat) : (le32 v).length = 4 := rfl

theorem le64_length (v : Nat) : (le64 v).length = 8 := rfl

theorem leVal_le16 (v : Nat) (h : v < 2 ^ 16) : leVal (le16 v) = v := by
  simp only [le16, leVal]
  omega

theorem leVal_le32 (v : Nat) (h : v < 2 ^ 32) : leVal (le32 v) = v := by
  simp only [le32, leVal]
  omega

theorem leVal_le64 (v : Nat) (h : v < 2 ^ 64) : leVal (le64 v) = v := by
  simp only [le64, le32, leVal, List.append_eq, List.cons_append, List.nil_append]
  omega

theorem or_shiftLeft_eq_add (a b k : Nat) (ha : a < 2 ^ k) :
    a ||| b <<< k = a + 2 ^ k * b := by
  have h := Nat.mul_add_lt_is_or ha b
  rw [Nat.shiftLeft_eq, Nat.mul_comm b (2 ^ k), Nat.or_comm, ← h]
  omega

theorem word4_le32 (v : Nat) (rest : List Nat) (h : v < 2 ^ 32) :
    word4 (le32 v ++ rest) = v := by
  simp only [le32, word4, List.cons_append, List.nil_append, List.getD,
    List.get?_cons_zero, List.get?_cons_succ, Option.getD_some]
  rw [or_shiftLeft_eq_add _ _ _ (by omega : v % 256 < 2 ^ 8)]
  rw [or_shiftLeft_eq_add _ _ _ (by omega : v % 256 + 2 ^ 8 * (v / 256 % 256) < 2 ^ 16)]
  rw [or_shiftLeft_eq_add _ _ _
    (by omega : v % 256 + 2 ^ 8 * (v / 256 % 256) + 2 ^ 16 * (v / 65536 % 256) < 2 ^ 24)]
  omega

theorem crc32_table_lt (i : Nat) (h : i < 2 ^ 32) : crc32_table i < 2 ^ 32 := by
  unfold crc32_table
  have step_lt : ∀ c, c < 2 ^ 32 → crc32_step c < 2 ^ 32 := by
    intro c hc
    unfold crc32_step
    rcases Decidable.em (c % 2 = 1) with h1 | h1 <;> simp only [h1, if_true, if_false]
    · apply Nat.xor_lt_two_pow (by norm_num)
      rw [Nat.shiftRight_eq_div_pow]
      omega
    · rw [Nat.shiftRight_eq_div_pow]
      omega
  have : ∀ n c, c < 2 ^ 32 → crc32_step^[n] c < 2 ^ 32 := by
    intro n
    induction n with
    | zero => intro c hc; exact hc
    | succ n ih =>
      intro c hc
      rw [Function.iterate_succ_apply]
      exact ih _ (step_lt _ hc)
  exact this 8 i h

theorem crc32_calc_lt (buf : List Nat) : crc32_calc buf < 2 ^ 32 := by
  unfold crc32_calc
  have hfold : ∀ (l : List Nat) (c : Nat), c < 2 ^ 32 → l.foldl crc32_upd c < 2 ^ 32 := by
    intro l
    induction l with
    | nil => intro c hc; exact hc
    | cons b bs ih =>
      intro c hc
      rw [List.foldl_cons]
      apply ih
      unfold crc32_upd
      apply Nat.xor_lt_two_pow
      · exact crc32_table_lt _ (by
          apply Nat.lt_of_lt_of_le (Nat.and_lt_two_pow _ (by norm_num : (0xFF:Nat) < 2^8))
          norm_num)
      · rw [Nat.shiftRight_eq_div_pow]
        omega
  apply Nat.xor_lt_two_pow (hfold buf 0xFFFFFFFF (by norm_num)) (by norm_num)

theorem crc16_ccitt_lt (buf : List Nat) : crc16_ccitt buf < 2 ^ 16 := by
  unfold crc16_ccitt
  have hfold : ∀ (l : List Nat) (c : Nat), c < 2 ^ 16 → l.foldl crc16_upd c < 2 ^ 16 := by
    intro l
    induction l with
    | nil => intro c hc; exact hc
    | cons b bs ih =>
      intro c hc
      rw [List.foldl_cons]
      apply ih
      unfold crc16_upd
      have h1 : (0xFFFF : Nat) = 2 ^ 16 - 1 := by norm_num
      rw [h1, Nat.and_pow_two_sub_one_eq_mod]
      exact Nat.mod_lt _ (by norm_num)
  exact hfold buf 0xFFFF (by norm_num)

theorem leVal_le16_mod (v : Nat) : leVal (le16 v) = v % 65536 := by
  simp only [le16, leVal]
  omega

/-! ## Record-level view of the scan loop -/

/-- Abstract view of one record pack emits: a frame header or a slice whose
stored CRC-32 matches its body. -/
inductive PRec where
  | fhdr (idx dlen c32d c32p : Nat)
  | slc (fidx off : Nat) (body : List Nat)
  deriving Repr, DecidableEq

/-- Byte encoding of a record, exactly as `pack_impl` emits it. -/
def encPRec (r : Nat) : PRec → List Nat
  | .fhdr idx dlen c32d c32p => encFrameHdr idx dlen r c32d c32p
  | .slc fidx off body => encSliceHdr fidx off body.length (crc32_calc body) ++ body

/-- Effect of one record on the scan state, as `parseLoop` computes it when
the record is intact (CRC matches, fields in range). -/
def applyPRec (r F orig : Nat) (st : ParseState) : PRec → ParseState
  | .fhdr idx dlen c32d c32p =>
      if idx < F ∧ dlen ≤ FRAME_BYTES then
        let fb := st.tab.getD idx emptyFrameBuf
        let fb1 := if fb.init = 0 then freshFrameBuf r else fb
        let fb2 := { fb1 with data_len := dlen, crc32_data := c32d, crc32_par := c32p }
        { st with tab := st.tab.set idx fb2 }
      else st
  | .slc fidx off body =>
      let st1 := { st with slices_ok := st.slices_ok + 1 }
      if fidx < F then
        let fb := st1.tab.getD fidx emptyFrameBuf
        let fb1 := if fb.init = 0 then
            { freshFrameBuf r with
              init := 2
              data_len := if fidx = F - 1 then
                  (if orig - (F - 1) * FRAME_BYTES ≤ FRAME_BYTES
                   then (orig - (F - 1) * FRAME_BYTES) % 65536
                   else FRAME_BYTES % 65536)
                else FRAME_BYTES }
          else fb
        let fb2 := copy_slice_into_frame r fb1 off body
        { st1 with tab := st1.tab.set fidx fb2 }
      else st1

theorem find_next_magic_at (m : Nat) (tail : List Nat)
    (hm : m = FRAME_MAGIC_V4 ∨ m = SLICE_MAGIC_V4) (hmlt : m < 2 ^ 32) :
    find_next_magic (le32 m ++ tail) = some (m, tail) := by
  unfold find_next_magic
  have hlen : (le32 m ++ tail).length = 4 + tail.length := by
    rw [List.length_append, le32_length]
  rw [if_neg (by omega), word4_le32 m tail hmlt, if_pos hm]
  rw [drop_append_len _ _ _ (le32_length m)]

/-- Generic frame-header step of the scan loop, stated over abstract streams
characterized by the header-field reads. -/
theorem parseLoop_frame_step (r F orig fuel : Nat) (L T rest : List Nat)
    (idx dlen c32d c32p : Nat) (st : ParseState)
    (hfind : find_next_magic L = some (FRAME_MAGIC_V4, T))
    (hTlen : ¬ T.length < 20)
    (hv_idx : leVal (T.take 8) = idx)
    (hv_dlen : leVal ((T.drop 8).take 2) = dlen)
    (hv_plen : leVal ((T.drop 10).take 2) = (r * SHARD_LEN) % 65536)
    (hv_c32d : leVal ((T.drop 12).take 4) = c32d)
    (hv_c32p : leVal ((T.drop 16).take 4) = c32p)
    (hv_rest : T.drop 20 = rest) :
    parseLoop r F orig (fuel + 1) L st =
      parseLoop r F orig fuel rest (applyPRec r F orig st (.fhdr idx dlen c32d c32p)) := by
  simp only [parseLoop, hfind, hTlen, hv_idx, hv_dlen, hv_plen, hv_c32d, hv_c32p,
    hv_rest, applyPRec, eq_self_iff_true, if_true, true_and, if_false,
    not_false_eq_true]
  by_cases h : idx < F ∧ dlen ≤ FRAME_BYTES
  · rw [if_pos h, if_pos h]
  · rw [if_neg h, if_neg h]

/-- Scanning one intact frame-header record advances the loop by exactly that
record. -/
theorem parseLoop_fhdr (r F orig fuel : Nat) (idx dlen c32d c32p : Nat)
    (rest : List Nat) (st : ParseState) (hidx : idx < 2 ^ 64) (hdlen : dlen < 2 ^ 16)
    (hc1 : c32d < 2 ^ 32) (hc2 : c32p < 2 ^ 32) :
    parseLoop r F orig (fuel + 1) (encFrameHdr idx dlen r c32d c32p ++ rest) st =
      parseLoop r F orig fuel rest (applyPRec r F orig st (.fhdr idx dlen c32d c32p)) := by
  have hT : ∃ T : List Nat, T = le64 idx ++ (le16 dlen ++ (le16 (r * SHARD_LEN) ++
      (le32 c32d ++ (le32 c32p ++ rest)))) := ⟨_, rfl⟩
  obtain ⟨T, hT⟩ := hT
  have hfind : find_next_magic (encFrameHdr idx dlen r c32d c32p ++ rest) =
      some (FRAME_MAGIC_V4, T) := by
    have hassoc : encFrameHdr idx dlen r c32d c32p ++ rest =
        le32 FRAME_MAGIC_V4 ++ T := by
      rw [hT]
      simp only [encFrameHdr, List.append_assoc]
    rw [hassoc]
    exact find_next_magic_at FRAME_MAGIC_V4 T (Or.inl rfl) (by decide)
  have hTlen : ¬ T.length < 20 := by
    rw [hT]
    simp only [List.length_append, le64_length, le16_length, le32_length]
    omega
  have hd8 : T.drop 8 = le16 dlen ++ (le16 (r * SHARD_LEN) ++
      (le32 c32d ++ (le32 c32p ++ rest))) := by
    rw [hT]
    exact drop_append_len _ _ _ (le64_length idx)
  have hd10 : T.drop 10 = le16 (r * SHARD_LEN) ++ (le32 c32d ++ (le32 c32p ++ rest)) := by
    have h2 : T.drop 10 = (T.drop 8).drop 2 := by
      rw [List.drop_drop]
    rw [h2, hd8]
    exact drop_append_len _ _ _ (le16_length dlen)
  have hd12 : T.drop 12 = le32 c32d ++ (le32 c32p ++ rest) := by
    have h2 : T.drop 12 = (T.drop 10).drop 2 := by
      rw [List.drop_drop]
    rw [h2, hd10]
    exact drop_append_len _ _ _ (le16_length (r * SHARD_LEN))
  have hd16 : T.drop 16 = le32 c32p ++ rest := by
    have h2 : T.drop 16 = (T.drop 12).drop 4 := by
      rw [List.drop_drop]
    rw [h2, hd12]
    exact drop_append_len _ _ _ (le32_length c32d)
  have hv_idx : leVal (T.take 8) = idx := by
    rw [hT, take_append_len _ _ _ (le64_length idx)]
    exact leVal_le64 idx hidx
  have hv_dlen : leVal ((T.drop 8).take 2) = dlen := by
    rw [hd8, take_append_len _ _ _ (le16_length dlen)]
    exact leVal_le16 dlen hdlen
  have hv_plen : leVal ((T.drop 10).take 2) = (r * SHARD_LEN) % 65536 := by
    rw [hd10, take_append_len _ _ _ (le16_length (r * SHARD_LEN))]
    exact leVal_le16_mod (r * SHARD_LEN)
  have hv_c32d : leVal ((T.drop 12).take 4) = c32d := by
    rw [hd12, take_append_len _ _ _ (le32_length c32d)]
    exact leVal_le32 c32d hc1
  have hv_c32p : leVal ((T.drop 16).take 4) = c32p := by
    rw [hd16, take_append_len _ _ _ (le32_length c32p)]
    exact leVal_le32 c32p hc2
  have hv_rest : T.drop 20 = rest := by
    have h2 : T.drop 20 = (T.drop 16).drop 4 := by
      rw [List.drop_drop]
    rw [h2, hd16]
    exact drop_append_len _ _ _ (le32_length c32p)
  exact parseLoop_frame_step r F orig fuel _ T rest idx dlen c32d c32p st hfind
    hTlen hv_idx hv_dlen hv_plen hv_c32d hv_c32p hv_rest

/-- Generic slice step of the scan loop over abstract streams characterized
by the header-field reads; the stored CRC-32 matches the body. -/
theorem parseLoop_slice_step (r F orig fuel : Nat) (L T rest : List Nat)
    (fidx off : Nat) (body : List Nat) (st : ParseState)
    (hfind : find_next_magic L = some (SLICE_MAGIC_V4, T))
    (hTlen : ¬ T.length < 18)
    (hv_fidx : leVal (T.take 8) = fidx)
    (hv_off : leVal ((T.drop 8).take 4) = off)
    (hv_size : leVal ((T.drop 12).take 2) = body.length)
    (hv_c32 : leVal ((T.drop 14).take 4) = crc32_calc body)
    (hsz : body.length ≠ 0)
    (hlenok : ¬ (T.drop 18).length < body.length)
    (hbody : (T.drop 18).take body.length = body)
    (hrest : (T.drop 18).drop body.length = rest) :
    parseLoop r F orig (fuel + 1) L st =
      parseLoop r F orig fuel rest (applyPRec r F orig st (.slc fidx off body)) := by
  have hne : SLICE_MAGIC_V4 ≠ FRAME_MAGIC_V4 := by decide
  simp only [parseLoop, hfind, hne, hTlen, hv_fidx, hv_off, hv_size, hv_c32, hsz,
    hlenok, hbody, hrest, applyPRec, ne_eq, eq_self_iff_true, if_true, true_and,
    if_false, not_false_eq_true, not_true, ite_false, ite_true]
  by_cases h : fidx < F
  · rw [if_pos h, if_pos h]
  · rw [if_neg h, if_neg h]

/-- Scanning one intact slice record advances the loop by exactly that
record. -/
theorem parseLoop_slc (r F orig fuel : Nat) (fidx off : Nat)
    (body rest : List Nat) (st : ParseState) (hfidx : fidx < 2 ^ 64)
    (hoff : off < 2 ^ 32) (hb0 : body.length ≠ 0) (hblen : body.length < 2 ^ 16) :
    parseLoop r F orig (fuel + 1)
      ((encSliceHdr fidx off body.length (crc32_calc body) ++ body) ++ rest) st =
      parseLoop r F orig fuel rest (applyPRec r F orig st (.slc fidx off body)) := by
  have hT : ∃ T : List Nat, T = le64 fidx ++ (le32 off ++ (le16 body.length ++
      (le32 (crc32_calc body) ++ (body ++ rest)))) := ⟨_, rfl⟩
  obtain ⟨T, hT⟩ := hT
  have hfind : find_next_magic
      ((encSliceHdr fidx off body.length (crc32_calc body) ++ body) ++ rest) =
      some (SLICE_MAGIC_V4, T) := by
    have hassoc : (encSliceHdr fidx off body.length (crc32_calc body) ++ body) ++ rest =
        le32 SLICE_MAGIC_V4 ++ T := by
      rw [hT]
      simp only [encSliceHdr, List.append_assoc]
    rw [hassoc]
    exact find_next_magic_at SLICE_MAGIC_V4 T (Or.inr rfl) (by decide)
  have hTlen : ¬ T.length < 18 := by
    rw [hT]
    simp only [List.length_append, le64_length, le16_length, le32_length]
    omega
  have hd8 : T.drop 8 = le32 off ++ (le16 body.length ++
      (le32 (crc32_calc body) ++ (body ++ rest))) := by
    rw [hT]
    exact drop_append_len _ _ _ (le64_length fidx)
  have hd12 : T.drop 12 = le16 body.length ++ (le32 (crc32_calc body) ++ (body ++ rest)) := by
    have h2 : T.drop 12 = (T.drop 8).drop 4 := by
      rw [List.drop_drop]
    rw [h2, hd8]
    exact drop_append_len _ _ _ (le32_length off)
  have hd14 : T.drop 14 = le32 (crc32_calc body) ++ (body ++ rest) := by
    have h2 : T.drop 14 = (T.drop 12).drop 2 := by
      rw [List.drop_drop]
    rw [h2, hd12]
    exact drop_append_len _ _ _ (le16_length body.length)
  have hd18 : T.drop 18 = body ++ rest := by
    have h2 : T.drop 18 = (T.drop 14).drop 4 := by
      rw [List.drop_drop]
    rw [h2, hd14]
    exact drop_append_len _ _ _ (le32_length (crc32_calc body))
  have hv_fidx : leVal (T.take 8) = fidx := by
    rw [hT, take_append_len _ _ _ (le64_length fidx)]
    exact leVal_le64 fidx hfidx
  have hv_off : leVal ((T.drop 8).take 4) = off := by
    rw [hd8, take_append_len _ _ _ (le32_length off)]
    exact leVal_le32 off hoff
  have hv_size : leVal ((T.drop 12).take 2) = body.length := by
    rw [hd12, take_append_len _ _ _ (le16_length body.length)]
    exact leVal_le16 body.length hblen
  have hv_c32 : leVal ((T.drop 14).take 4) = crc32_calc body := by
    rw [hd14, take_append_len _ _ _ (le32_length (crc32_calc body))]
    exact leVal_le32 (crc32_calc body) (crc32_calc_lt body)
  have hlenok : ¬ (T.drop 18).length < body.length := by
    rw [hd18]
    simp only [List.length_append]
    omega
  have hbody : (T.drop 18).take body.length = body := by
    rw [hd18]
    exact take_append_len _ _ _ rfl
  have hrest : (T.drop 18).drop body.length = rest := by
    rw [hd18]
    exact drop_append_len _ _ _ rfl
  exact parseLoop_slice_step r F orig fuel _ T rest fidx off body st hfind hTlen
    hv_fidx hv_off hv_size hv_c32 hb0 hlenok hbody hrest

theorem find_next_magic_nil : find_next_magic [] = none := by
  unfold find_next_magic
  rfl

theorem parseLoop_nil (r F orig fuel : Nat) (st : ParseState) :
    parseLoop r F orig fuel [] st = st := by
  cases fuel with
  | zero => rfl
  | succ n => simp only [parseLoop, find_next_magic_nil]

/-- Field-width well-formedness of a record: the packed values fit the widths
the parser reads back. -/
def PRecWF : PRec → Prop
  | .fhdr idx dlen c32d c32p =>
      idx < 2 ^ 64 ∧ dlen < 2 ^ 16 ∧ c32d < 2 ^ 32 ∧ c32p < 2 ^ 32
  | .slc fidx off body =>
      fidx < 2 ^ 64 ∧ off < 2 ^ 32 ∧ body.length ≠ 0 ∧ body.length < 2 ^ 16

/-- The scan loop over a stream of intact records folds `applyPRec` over the
records. -/
theorem parseLoop_records (r F orig : Nat) (recs : List PRec) :
    ∀ (fuel : Nat) (st : ParseState), recs.length ≤ fuel →
      (∀ q ∈ recs, PRecWF q) →
      parseLoop r F orig fuel ((recs.map (encPRec r)).flatten) st =
        recs.foldl (applyPRec r F orig) st := by
  induction recs with
  | nil =>
    intro fuel st _ _
    simp only [List.map_nil, List.flatten_nil, List.foldl_nil]
    exact parseLoop_nil r F orig fuel st
  | cons q tl ih =>
    intro fuel st hfuel hwf
    obtain ⟨fuel', rfl⟩ : ∃ f, fuel = f + 1 := by
      cases fuel with
      | zero => simp at hfuel
      | succ n => exact ⟨n, rfl⟩
    have hq := hwf q (List.mem_cons_self q tl)
    have htl : ∀ p ∈ tl, PRecWF p := fun p hp => hwf p (List.mem_cons_of_mem q hp)
    have hlen : tl.length ≤ fuel' := by
      simp only [List.length_cons] at hfuel
      omega
    rw [List.map_cons, List.flatten_cons, List.foldl_cons]
    cases q with
    | fhdr idx dlen c32d c32p =>
      obtain ⟨h1, h2, h3, h4⟩ := hq
      rw [show encPRec r (PRec.fhdr idx dlen c32d c32p) =
        encFrameHdr idx dlen r c32d c32p from rfl]
      rw [parseLoop_fhdr r F orig fuel' idx dlen c32d c32p _ st h1 h2 h3 h4]
      exact ih fuel' _ hlen htl
    | slc fidx off body =>
      obtain ⟨h1, h2, h3, h4⟩ := hq
      rw [show encPRec r (PRec.slc fidx off body) =
        encSliceHdr fidx off body.length (crc32_calc body) ++ body from rfl]
      rw [parseLoop_slc r F orig fuel' fidx off body _ st h1 h2 h3 h4]
      exact ih fuel' _ hlen htl

/-! ## Generic list helpers for the table and column folds -/

theorem set_getD_self {α : Type} (l : List α) (n : Nat) (d : α) :
    l.set n (l.getD n d) = l := by
  induction l generalizing n with
  | nil => rfl
  | cons x xs ih =>
    cases n with
    | zero => rfl
    | succ m =>
      simp only [List.set, List.getD_cons_succ]
      rw [ih m]

theorem getD_set_self {α : Type} (l : List α) (n : Nat) (v d : α)
    (h : n < l.length) : (l.set n v).getD n d = v := by
  induction l generalizing n with
  | nil => simp at h
  | cons x xs ih =>
    cases n with
    | zero => rfl
    | succ m =>
      simp only [List.set, List.getD_cons_succ]
      exact ih m (by simp at h; omega)

theorem getD_set_ne {α : Type} (l : List α) (n j : Nat) (v d : α)
    (h : n ≠ j) : (l.set n v).getD j d = l.getD j d := by
  induction l generalizing n j with
  | nil => rfl
  | cons x xs ih =>
    cases n with
    | zero =>
      cases j with
      | zero => exact absurd rfl h
      | succ m => rfl
    | succ m =>
      cases j with
      | zero => rfl
      | succ i =>
        simp only [List.set, List.getD_cons_succ]
        exact ih m i (by omega)

theorem set_length {α : Type} (l : List α) (n : Nat) (v : α) :
    (l.set n v).length = l.length := List.length_set l n v

theorem getD_replicate {α : Type} (n j : Nat) (v d : α) (h : j < n) :
    (List.replicate n v).getD j d = v := by
  induction n generalizing j with
  | zero => omega
  | succ m ih =>
    cases j with
    | zero => rfl
    | succ i =>
      simp only [List.replicate, List.getD_cons_succ]
      exact ih i (by omega)

theorem foldl_fixed {α β : Type} (f : α → β → α) (a : α) (l : List β)
    (h : ∀ x ∈ l, f a x = a) : l.foldl f a = a := by
  induction l with
  | nil => rfl
  | cons x xs ih =>
    rw [List.foldl_cons, h x (List.mem_cons_self x xs)]
    exact ih (fun y hy => h y (List.mem_cons_of_mem x hy))

theorem map_range_getD (l : List Nat) (n : Nat) (h : l.length = n) :
    (List.range n).map (fun j => l.getD j 0) = l := by
  subst h
  induction l with
  | nil => rfl
  | cons x xs ih =>
    rw [List.length_cons, List.range_succ_eq_map, List.map_cons, List.map_map]
    have hc : List.map ((fun j => (x :: xs).getD j 0) ∘ Nat.succ) (List.range xs.length) =
        List.map (fun j => xs.getD j 0) (List.range xs.length) :=
      List.map_congr_left (fun a _ => rfl)
    rw [List.getD_cons_zero, hc, ih]

/-! ## Lengths of the pack-side blocks -/

theorem tableBytes_length (vals : List Nat) :
    (tableBytes vals).length = 2 * vals.length := by
  unfold tableBytes
  induction vals with
  | nil => rfl
  | cons v t ih =>
    rw [List.map_cons, List.flatten_cons, List.length_append, ih, le16_length,
      List.length_cons]
    omega

theorem crcD_vals_length (data : List Nat) : (crcD_vals data).length = K_SHARDS := by
  unfold crcD_vals
  rw [List.length_map, List.length_range]

theorem crcP_vals_length (r : Nat) (par : List Nat) : (crcP_vals r par).length = r := by
  unfold crcP_vals
  rw [List.length_map, List.length_range]

theorem encode_rs_char_length (r : Nat) (data : List Nat) :
    (encode_rs_char r data).length = r := by
  unfold encode_rs_char
  rw [List.length_map, List.length_range]

theorem packFramePar_length (r : Nat) (input : List Nat) (frames fidx : Nat) :
    (packFramePar r input frames fidx).length = r * SHARD_LEN := by
  unfold packFramePar encode_frame_parity
  rw [List.length_map, List.length_range]

/-- The backing arithmetic of the frame loop: below the last frame a full
frame of input remains, and the last frame holds the remainder. -/
theorem frames_arith (L fidx : Nat) (hf : fidx < (L + FRAME_BYTES - 1) / FRAME_BYTES) :
    fidx * FRAME_BYTES < L ∧
    (fidx + 1 < (L + FRAME_BYTES - 1) / FRAME_BYTES → fidx * FRAME_BYTES + FRAME_BYTES ≤ L) := by
  have hFB : FRAME_BYTES = 12288 := rfl
  rw [hFB] at hf ⊢
  omega

theorem packFrameData_length (input : List Nat) (fidx : Nat)
    (hf : fidx < (input.length + FRAME_BYTES - 1) / FRAME_BYTES) :
    (packFrameData input ((input.length + FRAME_BYTES - 1) / FRAME_BYTES) fidx).length =
      FRAME_BYTES := by
  have harith := frames_arith input.length fidx hf
  have hFB : FRAME_BYTES = 12288 := rfl
  unfold packFrameData to_read
  rw [List.length_append, List.length_take, List.length_drop, List.length_replicate]
  split_ifs with h
  · rw [hFB] at harith h ⊢
    omega
  · rw [hFB] at harith h hf ⊢
    omega

/-! ## The slice-scatter fold rebuilds the payload -/

/-- Invariant of the slice-scatter fold over a frame slot: after the slices
below offset `k*S` the four regions hold the first `min PAY (k*S)` payload
bytes followed by the calloc zeros, the CRC fill counters cover exactly the
overlap with their regions, and the header-set fields are untouched. -/
def ScatterInv (r S k : Nat) (P : List Nat) (fb0 fb : FrameBuf) : Prop :=
  fb.data.length = FRAME_BYTES ∧ fb.par.length = r * SHARD_LEN ∧
  fb.crcD.length = K_SHARDS * 2 ∧ fb.crcP.length = r * 2 ∧
  fb.data ++ (fb.par ++ (fb.crcD ++ fb.crcP)) =
    P.take (min (payload_len_bytes r) (k * S)) ++
    (List.replicate (payload_len_bytes r) 0).drop (min (payload_len_bytes r) (k * S)) ∧
  fb.crcD_filled =
    min (min (payload_len_bytes r) (k * S)) (FRAME_BYTES + r * SHARD_LEN + K_SHARDS * 2) -
    min (min (payload_len_bytes r) (k * S)) (FRAME_BYTES + r * SHARD_LEN) ∧
  fb.crcP_filled = min (payload_len_bytes r) (k * S) -
    min (min (payload_len_bytes r) (k * S)) (FRAME_BYTES + r * SHARD_LEN + K_SHARDS * 2) ∧
  fb.init = fb0.init ∧ fb.data_len = fb0.data_len ∧
  fb.crc32_data = fb0.crc32_data ∧ fb.crc32_par = fb0.crc32_par

theorem payload_len_bytes_eq (r : Nat) : payload_len_bytes r =
    FRAME_BYTES + r * SHARD_LEN + K_SHARDS * 2 + r * 2 := rfl

/-- One slice at offset `k*S` advances the scatter invariant by one step. -/
theorem scatter_step (r S k : Nat) (P : List Nat)
    (hP : P.length = payload_len_bytes r) (fb0 fb : FrameBuf)
    (hoff : k * S < payload_len_bytes r)
    (hinv : ScatterInv r S k P fb0 fb) :
    ScatterInv r S (k + 1) P fb0
      (copy_slice_into_frame r fb (k * S)
        ((P.drop (k * S)).take (sliceChunk (payload_len_bytes r) S (k * S)))) := by
  obtain ⟨hd, hp, hcD, hcP, hpv, hfD, hfP, hi, hdl, hc1, hc2⟩ := hinv
  have hPAY := payload_len_bytes_eq r
  have hsrc : ((P.drop (k * S)).take (sliceChunk (payload_len_bytes r) S (k * S))).length =
      sliceChunk (payload_len_bytes r) S (k * S) := by
    rw [List.length_take, List.length_drop, hP]
    unfold sliceChunk
    split_ifs with h
    · omega
    · omega
  have hchunk : k * S + sliceChunk (payload_len_bytes r) S (k * S) ≤ payload_len_bytes r ∧
      min (payload_len_bytes r) ((k + 1) * S) =
        k * S + sliceChunk (payload_len_bytes r) S (k * S) := by
    unfold sliceChunk
    split_ifs with h
    · constructor
      · omega
      · have : (k + 1) * S = k * S + S := by ring
        omega
    · constructor
      · omega
      · have : (k + 1) * S = k * S + S := by ring
        omega
  have hfit : k * S + ((P.drop (k * S)).take
      (sliceChunk (payload_len_bytes r) S (k * S))).length ≤ payload_len_bytes r := by
    rw [hsrc]
    exact hchunk.1
  have hc : min (payload_len_bytes r) (k * S) = k * S := by omega
  refine ⟨(copy_slice_lengths r fb _ _ hd hp hcD hcP).1,
    (copy_slice_lengths r fb _ _ hd hp hcD hcP).2.1,
    (copy_slice_lengths r fb _ _ hd hp hcD hcP).2.2.1,
    (copy_slice_lengths r fb _ _ hd hp hcD hcP).2.2.2, ?_, ?_, ?_, ?_, ?_, ?_, ?_⟩
  · rw [copy_slice_payload r fb (k * S) _ hd hp hcD hfit, hpv, hc]
    unfold memcpyAt
    rw [hsrc]
    have htk : (P.take (k * S)).length = k * S := by
      rw [List.length_take]
      omega
    rw [take_append_len _ _ _ htk, List.drop_append_eq_append_drop, htk]
    have hnil : (P.take (k * S)).drop
        (k * S + sliceChunk (payload_len_bytes r) S (k * S)) = [] :=
      List.drop_eq_nil_of_le (by rw [htk]; omega)
    rw [hnil, List.nil_append]
    have hidx : k * S + sliceChunk (payload_len_bytes r) S (k * S) - k * S =
        sliceChunk (payload_len_bytes r) S (k * S) := by omega
    rw [hidx, List.drop_drop, hchunk.2, List.take_add, List.append_assoc]
  · rw [(copy_slice_filled r fb (k * S) _).1, hfD, hsrc, hc]
    have h2 := hchunk.2
    omega
  · rw [(copy_slice_filled r fb (k * S) _).2, hfP, hsrc, hc]
    have h2 := hchunk.2
    omega
  · rw [(copy_slice_same r fb (k * S) _).1, hi]
  · rw [(copy_slice_same r fb (k * S) _).2.1, hdl]
  · rw [(copy_slice_same r fb (k * S) _).2.2.1, hc1]
  · rw [(copy_slice_same r fb (k * S) _).2.2.2, hc2]

/-- Folding the scatter over the slice offsets `k*S, (k+1)*S, ...` keeps the
invariant. -/
theorem scatter_fold (r S : Nat) (P : List Nat)
    (hP : P.length = payload_len_bytes r) (fb0 : FrameBuf) :
    ∀ (n k : Nat) (fb : FrameBuf), (∀ j, j < n → (k + j) * S < payload_len_bytes r) →
      ScatterInv r S k P fb0 fb →
      ScatterInv r S (k + n) P fb0
        (((List.range' k n).map (· * S)).foldl
          (fun b off => copy_slice_into_frame r b off
            ((P.drop off).take (sliceChunk (payload_len_bytes r) S off))) fb) := by
  intro n
  induction n with
  | zero =>
    intro k fb _ hinv
    exact hinv
  | succ m ih =>
    intro k fb hlt hinv
    rw [List.range'_succ, List.map_cons, List.foldl_cons]
    have hstep := scatter_step r S k P hP fb0 fb
      (by have := hlt 0 (by omega); simpa using this) hinv
    have := ih (k + 1) _ (fun j hj => by
      have := hlt (j + 1) (by omega)
      have he : (k + (j + 1)) = (k + 1 + j) := by omega
      rw [he] at this
      exact this) hstep
    have he : k + 1 + m = k + (m + 1) := by omega
    rw [he] at this
    exact this

/-- The scatter of all slices of one frame into a slot, offsets in emission
order. -/
def scatterAll (r S : Nat) (P : List Nat) (fb0 : FrameBuf) : FrameBuf :=
  (sliceOffsets (payload_len_bytes r) S).foldl
    (fun b off => copy_slice_into_frame r b off
      ((P.drop off).take (sliceChunk (payload_len_bytes r) S off))) fb0

/-- Scattering every slice of a frame into a freshly initialized slot rebuilds
the payload split across the four regions and fills both CRC counters. -/
theorem scatter_all_full (r S : Nat) (hS : 0 < S) (P : List Nat)
    (hP : P.length = payload_len_bytes r) (fb0 : FrameBuf)
    (hd : fb0.data = List.replicate FRAME_BYTES 0)
    (hp : fb0.par = List.replicate (r * SHARD_LEN) 0)
    (hcD : fb0.crcD = List.replicate (K_SHARDS * 2) 0)
    (hcP : fb0.crcP = List.replicate (r * 2) 0)
    (hfD : fb0.crcD_filled = 0) (hfP : fb0.crcP_filled = 0) :
    (scatterAll r S P fb0).data = P.take FRAME_BYTES ∧
    (scatterAll r S P fb0).par = (P.drop FRAME_BYTES).take (r * SHARD_LEN) ∧
    (scatterAll r S P fb0).crcD =
      (P.drop (FRAME_BYTES + r * SHARD_LEN)).take (K_SHARDS * 2) ∧
    (scatterAll r S P fb0).crcP =
      (P.drop (FRAME_BYTES + r * SHARD_LEN + K_SHARDS * 2)).take (r * 2) ∧
    (scatterAll r S P fb0).crcD_filled = K_SHARDS * 2 ∧
    (scatterAll r S P fb0).crcP_filled = r * 2 ∧
    (scatterAll r S P fb0).init = fb0.init ∧
    (scatterAll r S P fb0).data_len = fb0.data_len ∧
    (scatterAll r S P fb0).crc32_data = fb0.crc32_data ∧
    (scatterAll r S P fb0).crc32_par = fb0.crc32_par := by
  have hPAY := payload_len_bytes_eq r
  have hPAYpos : 0 < payload_len_bytes r := by
    rw [hPAY]
    have : FRAME_BYTES = 12288 := rfl
    omega
  have hinv0 : ScatterInv r S 0 P fb0 fb0 := by
    have h0 : min (payload_len_bytes r) (0 * S) = 0 := by
      rw [Nat.zero_mul]
      omega
    refine ⟨by rw [hd, List.length_replicate], by rw [hp, List.length_replicate],
      by rw [hcD, List.length_replicate], by rw [hcP, List.length_replicate],
      ?_, by rw [hfD, h0]; omega, by rw [hfP, h0]; omega, rfl, rfl, rfl, rfl⟩
    rw [h0, List.take_zero, List.drop_zero, List.nil_append, hd, hp, hcD, hcP]
    have hsplit : payload_len_bytes r =
        FRAME_BYTES + (r * SHARD_LEN + (K_SHARDS * 2 + r * 2)) := by omega
    rw [hsplit, List.replicate_add, List.replicate_add, List.replicate_add]
  have hK : ∀ j, j < (payload_len_bytes r + S - 1) / S →
      (0 + j) * S < payload_len_bytes r := by
    intro j hj
    have hj1 : (j + 1) * S ≤ payload_len_bytes r + S - 1 :=
      (Nat.le_div_iff_mul_le hS).mp hj
    have hexp : (j + 1) * S = j * S + S := by ring
    have hexp0 : (0 + j) * S = j * S := by ring
    omega
  have hfold := scatter_fold r S P hP fb0 ((payload_len_bytes r + S - 1) / S) 0 fb0
    hK hinv0
  have hcover : min (payload_len_bytes r)
      ((0 + (payload_len_bytes r + S - 1) / S) * S) = payload_len_bytes r := by
    have h1 : payload_len_bytes r + S - 1 = (payload_len_bytes r - 1) + S := by omega
    have h2 : ((payload_len_bytes r - 1) + S) / S = (payload_len_bytes r - 1) / S + 1 :=
      Nat.add_div_right _ hS
    have h3 := Nat.div_add_mod (payload_len_bytes r - 1) S
    have h4 : (payload_len_bytes r - 1) % S < S := Nat.mod_lt _ hS
    have h5 : (0 + (payload_len_bytes r + S - 1) / S) * S =
        ((payload_len_bytes r - 1) / S + 1) * S := by
      rw [Nat.zero_add, h1, h2]
    have h6 : ((payload_len_bytes r - 1) / S + 1) * S =
        S * ((payload_len_bytes r - 1) / S) + S := by ring
    omega
  have hscat : scatterAll r S P fb0 =
      ((List.range' 0 ((payload_len_bytes r + S - 1) / S)).map (· * S)).foldl
        (fun b off => copy_slice_into_frame r b off
          ((P.drop off).take (sliceChunk (payload_len_bytes r) S off))) fb0 := by
    unfold scatterAll sliceOffsets
    rw [List.range_eq_range']
  rw [hscat]
  obtain ⟨gd, gp, gcD, gcP, gpv, gfD, gfP, gi, gdl, gc1, gc2⟩ := hfold
  rw [hcover] at gpv gfD gfP
  have hPfull : P.take (payload_len_bytes r) = P := List.take_of_length_le (by omega)
  have hZnil : (List.replicate (payload_len_bytes r) 0).drop (payload_len_bytes r) =
      ([] : List Nat) := List.drop_eq_nil_of_le (by rw [List.length_replicate])
  rw [hPfull, hZnil, List.append_nil] at gpv
  have hdata := congrArg (List.take FRAME_BYTES) gpv
  rw [take_append_len _ _ _ gd] at hdata
  have hdrop1 := congrArg (List.drop FRAME_BYTES) gpv
  rw [drop_append_len _ _ _ gd] at hdrop1
  have hpar := congrArg (List.take (r * SHARD_LEN)) hdrop1
  rw [take_append_len _ _ _ gp] at hpar
  have hdrop2 := congrArg (List.drop (r * SHARD_LEN)) hdrop1
  rw [drop_append_len _ _ _ gp, List.drop_drop] at hdrop2
  have hcrcD := congrArg (List.take (K_SHARDS * 2)) hdrop2
  rw [take_append_len _ _ _ gcD] at hcrcD
  have hdrop3 := congrArg (List.drop (K_SHARDS * 2)) hdrop2
  rw [drop_append_len _ _ _ gcD, List.drop_drop] at hdrop3
  have hcrcP : (((List.range' 0 ((payload_len_bytes r + S - 1) / S)).map (· * S)).foldl
      (fun b off => copy_slice_into_frame r b off
        ((P.drop off).take (sliceChunk (payload_len_bytes r) S off))) fb0).crcP =
      (P.drop (FRAME_BYTES + r * SHARD_LEN + K_SHARDS * 2)).take (r * 2) := by
    rw [← hdrop3]
    exact (List.take_of_length_le (by rw [gcP])).symm
  refine ⟨hdata, hpar, hcrcD, hcrcP, by rw [gfD]; omega, by rw [gfP]; omega,
    gi, gdl, gc1, gc2⟩

/-! ## The pack output as a record stream -/

/-- Body bytes of the slice at `(fidx, off)` as the pack loop gathers them. -/
def packSliceBody (r S : Nat) (input : List Nat) (frames fidx off : Nat) : List Nat :=
  sliceGather r (packFrameData input frames fidx) (packFramePar r input frames fidx)
    (tableBytes (crcD_vals (packFrameData input frames fidx)))
    (tableBytes (crcP_vals r (packFramePar r input frames fidx))) off
    (sliceChunk (payload_len_bytes r) S off)

/-- Record view of one interleave group of the pack output. -/
def groupRecs (r S : Nat) (input : List Nat) (frames fbase in_grp : Nat) : List PRec :=
  ((List.range in_grp).map (fun gi => PRec.fhdr (fbase + gi)
      (to_read input.length frames (fbase + gi))
      (crc32_calc (packFrameData input frames (fbase + gi)))
      (crc32_calc (packFramePar r input frames (fbase + gi))))) ++
  ((sliceOffsets (payload_len_bytes r) S).map (fun off =>
    (List.range in_grp).map (fun gi =>
      PRec.slc (fbase + gi) off (packSliceBody r S input frames (fbase + gi) off)))).flatten

/-- Record view of the whole container body. -/
def packRecs (r S D : Nat) (input : List Nat) (frames : Nat) : List PRec :=
  ((List.range ((frames + D - 1) / D)).map (fun g =>
    groupRecs r S input frames (g * D) (min D (frames - g * D)))).flatten

theorem sliceOffsets_mem_lt (PAY S off : Nat) (hS : 0 < S)
    (hoff : off ∈ sliceOffsets PAY S) : off < PAY := by
  unfold sliceOffsets at hoff
  obtain ⟨i, hi, rfl⟩ := List.mem_map.mp hoff
  have hiK := List.mem_range.mp hi
  have hj1 : (i + 1) * S ≤ PAY + S - 1 := (Nat.le_div_iff_mul_le hS).mp hiK
  have hexp : (i + 1) * S = i * S + S := by ring
  omega

theorem packSliceBody_length (r S : Nat) (input : List Nat) (fidx off : Nat)
    (hf : fidx < (input.length + FRAME_BYTES - 1) / FRAME_BYTES)
    (hoff : off < payload_len_bytes r) :
    (packSliceBody r S input ((input.length + FRAME_BYTES - 1) / FRAME_BYTES)
      fidx off).length = sliceChunk (payload_len_bytes r) S off := by
  have hPAY := payload_len_bytes_eq r
  unfold packSliceBody
  rw [sliceGather_eq_extract r _ _ _ _ off _
    (packFrameData_length input fidx hf)
    (packFramePar_length r input _ fidx)
    (by rw [tableBytes_length, crcD_vals_length]; omega)
    (by rw [tableBytes_length, crcP_vals_length]; omega)]
  rw [List.length_take, List.length_drop, List.length_append, List.length_append,
    List.length_append, packFrameData_length input fidx hf,
    packFramePar_length r input _ fidx, tableBytes_length, crcD_vals_length,
    tableBytes_length, crcP_vals_length]
  unfold sliceChunk
  split_ifs with h
  · omega
  · omega

/-- One interleave group's bytes are the byte images of its records. -/
theorem packGroupBytes_eq_recs (r S : Nat) (hS : 0 < S) (input : List Nat)
    (fbase in_grp : Nat)
    (hend : ∀ gi, gi < in_grp →
      fbase + gi < (input.length + FRAME_BYTES - 1) / FRAME_BYTES) :
    packGroupBytes r S input ((input.length + FRAME_BYTES - 1) / FRAME_BYTES)
      fbase in_grp =
    ((groupRecs r S input ((input.length + FRAME_BYTES - 1) / FRAME_BYTES)
      fbase in_grp).map (encPRec r)).flatten := by
  unfold packGroupBytes groupRecs
  rw [List.map_append, List.flatten_append]
  have hA : ((List.range in_grp).map (fun gi => packFrameHdrBytes r input
      ((input.length + FRAME_BYTES - 1) / FRAME_BYTES) (fbase + gi))).flatten =
      (((List.range in_grp).map (fun gi => PRec.fhdr (fbase + gi)
        (to_read input.length ((input.length + FRAME_BYTES - 1) / FRAME_BYTES) (fbase + gi))
        (crc32_calc (packFrameData input ((input.length + FRAME_BYTES - 1) / FRAME_BYTES) (fbase + gi)))
        (crc32_calc (packFramePar r input ((input.length + FRAME_BYTES - 1) / FRAME_BYTES) (fbase + gi))))).map
        (encPRec r)).flatten := by
    rw [List.map_map]
    exact congrArg List.flatten (List.map_congr_left (fun gi _ => rfl))
  have hB : ((sliceOffsets (payload_len_bytes r) S).map (fun off =>
      ((List.range in_grp).map (fun gi => packSliceBytes r S input
        ((input.length + FRAME_BYTES - 1) / FRAME_BYTES) (fbase + gi) off)).flatten)).flatten =
      ((((sliceOffsets (payload_len_bytes r) S).map (fun off =>
        (List.range in_grp).map (fun gi => PRec.slc (fbase + gi) off
          (packSliceBody r S input ((input.length + FRAME_BYTES - 1) / FRAME_BYTES)
            (fbase + gi) off)))).flatten).map (encPRec r)).flatten := by
    rw [List.map_flatten, List.map_map, List.flatten_flatten, List.map_map]
    refine congrArg List.flatten (List.map_congr_left ?_)
    intro off hoff
    simp only [Function.comp]
    rw [List.map_map]
    refine congrArg List.flatten (List.map_congr_left ?_)
    intro gi hgi
    simp only [Function.comp]
    have hlen := packSliceBody_length r S input (fbase + gi) off
      (hend gi (List.mem_range.mp hgi))
      (sliceOffsets_mem_lt (payload_len_bytes r) S off hS hoff)
    simp only [encPRec]
    rw [hlen]
    rfl
  rw [hA, hB]

/-- The container body after the global header is the byte image of the
record stream. -/
theorem pack_body_eq_recs (r S D : Nat) (hS : 0 < S) (input : List Nat) :
    ((List.range (((input.length + FRAME_BYTES - 1) / FRAME_BYTES + D - 1) / D)).map
      (fun g => packGroupBytes r S input ((input.length + FRAME_BYTES - 1) / FRAME_BYTES)
        (g * D) (min D ((input.length + FRAME_BYTES - 1) / FRAME_BYTES - g * D)))).flatten =
    ((packRecs r S D input ((input.length + FRAME_BYTES - 1) / FRAME_BYTES)).map
      (encPRec r)).flatten := by
  unfold packRecs
  rw [List.map_flatten, List.flatten_flatten, List.map_map, List.map_map]
  refine congrArg List.flatten (List.map_congr_left ?_)
  intro g _
  simp only [Function.comp]
  exact packGroupBytes_eq_recs r S hS input (g * D) _ (fun gi hgi => by omega)

/-! ## Per-slot decomposition of the record fold -/

/-- The frame index a record addresses. -/
def recIdx : PRec → Nat
  | .fhdr idx _ _ _ => idx
  | .slc fidx _ _ => fidx

/-- The field conditions under which the parser accepts a record. -/
def recOK (F : Nat) : PRec → Prop
  | .fhdr idx dlen _ _ => idx < F ∧ dlen ≤ FRAME_BYTES
  | .slc fidx _ _ => fidx < F

/-- Number of slices a record contributes to `slices_ok`. -/
def slcCount : PRec → Nat
  | .fhdr _ _ _ _ => 0
  | .slc _ _ _ => 1

/-- The action of one accepted record on its own frame slot. -/
def slotApply (r F orig : Nat) (fb : FrameBuf) : PRec → FrameBuf
  | .fhdr _ dlen c32d c32p =>
      let fb1 := if fb.init = 0 then freshFrameBuf r else fb
      { fb1 with data_len := dlen, crc32_data := c32d, crc32_par := c32p }
  | .slc fidx off body =>
      let fb1 := if fb.init = 0 then
          { freshFrameBuf r with
            init := 2
            data_len := if fidx = F - 1 then
                (if orig - (F - 1) * FRAME_BYTES ≤ FRAME_BYTES
                 then (orig - (F - 1) * FRAME_BYTES) % 65536
                 else FRAME_BYTES % 65536)
              else FRAME_BYTES }
        else fb
      copy_slice_into_frame r fb1 off body

theorem applyPRec_tab_length (r F orig : Nat) (st : ParseState) (q : PRec) :
    (applyPRec r F orig st q).tab.length = st.tab.length := by
  cases q <;> simp only [applyPRec] <;> split_ifs <;> simp [List.length_set]

theorem applyPRec_slices_ok (r F orig : Nat) (st : ParseState) (q : PRec) :
    (applyPRec r F orig st q).slices_ok = st.slices_ok + slcCount q := by
  cases q <;> simp only [applyPRec, slcCount] <;> split_ifs <;> simp

theorem applyPRec_getD_ne (r F orig : Nat) (st : ParseState) (q : PRec) (fidx : Nat)
    (h : recIdx q ≠ fidx) :
    (applyPRec r F orig st q).tab.getD fidx emptyFrameBuf =
      st.tab.getD fidx emptyFrameBuf := by
  cases q <;> simp only [recIdx] at h <;> simp only [applyPRec] <;> split_ifs <;>
    first
    | rfl
    | exact getD_set_ne st.tab _ fidx _ _ h

theorem applyPRec_getD_eq (r F orig : Nat) (st : ParseState) (q : PRec) (fidx : Nat)
    (hq : recIdx q = fidx) (hok : recOK F q) (hlen : st.tab.length = F) :
    (applyPRec r F orig st q).tab.getD fidx emptyFrameBuf =
      slotApply r F orig (st.tab.getD fidx emptyFrameBuf) q := by
  cases q with
  | fhdr idx dlen c32d c32p =>
    simp only [recIdx] at hq
    subst hq
    obtain ⟨h1, h2⟩ := hok
    simp only [applyPRec, slotApply]
    rw [if_pos ⟨h1, h2⟩]
    exact getD_set_self st.tab idx _ _ (by rw [hlen]; exact h1)
  | slc i off body =>
    simp only [recIdx] at hq
    subst hq
    have h1 : i < F := hok
    simp only [applyPRec, slotApply]
    rw [if_pos h1]
    exact getD_set_self st.tab i _ _ (by rw [hlen]; exact h1)

theorem foldl_applyPRec_tab_length (r F orig : Nat) (recs : List PRec) :
    ∀ st : ParseState, (recs.foldl (applyPRec r F orig) st).tab.length = st.tab.length := by
  induction recs with
  | nil => intro st; rfl
  | cons q tl ih =>
    intro st
    rw [List.foldl_cons, ih, applyPRec_tab_length]

theorem foldl_applyPRec_slices_ok (r F orig : Nat) (recs : List PRec) :
    ∀ st : ParseState, (recs.foldl (applyPRec r F orig) st).slices_ok =
      st.slices_ok + (recs.map slcCount).sum := by
  induction recs with
  | nil => intro st; rfl
  | cons q tl ih =>
    intro st
    rw [List.foldl_cons, ih, applyPRec_slices_ok, List.map_cons, List.sum_cons]
    omega

/-- The record fold acts on each slot independently: the slot's final value is
the fold of the slot actions of the records addressing it. -/
theorem foldl_applyPRec_slot (r F orig fidx : Nat) (recs : List PRec) :
    ∀ st : ParseState, st.tab.length = F → (∀ q ∈ recs, recOK F q) →
      (recs.foldl (applyPRec r F orig) st).tab.getD fidx emptyFrameBuf =
        recs.foldl (fun fb q => if recIdx q = fidx then slotApply r F orig fb q else fb)
          (st.tab.getD fidx emptyFrameBuf) := by
  induction recs with
  | nil => intro st _ _; rfl
  | cons q tl ih =>
    intro st hlen hok
    rw [List.foldl_cons, List.foldl_cons]
    have hlen2 : (applyPRec r F orig st q).tab.length = F := by
      rw [applyPRec_tab_length]
      exact hlen
    rw [ih _ hlen2 (fun p hp => hok p (List.mem_cons_of_mem q hp))]
    by_cases hq : recIdx q = fidx
    · rw [if_pos hq, applyPRec_getD_eq r F orig st q fidx hq
        (hok q (List.mem_cons_self q tl)) hlen]
    · rw [if_neg hq, applyPRec_getD_ne r F orig st q fidx hq]

/-! ## Evaluating the slot fold on the pack record stream -/

/-- Folding the slot action over an indexed record list in which exactly one
record addresses the slot applies exactly that record. -/
theorem slotFold_range (r F orig fidx : Nat) (recf : Nat → PRec) (n gi0 : Nat)
    (hgi0 : gi0 < n) (hsel : ∀ gi, gi < n → (recIdx (recf gi) = fidx ↔ gi = gi0))
    (fb : FrameBuf) :
    ((List.range n).map recf).foldl
      (fun b q => if recIdx q = fidx then slotApply r F orig b q else b) fb =
      slotApply r F orig fb (recf gi0) := by
  obtain ⟨m, hm⟩ : ∃ m, n - gi0 = m + 1 := ⟨n - gi0 - 1, by omega⟩
  have hsum := List.range'_append_1 0 gi0 (n - gi0)
  simp only [Nat.zero_add] at hsum
  have h3 : n - gi0 + gi0 = n := by omega
  rw [h3, hm, List.range'_succ] at hsum
  rw [List.range_eq_range', ← hsum, List.map_append, List.foldl_append,
    List.map_cons, List.foldl_cons]
  have hpre : (List.map recf (List.range' 0 gi0)).foldl
      (fun b q => if recIdx q = fidx then slotApply r F orig b q else b) fb = fb := by
    apply foldl_fixed
    intro q hq
    obtain ⟨gi, hgi, rfl⟩ := List.mem_map.mp hq
    obtain ⟨i, hi, rfl⟩ := List.mem_range'.mp hgi
    have hik : 0 + 1 * i < n := by omega
    have hne : recIdx (recf (0 + 1 * i)) ≠ fidx := by
      intro hcon
      have hgi := (hsel _ hik).mp hcon
      omega
    rw [if_neg hne]
  rw [hpre, if_pos ((hsel gi0 hgi0).mpr rfl)]
  apply foldl_fixed
  intro q hq
  obtain ⟨gi, hgi, rfl⟩ := List.mem_map.mp hq
  obtain ⟨i, hi, rfl⟩ := List.mem_range'.mp hgi
  have hik : gi0 + 1 + 1 * i < n := by omega
  have hne : recIdx (recf (gi0 + 1 + 1 * i)) ≠ fidx := by
    intro hcon
    have hgi := (hsel _ hik).mp hcon
    omega
  rw [if_neg hne]

/-- Folding the slot action over the slice records of one group: per offset,
exactly the slot's slice is applied. -/
theorem slotFold_slices (r F orig fidx : Nat) (S : Nat) (input : List Nat)
    (frames fbase in_grp : Nat) (hlo : fbase ≤ fidx) (hhi : fidx < fbase + in_grp)
    (offs : List Nat) :
    ∀ fb : FrameBuf,
      ((offs.map (fun off => (List.range in_grp).map (fun gi =>
        PRec.slc (fbase + gi) off
          (packSliceBody r S input frames (fbase + gi) off)))).flatten).foldl
        (fun b q => if recIdx q = fidx then slotApply r F orig b q else b) fb =
      offs.foldl (fun b off => slotApply r F orig b
        (PRec.slc fidx off (packSliceBody r S input frames fidx off))) fb := by
  induction offs with
  | nil => intro fb; rfl
  | cons off tl ih =>
    intro fb
    rw [List.map_cons, List.flatten_cons, List.foldl_append, List.foldl_cons]
    rw [slotFold_range r F orig fidx _ in_grp (fidx - fbase) (by omega)
      (fun gi hgi => by
        simp only [recIdx]
        omega) fb]
    have hsel : fbase + (fidx - fbase) = fidx := by omega
    rw [hsel]
    exact ih _

/-- Folding the slot action over the record stream of the group containing the
slot: header first, then one slice per offset. -/
theorem slotFold_group (r F orig fidx : Nat) (S : Nat) (input : List Nat)
    (frames fbase in_grp : Nat) (hlo : fbase ≤ fidx) (hhi : fidx < fbase + in_grp)
    (fb : FrameBuf) :
    (groupRecs r S input frames fbase in_grp).foldl
      (fun b q => if recIdx q = fidx then slotApply r F orig b q else b) fb =
      (sliceOffsets (payload_len_bytes r) S).foldl
        (fun b off => slotApply r F orig b
          (PRec.slc fidx off (packSliceBody r S input frames fidx off)))
        (slotApply r F orig fb (PRec.fhdr fidx
          (to_read input.length frames fidx)
          (crc32_calc (packFrameData input frames fidx))
          (crc32_calc (packFramePar r input frames fidx)))) := by
  unfold groupRecs
  rw [List.foldl_append]
  rw [slotFold_range r F orig fidx _ in_grp (fidx - fbase) (by omega)
    (fun gi hgi => by
      simp only [recIdx]
      omega) fb]
  have hsel : fbase + (fidx - fbase) = fidx := by omega
  rw [hsel]
  exact slotFold_slices r F orig fidx S input frames fbase in_grp hlo hhi _ _

theorem groupRecs_recIdx_mem (r S : Nat) (input : List Nat)
    (frames fbase in_grp : Nat) (q : PRec)
    (hq : q ∈ groupRecs r S input frames fbase in_grp) :
    ∃ gi, gi < in_grp ∧ recIdx q = fbase + gi := by
  unfold groupRecs at hq
  rcases List.mem_append.mp hq with h | h
  · obtain ⟨gi, hgi, rfl⟩ := List.mem_map.mp h
    exact ⟨gi, List.mem_range.mp hgi, rfl⟩
  · obtain ⟨sub, hsub, hqsub⟩ := List.mem_flatten.mp h
    obtain ⟨off, hoff, rfl⟩ := List.mem_map.mp hsub
    obtain ⟨gi, hgi, rfl⟩ := List.mem_map.mp hqsub
    exact ⟨gi, List.mem_range.mp hgi, rfl⟩

/-- The whole record stream acts on slot `fidx` as its group's records do. -/
theorem slotFold_packRecs (r S D orig fidx : Nat) (hD : 0 < D) (input : List Nat)
    (frames F : Nat) (hfid : fidx < frames) (fb : FrameBuf) :
    (packRecs r S D input frames).foldl
      (fun b q => if recIdx q = fidx then slotApply r F orig b q else b) fb =
      (sliceOffsets (payload_len_bytes r) S).foldl
        (fun b off => slotApply r F orig b
          (PRec.slc fidx off (packSliceBody r S input frames fidx off)))
        (slotApply r F orig fb (PRec.fhdr fidx
          (to_read input.length frames fidx)
          (crc32_calc (packFrameData input frames fidx))
          (crc32_calc (packFramePar r input frames fidx)))) := by
  have hmod := Nat.div_add_mod fidx D
  have hmlt : fidx % D < D := Nat.mod_lt _ hD
  have hG : fidx / D < (frames + D - 1) / D := by
    have h1 : fidx / D + 1 ≤ (frames + D - 1) / D := by
      rw [Nat.le_div_iff_mul_le hD]
      have h2 : (fidx / D + 1) * D = D * (fidx / D) + D := by ring
      omega
    omega
  obtain ⟨m, hm⟩ : ∃ m, (frames + D - 1) / D - fidx / D = m + 1 :=
    ⟨(frames + D - 1) / D - fidx / D - 1, by omega⟩
  have hsum := List.range'_append_1 0 (fidx / D) ((frames + D - 1) / D - fidx / D)
  simp only [Nat.zero_add] at hsum
  have h3 : (frames + D - 1) / D - fidx / D + fidx / D = (frames + D - 1) / D := by
    omega
  rw [h3, hm, List.range'_succ] at hsum
  unfold packRecs
  rw [List.range_eq_range', ← hsum, List.map_append, List.flatten_append,
    List.foldl_append, List.map_cons, List.flatten_cons, List.foldl_append]
  have hskip : ∀ (gs : List Nat), (∀ g ∈ gs, g ≠ fidx / D) → ∀ b : FrameBuf,
      (((gs.map (fun g => groupRecs r S input frames (g * D)
        (min D (frames - g * D)))).flatten).foldl
        (fun b q => if recIdx q = fidx then slotApply r F orig b q else b) b) = b := by
    intro gs
    induction gs with
    | nil => intro _ b; rfl
    | cons g tlg ihg =>
      intro hne b
      rw [List.map_cons, List.flatten_cons, List.foldl_append]
      have hgrp : ((groupRecs r S input frames (g * D) (min D (frames - g * D))).foldl
          (fun b q => if recIdx q = fidx then slotApply r F orig b q else b) b) = b := by
        apply foldl_fixed
        intro q hq
        obtain ⟨gi, hgi, hqi⟩ := groupRecs_recIdx_mem r S input frames _ _ q hq
        have hne2 : recIdx q ≠ fidx := by
          rw [hqi]
          intro hcon
          have hdiv : (g * D + gi) / D = g := by
            have h4 : g * D + gi = D * g + gi := by ring
            rw [h4, Nat.mul_add_div hD, Nat.div_eq_of_lt (by omega)]
            omega
          exact hne g (List.mem_cons_self g tlg) (by rw [← hcon, hdiv])
        rw [if_neg hne2]
      rw [hgrp]
      exact ihg (fun g2 hg2 => hne g2 (List.mem_cons_of_mem g hg2)) b
  rw [hskip _ (fun g hg => by
    obtain ⟨i, hi, rfl⟩ := List.mem_range'.mp hg
    omega) fb]
  have hin : fidx / D * D ≤ fidx ∧ fidx < fidx / D * D + min D (frames - fidx / D * D) := by
    have h4 : fidx / D * D = D * (fidx / D) := by ring
    omega
  rw [slotFold_group r F orig fidx S input frames (fidx / D * D) _ hin.1 hin.2 fb]
  rw [hskip _ (fun g hg => by
    obtain ⟨i, hi, rfl⟩ := List.mem_range'.mp hg
    omega) _]

theorem packPayload_length (r : Nat) (input : List Nat) (fidx : Nat)
    (hf : fidx < (input.length + FRAME_BYTES - 1) / FRAME_BYTES) :
    (packPayload r input ((input.length + FRAME_BYTES - 1) / FRAME_BYTES) fidx).length =
      payload_len_bytes r := by
  unfold packPayload
  rw [List.length_append, List.length_append, List.length_append,
    packFrameData_length input fidx hf, packFramePar_length, tableBytes_length,
    tableBytes_length, crcD_vals_length, crcP_vals_length, payload_len_bytes_eq]
  omega

theorem packSliceBody_eq_extract (r S : Nat) (input : List Nat) (fidx off : Nat)
    (hf : fidx < (input.length + FRAME_BYTES - 1) / FRAME_BYTES) :
    packSliceBody r S input ((input.length + FRAME_BYTES - 1) / FRAME_BYTES) fidx off =
      ((packPayload r input ((input.length + FRAME_BYTES - 1) / FRAME_BYTES) fidx).drop
        off).take (sliceChunk (payload_len_bytes r) S off) := by
  unfold packSliceBody packPayload
  exact sliceGather_eq_extract r _ _ _ _ off _
    (packFrameData_length input fidx hf)
    (packFramePar_length r input _ fidx)
    (by rw [tableBytes_length, crcD_vals_length]; omega)
    (by rw [tableBytes_length, crcP_vals_length]; omega)

/-- The slice slot actions with an initialized slot are plain scatters. -/
theorem slotApply_slc_fold (r F orig fidx : Nat) (bodyf : Nat → List Nat)
    (offs : List Nat) :
    ∀ fb : FrameBuf, fb.init ≠ 0 →
      offs.foldl (fun b off => slotApply r F orig b
        (PRec.slc fidx off (bodyf off))) fb =
      offs.foldl (fun b off => copy_slice_into_frame r b off (bodyf off)) fb := by
  induction offs with
  | nil => intro fb _; rfl
  | cons off tl ih =>
    intro fb hinit
    rw [List.foldl_cons, List.foldl_cons]
    have hstep : slotApply r F orig fb (PRec.slc fidx off (bodyf off)) =
        copy_slice_into_frame r fb off (bodyf off) := by
      simp only [slotApply]
      rw [if_neg hinit]
    rw [hstep]
    exact ih _ (by rw [(copy_slice_same r fb off (bodyf off)).1]; exact hinit)

/-- Final value of frame slot `fidx` after the whole record fold: frame data,
parity and CRC tables fully rebuilt, counters full, header fields set. -/
theorem packRecs_slot_value (r S D orig F : Nat) (hD : 0 < D) (hS : 0 < S)
    (input : List Nat) (fidx : Nat)
    (hfid : fidx < (input.length + FRAME_BYTES - 1) / FRAME_BYTES) :
    (packRecs r S D input ((input.length + FRAME_BYTES - 1) / FRAME_BYTES)).foldl
      (fun fb q => if recIdx q = fidx then slotApply r F orig fb q else fb)
      emptyFrameBuf =
      { init := 1
        data_len := to_read input.length
          ((input.length + FRAME_BYTES - 1) / FRAME_BYTES) fidx
        data := packFrameData input ((input.length + FRAME_BYTES - 1) / FRAME_BYTES) fidx
        par := packFramePar r input ((input.length + FRAME_BYTES - 1) / FRAME_BYTES) fidx
        crcD := tableBytes (crcD_vals
          (packFrameData input ((input.length + FRAME_BYTES - 1) / FRAME_BYTES) fidx))
        crcP := tableBytes (crcP_vals r
          (packFramePar r input ((input.length + FRAME_BYTES - 1) / FRAME_BYTES) fidx))
        crc32_data := crc32_calc
          (packFrameData input ((input.length + FRAME_BYTES - 1) / FRAME_BYTES) fidx)
        crc32_par := crc32_calc
          (packFramePar r input ((input.length + FRAME_BYTES - 1) / FRAME_BYTES) fidx)
        crcD_filled := K_SHARDS * 2
        crcP_filled := r * 2 } := by
  rw [slotFold_packRecs r S D orig fidx hD input _ F hfid emptyFrameBuf]
  have hhdr : slotApply r F orig emptyFrameBuf (PRec.fhdr fidx
      (to_read input.length ((input.length + FRAME_BYTES - 1) / FRAME_BYTES) fidx)
      (crc32_calc (packFrameData input ((input.length + FRAME_BYTES - 1) / FRAME_BYTES) fidx))
      (crc32_calc (packFramePar r input ((input.length + FRAME_BYTES - 1) / FRAME_BYTES) fidx))) =
      { freshFrameBuf r with
        data_len := to_read input.length
          ((input.length + FRAME_BYTES - 1) / FRAME_BYTES) fidx
        crc32_data := crc32_calc
          (packFrameData input ((input.length + FRAME_BYTES - 1) / FRAME_BYTES) fidx)
        crc32_par := crc32_calc
          (packFramePar r input ((input.length + FRAME_BYTES - 1) / FRAME_BYTES) fidx) } := by
    rfl
  rw [hhdr]
  rw [slotApply_slc_fold r F orig fidx
    (fun off => packSliceBody r S input
      ((input.length + FRAME_BYTES - 1) / FRAME_BYTES) fidx off)
    (sliceOffsets (payload_len_bytes r) S)
    { freshFrameBuf r with
      data_len := to_read input.length
        ((input.length + FRAME_BYTES - 1) / FRAME_BYTES) fidx
      crc32_data := crc32_calc
        (packFrameData input ((input.length + FRAME_BYTES - 1) / FRAME_BYTES) fidx)
      crc32_par := crc32_calc
        (packFramePar r input ((input.length + FRAME_BYTES - 1) / FRAME_BYTES) fidx) }
    (by exact Nat.one_ne_zero)]
  have hbody : (fun (b : FrameBuf) (off : Nat) => copy_slice_into_frame r b off
      (packSliceBody r S input ((input.length + FRAME_BYTES - 1) / FRAME_BYTES) fidx off)) =
      (fun (b : FrameBuf) (off : Nat) => copy_slice_into_frame r b off
        (((packPayload r input ((input.length + FRAME_BYTES - 1) / FRAME_BYTES) fidx).drop
          off).take (sliceChunk (payload_len_bytes r) S off))) := by
    funext b off
    rw [packSliceBody_eq_extract r S input fidx off hfid]
  rw [hbody]
  have hfull := scatter_all_full r S hS
    (packPayload r input ((input.length + FRAME_BYTES - 1) / FRAME_BYTES) fidx)
    (packPayload_length r input fidx hfid)
    { freshFrameBuf r with
      data_len := to_read input.length
        ((input.length + FRAME_BYTES - 1) / FRAME_BYTES) fidx
      crc32_data := crc32_calc
        (packFrameData input ((input.length + FRAME_BYTES - 1) / FRAME_BYTES) fidx)
      crc32_par := crc32_calc
        (packFramePar r input ((input.length + FRAME_BYTES - 1) / FRAME_BYTES) fidx) }
    rfl rfl rfl rfl rfl rfl
  obtain ⟨e1, e2, e3, e4, e5, e6, e7, e8, e9, e10⟩ := hfull
  rw [scatterAll] at e1 e2 e3 e4 e5 e6 e7 e8 e9 e10
  have hP := packPayload_length r input fidx hfid
  have hdataP : (packPayload r input ((input.length + FRAME_BYTES - 1) / FRAME_BYTES)
      fidx).take FRAME_BYTES =
      packFrameData input ((input.length + FRAME_BYTES - 1) / FRAME_BYTES) fidx := by
    unfold packPayload
    exact take_append_len _ _ _ (packFrameData_length input fidx hfid)
  have hdrop1 : (packPayload r input ((input.length + FRAME_BYTES - 1) / FRAME_BYTES)
      fidx).drop FRAME_BYTES =
      packFramePar r input ((input.length + FRAME_BYTES - 1) / FRAME_BYTES) fidx ++
      (tableBytes (crcD_vals (packFrameData input
        ((input.length + FRAME_BYTES - 1) / FRAME_BYTES) fidx)) ++
       tableBytes (crcP_vals r (packFramePar r input
        ((input.length + FRAME_BYTES - 1) / FRAME_BYTES) fidx))) := by
    unfold packPayload
    exact drop_append_len _ _ _ (packFrameData_length input fidx hfid)
  have hparP : ((packPayload r input ((input.length + FRAME_BYTES - 1) / FRAME_BYTES)
      fidx).drop FRAME_BYTES).take (r * SHARD_LEN) =
      packFramePar r input ((input.length + FRAME_BYTES - 1) / FRAME_BYTES) fidx := by
    rw [hdrop1]
    exact take_append_len _ _ _ (packFramePar_length r input _ fidx)
  have hdrop2 : (packPayload r input ((input.length + FRAME_BYTES - 1) / FRAME_BYTES)
      fidx).drop (FRAME_BYTES + r * SHARD_LEN) =
      tableBytes (crcD_vals (packFrameData input
        ((input.length + FRAME_BYTES - 1) / FRAME_BYTES) fidx)) ++
      tableBytes (crcP_vals r (packFramePar r input
        ((input.length + FRAME_BYTES - 1) / FRAME_BYTES) fidx)) := by
    rw [← List.drop_drop, hdrop1]
    exact drop_append_len _ _ _ (packFramePar_length r input _ fidx)
  have hcDP : ((packPayload r input ((input.length + FRAME_BYTES - 1) / FRAME_BYTES)
      fidx).drop (FRAME_BYTES + r * SHARD_LEN)).take (K_SHARDS * 2) =
      tableBytes (crcD_vals (packFrameData input
        ((input.length + FRAME_BYTES - 1) / FRAME_BYTES) fidx)) := by
    rw [hdrop2]
    exact take_append_len _ _ _ (by rw [tableBytes_length, crcD_vals_length]; omega)
  have hcPP : ((packPayload r input ((input.length + FRAME_BYTES - 1) / FRAME_BYTES)
      fidx).drop (FRAME_BYTES + r * SHARD_LEN + K_SHARDS * 2)).take (r * 2) =
      tableBytes (crcP_vals r (packFramePar r input
        ((input.length + FRAME_BYTES - 1) / FRAME_BYTES) fidx)) := by
    rw [← List.drop_drop, hdrop2,
      drop_append_len _ _ _ (by rw [tableBytes_length, crcD_vals_length]; omega)]
    exact List.take_of_length_le (by rw [tableBytes_length, crcP_vals_length]; omega)
  rw [hdataP] at e1
  rw [hparP] at e2
  rw [hcDP] at e3
  rw [hcPP] at e4
  have hXeta : (((sliceOffsets (payload_len_bytes r) S)).foldl
      (fun b off => copy_slice_into_frame r b off
        (((packPayload r input ((input.length + FRAME_BYTES - 1) / FRAME_BYTES)
          fidx).drop off).take (sliceChunk (payload_len_bytes r) S off)))
      { freshFrameBuf r with
        data_len := to_read input.length
          ((input.length + FRAME_BYTES - 1) / FRAME_BYTES) fidx
        crc32_data := crc32_calc
          (packFrameData input ((input.length + FRAME_BYTES - 1) / FRAME_BYTES) fidx)
        crc32_par := crc32_calc
          (packFramePar r input ((input.length + FRAME_BYTES - 1) / FRAME_BYTES) fidx) })
      = FrameBuf.mk
        ((((sliceOffsets (payload_len_bytes r) S)).foldl
          (fun b off => copy_slice_into_frame r b off
            (((packPayload r input ((input.length + FRAME_BYTES - 1) / FRAME_BYTES)
              fidx).drop off).take (sliceChunk (payload_len_bytes r) S off)))
          { freshFrameBuf r with
            data_len := to_read input.length
              ((input.length + FRAME_BYTES - 1) / FRAME_BYTES) fidx
            crc32_data := crc32_calc
              (packFrameData input ((input.length + FRAME_BYTES - 1) / FRAME_BYTES) fidx)
            crc32_par := crc32_calc
              (packFramePar r input ((input.length + FRAME_BYTES - 1) / FRAME_BYTES) fidx) }).init)
        _ _ _ _ _ _ _ _ _ := rfl
  rw [hXeta, e1, e2, e3, e4, e5, e6, e7, e8, e9, e10]
  rfl

/-! ## The decode phase is the identity on an intact frame -/

theorem getD_map_range (f : Nat → Nat) (n j : Nat) (h : j < n) :
    ((List.range n).map f).getD j 0 = f j := by
  rw [List.getD_eq_getElem?_getD, List.getElem?_map, List.getElem?_range h]
  rfl

/-- Reading entry `j` of a packed `uint16` table returns the table value. -/
theorem rd16_tableBytes (vals : List Nat) (j : Nat) (hj : j < vals.length)
    (hv : ∀ v ∈ vals, v < 65536) :
    rd16 (tableBytes vals) j = vals.getD j 0 := by
  induction vals generalizing j with
  | nil => simp at hj
  | cons v t ih =>
    have hb : tableBytes (v :: t) = v % 256 :: (v / 256 % 256 :: tableBytes t) := by
      unfold tableBytes
      rw [List.map_cons, List.flatten_cons]
      rfl
    cases j with
    | zero =>
      rw [hb]
      unfold rd16
      simp only [List.getD_cons_zero, List.getD_cons_succ, Nat.mul_zero,
        Nat.zero_add, List.getD_cons_zero]
      have hvv := hv v (List.mem_cons_self v t)
      omega
    | succ i =>
      rw [hb]
      unfold rd16
      have h3 : 2 * (i + 1) + 1 = ((2 * i + 1) + 1) + 1 := by omega
      have h2 : 2 * (i + 1) = (2 * i + 1) + 1 := by omega
      rw [h3, h2]
      simp only [List.getD_cons_succ]
      have hih := ih i (by simp at hj; omega) (fun w hw => hv w (List.mem_cons_of_mem v hw))
      unfold rd16 at hih
      exact hih

theorem crcD_vals_lt (data : List Nat) : ∀ v ∈ crcD_vals data, v < 65536 := by
  intro v hv
  unfold crcD_vals at hv
  obtain ⟨j, _, rfl⟩ := List.mem_map.mp hv
  exact crc16_ccitt_lt _

theorem crcP_vals_lt (r : Nat) (par : List Nat) : ∀ v ∈ crcP_vals r par, v < 65536 := by
  intro v hv
  unfold crcP_vals at hv
  obtain ⟨j, _, rfl⟩ := List.mem_map.mp hv
  exact crc16_ccitt_lt _

/-- `to_read` never exceeds a frame. -/
theorem to_read_le_probe (orig frames fidx : Nat) :
    to_read orig frames fidx ≤ FRAME_BYTES := by
  unfold to_read
  split_ifs with h
  · omega
  · omega

/-- Zero padding of the frame data block beyond `to_read`. -/
theorem packFrameData_getD_ge (input : List Nat) (frames fidx t : Nat)
    (ht : to_read input.length frames fidx ≤ t) :
    (packFrameData input frames fidx).getD t 0 = 0 := by
  unfold packFrameData
  rcases Nat.lt_or_ge t FRAME_BYTES with hlt | hge
  · rw [List.getD_eq_getElem?_getD, List.getElem?_append_right (by
      rw [List.length_take]
      exact le_trans (Nat.min_le_left _ _) ht)]
    rw [List.getElem?_replicate]
    split_ifs with h
    · rfl
    · rfl
  · rw [List.getD_eq_getElem?_getD, List.getElem?_eq_none]
    · rfl
    · rw [List.length_append, List.length_take, List.length_drop, List.length_replicate]
      have := to_read_le_probe input.length frames fidx
      omega

/-- The encoder's column view of a zero-padded frame is the plain read. -/
theorem frameColumn_eq_col (D_f : List Nat) (vl i : Nat)
    (hzero : ∀ t, vl ≤ t → D_f.getD t 0 = 0) :
    frameColumn D_f vl i =
      (List.range K_SHARDS).map (fun j => D_f.getD (j * SHARD_LEN + i) 0) := by
  unfold frameColumn
  refine List.map_congr_left ?_
  intro j _
  split_ifs with h
  · rfl
  · exact (hzero _ (by omega)).symm

/-- Parity reads of an intact frame give the column codeword's parity. -/
theorem par_col_eq (r : Nat) (D_f : List Nat) (vl i : Nat) (hi : i < SHARD_LEN) :
    (List.range r).map (fun j =>
      (encode_frame_parity r D_f vl).getD (j * SHARD_LEN + i) 0) =
      encode_rs_char r (frameColumn D_f vl i) := by
  have hstep : ∀ j, j < r →
      (encode_frame_parity r D_f vl).getD (j * SHARD_LEN + i) 0 =
        (encode_rs_char r (frameColumn D_f vl i)).getD j 0 := by
    intro j hj
    unfold encode_frame_parity
    have h64 : SHARD_LEN = 64 := rfl
    have hlt : j * SHARD_LEN + i < r * SHARD_LEN := by
      rw [h64] at hi ⊢
      omega
    rw [getD_map_range _ _ _ hlt]
    have hmod : (j * SHARD_LEN + i) % SHARD_LEN = i := by
      rw [h64] at hi ⊢
      omega
    have hdiv : (j * SHARD_LEN + i) / SHARD_LEN = j := by
      rw [h64] at hi ⊢
      omega
    rw [hmod, hdiv]
  rw [← map_range_getD (encode_rs_char r (frameColumn D_f vl i)) r
    (encode_rs_char_length r _)]
  exact List.map_congr_left (fun j hj => hstep j (List.mem_range.mp hj))

/-- Writing a column's own values back is the identity. -/
theorem setColumn_self (D_f : List Nat) (i : Nat) :
    setColumn D_f i ((List.range K_SHARDS).map
      (fun j => D_f.getD (j * SHARD_LEN + i) 0)) = D_f := by
  unfold setColumn
  apply foldl_fixed
  intro j hj
  rw [getD_map_range _ _ _ (List.mem_range.mp hj)]
  exact set_getD_self D_f (j * SHARD_LEN + i) 0

/-- On an intact frame every column decodes to itself: no corrections, no
failures, the data written back unchanged. -/
theorem decodeColumn_id (r : Nat) (pad_mode : Int) (tab : List FrameBuf) (idx : Nat)
    (D_f : List Nat) (vl : Nat) (eras : List Nat) (c u f i : Nat)
    (hi : i < SHARD_LEN) (hzero : ∀ t, vl ≤ t → D_f.getD t 0 = 0) :
    decodeColumn r pad_mode tab idx (encode_frame_parity r D_f vl) eras
      ⟨D_f, c, u, f⟩ i =
      ⟨D_f, c, u + (if eras.length > 0 then 1 else 0), f⟩ := by
  have hClen : ((List.range K_SHARDS).map
      (fun j => D_f.getD (j * SHARD_LEN + i) 0)).length = K_SHARDS := by
    rw [List.length_map, List.length_range]
  have hpar := par_col_eq r D_f vl i hi
  have hdec : decode_rs_char r
      ((List.range K_SHARDS).map (fun j => D_f.getD (j * SHARD_LEN + i) 0) ++
        encode_rs_char r (frameColumn D_f vl i)) eras =
      (0, (List.range K_SHARDS).map (fun j => D_f.getD (j * SHARD_LEN + i) 0) ++
        encode_rs_char r (frameColumn D_f vl i)) := by
    unfold decode_rs_char
    rw [take_append_len _ _ _ hClen, drop_append_len _ _ _ hClen,
      frameColumn_eq_col D_f vl i hzero]
    rw [if_pos rfl]
  simp only [decodeColumn]
  rw [hpar, hdec]
  simp only []
  rw [if_neg (by decide : ¬ ((0 : Int) < 0))]
  by_cases hb : eras.length > 0
  · rw [if_pos hb, if_pos hb]
    simp only [Int.toNat_zero, Nat.add_zero]
    rw [take_append_len _ _ _ hClen, setColumn_self]
  · rw [if_neg hb, if_neg hb]
    simp only [Int.toNat_zero, Nat.add_zero]
    rw [take_append_len _ _ _ hClen, setColumn_self]

/-- Folding the decode over any set of column indices keeps the frame data and
the two claim counters. -/
theorem decodeFold_props (r : Nat) (pad : Int) (tab : List FrameBuf) (idx : Nat)
    (D_f : List Nat) (vl : Nat) (eras : List Nat)
    (hzero : ∀ t, vl ≤ t → D_f.getD t 0 = 0) :
    ∀ (l : List Nat), (∀ i ∈ l, i < SHARD_LEN) → ∀ (c u f : Nat),
      (l.foldl (decodeColumn r pad tab idx (encode_frame_parity r D_f vl) eras)
        ⟨D_f, c, u, f⟩).data = D_f ∧
      (l.foldl (decodeColumn r pad tab idx (encode_frame_parity r D_f vl) eras)
        ⟨D_f, c, u, f⟩).corrected = c ∧
      (l.foldl (decodeColumn r pad tab idx (encode_frame_parity r D_f vl) eras)
        ⟨D_f, c, u, f⟩).rs_fail = f := by
  intro l
  induction l with
  | nil => intro _ c u f; exact ⟨rfl, rfl, rfl⟩
  | cons i tl ih =>
    intro hmem c u f
    rw [List.foldl_cons, decodeColumn_id r pad tab idx D_f vl eras c u f i
      (hmem i (List.mem_cons_self i tl)) hzero]
    exact ih (fun j hj => hmem j (List.mem_cons_of_mem i hj)) c _ f

/-- The recomputed CRC-16 data-shard checks all pass on an intact frame. -/
theorem crc_filter_nil (D_f : List Nat) (GB : FrameBuf)
    (hGB_crcD : GB.crcD = tableBytes (crcD_vals D_f)) :
    (List.range K_SHARDS).filter
      (fun j => crc16_ccitt (shardOf D_f j) ≠ rd16 GB.crcD j) = [] := by
  rw [List.filter_eq_nil_iff]
  intro j hj
  have hjK := List.mem_range.mp hj
  rw [hGB_crcD, rd16_tableBytes (crcD_vals D_f) j
    (by rw [crcD_vals_length]; exact hjK) (crcD_vals_lt D_f)]
  unfold crcD_vals
  rw [getD_map_range _ _ _ hjK]
  simp

/-- Phase B on an intact frame slot: the slot and table are unchanged, the
frame's data prefix is appended to the output, and no corrections, failures or
residual bytes are counted. -/
theorem unpackFrameStep_good (r : Nat) (pad : Int) (orig : Nat) (acc : UnpackAcc)
    (idx : Nat) (D_f : List Nat) (vl : Nat) (GB : FrameBuf)
    (hGB_init : GB.init = 1)
    (hGB_data : GB.data = D_f)
    (hGB_par : GB.par = encode_frame_parity r D_f vl)
    (hGB_crcD : GB.crcD = tableBytes (crcD_vals D_f))
    (hzero : ∀ t, vl ≤ t → D_f.getD t 0 = 0)
    (hslot : acc.tab.getD idx emptyFrameBuf = GB) :
    (unpackFrameStep r pad orig acc idx).tab = acc.tab ∧
    (unpackFrameStep r pad orig acc idx).out = acc.out ++
      D_f.take (if orig - acc.written ≥ FRAME_BYTES then FRAME_BYTES
                else orig - acc.written) ∧
    (unpackFrameStep r pad orig acc idx).written = acc.written +
      (if orig - acc.written ≥ FRAME_BYTES then FRAME_BYTES
       else orig - acc.written) ∧
    (unpackFrameStep r pad orig acc idx).corrected = acc.corrected ∧
    (unpackFrameStep r pad orig acc idx).rs_fail = acc.rs_fail ∧
    (unpackFrameStep r pad orig acc idx).residual = acc.residual ∧
    (unpackFrameStep r pad orig acc idx).total_written = acc.total_written +
      (if orig - acc.written ≥ FRAME_BYTES then FRAME_BYTES
       else orig - acc.written) := by
  have hfold := decodeFold_props r pad acc.tab idx D_f vl (erasures_list r GB) hzero
    (List.range SHARD_LEN) (fun i hi => List.mem_range.mp hi) 0 0 0
  obtain ⟨hfd, hfc, hff⟩ := hfold
  simp only [unpackFrameStep, hslot, hGB_init, hGB_data, hGB_par]
  rw [if_neg (by omega : ¬ (1 : Nat) = 0)]
  simp only [hfd, hfc, hff]
  have hresid : (if has_crc_tables r GB then
      ((List.range K_SHARDS).filter
        (fun j => crc16_ccitt (shardOf D_f j) ≠ rd16 GB.crcD j)).length *
        RESIDUAL_INC
    else 0) = 0 := by
    split_ifs with h
    · rw [crc_filter_nil D_f GB hGB_crcD]
      rfl
    · rfl
  rw [hresid]
  have htab : acc.tab.set idx
      ⟨1, GB.data_len, D_f, encode_frame_parity r D_f vl, GB.crcD, GB.crcP,
        GB.crc32_data, GB.crc32_par, GB.crcD_filled, GB.crcP_filled⟩ = acc.tab := by
    rw [← hGB_par, ← hGB_init, ← hGB_data]
    have heta : (⟨GB.init, GB.data_len, GB.data, GB.par, GB.crcD, GB.crcP,
        GB.crc32_data, GB.crc32_par, GB.crcD_filled, GB.crcP_filled⟩ : FrameBuf) =
        GB := rfl
    rw [heta, ← hslot]
    exact set_getD_self acc.tab idx emptyFrameBuf
  rw [htab]
  refine ⟨rfl, trivial, trivial, by omega, by omega, by omega, trivial⟩

/-- The fully reconstructed frame slot after the scan of an intact container. -/
def goodSlot (r : Nat) (input : List Nat) (fidx : Nat) : FrameBuf :=
  { init := 1
    data_len := to_read input.length ((input.length + FRAME_BYTES - 1) / FRAME_BYTES) fidx
    data := packFrameData input ((input.length + FRAME_BYTES - 1) / FRAME_BYTES) fidx
    par := packFramePar r input ((input.length + FRAME_BYTES - 1) / FRAME_BYTES) fidx
    crcD := tableBytes (crcD_vals
      (packFrameData input ((input.length + FRAME_BYTES - 1) / FRAME_BYTES) fidx))
    crcP := tableBytes (crcP_vals r
      (packFramePar r input ((input.length + FRAME_BYTES - 1) / FRAME_BYTES) fidx))
    crc32_data := crc32_calc
      (packFrameData input ((input.length + FRAME_BYTES - 1) / FRAME_BYTES) fidx)
    crc32_par := crc32_calc
      (packFramePar r input ((input.length + FRAME_BYTES - 1) / FRAME_BYTES) fidx)
    crcD_filled := K_SHARDS * 2
    crcP_filled := r * 2 }

/-- Arithmetic of the per-frame read/write amounts below the frame count. -/
theorem to_read_props (L k : Nat) (hk : k < (L + FRAME_BYTES - 1) / FRAME_BYTES) :
    to_read L ((L + FRAME_BYTES - 1) / FRAME_BYTES) k =
      min FRAME_BYTES (L - k * FRAME_BYTES) ∧
    k * FRAME_BYTES < L ∧
    k * FRAME_BYTES + to_read L ((L + FRAME_BYTES - 1) / FRAME_BYTES) k =
      min L ((k + 1) * FRAME_BYTES) := by
  have hFB : FRAME_BYTES = 12288 := rfl
  unfold to_read
  rw [hFB] at hk ⊢
  have hexp : (k + 1) * 12288 = k * 12288 + 12288 := by ring
  split_ifs with h
  · omega
  · omega

/-- Phase B over frames `k, k+1, ...` of a table of intact slots emits the
input back and counts nothing. -/
theorem unpackFold_good (r : Nat) (pad : Int) (input : List Nat) (T : List FrameBuf)
    (hslot : ∀ idx, idx < (input.length + FRAME_BYTES - 1) / FRAME_BYTES →
      T.getD idx emptyFrameBuf = goodSlot r input idx) :
    ∀ (n k : Nat) (acc : UnpackAcc),
      k + n = (input.length + FRAME_BYTES - 1) / FRAME_BYTES →
      acc.tab = T →
      acc.out = input.take (min input.length (k * FRAME_BYTES)) →
      acc.written = min input.length (k * FRAME_BYTES) →
      acc.corrected = 0 → acc.rs_fail = 0 → acc.residual = 0 →
      acc.total_written = min input.length (k * FRAME_BYTES) →
      ((List.range' k n).foldl (unpackFrameStep r pad input.length) acc).tab = T ∧
      ((List.range' k n).foldl (unpackFrameStep r pad input.length) acc).out =
        input.take (min input.length ((k + n) * FRAME_BYTES)) ∧
      ((List.range' k n).foldl (unpackFrameStep r pad input.length) acc).written =
        min input.length ((k + n) * FRAME_BYTES) ∧
      ((List.range' k n).foldl (unpackFrameStep r pad input.length) acc).corrected = 0 ∧
      ((List.range' k n).foldl (unpackFrameStep r pad input.length) acc).rs_fail = 0 ∧
      ((List.range' k n).foldl (unpackFrameStep r pad input.length) acc).residual = 0 ∧
      ((List.range' k n).foldl (unpackFrameStep r pad input.length) acc).total_written =
        min input.length ((k + n) * FRAME_BYTES) := by
  intro n
  induction n with
  | zero =>
    intro k acc hkn htab hout hw hc hf hres htw
    simp only [List.range', List.foldl_nil]
    exact ⟨htab, hout, hw, hc, hf, hres, htw⟩
  | succ m ih =>
    intro k acc hkn htab hout hw hc hf hres htw
    rw [List.range'_succ, List.foldl_cons]
    have hkF : k < (input.length + FRAME_BYTES - 1) / FRAME_BYTES := by omega
    have hprops := to_read_props input.length k hkF
    obtain ⟨p1, p2, p3⟩ := hprops
    have hkw : min input.length (k * FRAME_BYTES) = k * FRAME_BYTES := by omega
    have hstep := unpackFrameStep_good r pad input.length acc k
      (packFrameData input ((input.length + FRAME_BYTES - 1) / FRAME_BYTES) k)
      (to_read input.length ((input.length + FRAME_BYTES - 1) / FRAME_BYTES) k)
      (goodSlot r input k) rfl rfl rfl rfl
      (fun t ht => packFrameData_getD_ge input _ k t ht)
      (by rw [htab]; exact hslot k hkF)
    obtain ⟨s1, s2, s3, s4, s5, s6, s7⟩ := hstep
    have htw2 : (if input.length - acc.written ≥ FRAME_BYTES then FRAME_BYTES
        else input.length - acc.written) =
        to_read input.length ((input.length + FRAME_BYTES - 1) / FRAME_BYTES) k := by
      rw [hw, hkw, p1]
      split_ifs with h
      · omega
      · omega
    have hDtake : (packFrameData input
        ((input.length + FRAME_BYTES - 1) / FRAME_BYTES) k).take
        (to_read input.length ((input.length + FRAME_BYTES - 1) / FRAME_BYTES) k) =
        (input.drop (k * FRAME_BYTES)).take
          (to_read input.length ((input.length + FRAME_BYTES - 1) / FRAME_BYTES) k) := by
      unfold packFrameData
      exact take_append_len _ _ _ (by
        rw [List.length_take, List.length_drop]
        omega)
    have hout2 : (unpackFrameStep r pad input.length acc k).out =
        input.take (min input.length ((k + 1) * FRAME_BYTES)) := by
      rw [s2, htw2, hDtake, hout, hkw, ← List.take_add, p3]
    have hih := ih (k + 1) (unpackFrameStep r pad input.length acc k) (by omega)
      (s1.trans htab) hout2
      (by rw [s3, htw2, hw, hkw, p3])
      (by rw [s4, hc]) (by rw [s5, hf]) (by rw [s6, hres])
      (by rw [s7, htw2, htw, hkw, p3])
    have he : k + 1 + m = k + (m + 1) := by omega
    rw [he] at hih
    exact hih

/-! ## Well-formedness and counting of the pack record stream -/

theorem encFrameHdr_length (a b c d e : Nat) : (encFrameHdr a b c d e).length = 24 := by
  unfold encFrameHdr
  simp [le64_length, le32_length, le16_length]

theorem encSliceHdr_length (a b c d : Nat) : (encSliceHdr a b c d).length = 22 := by
  unfold encSliceHdr
  simp [le64_length, le32_length, le16_length]

theorem encGlobalHeader_length (a b c d e f : Nat) :
    (encGlobalHeader a b c d e f).length = 36 := by
  unfold encGlobalHeader
  simp [le64_length, le32_length, le16_length]

theorem encPRec_pos (r : Nat) (q : PRec) : 0 < (encPRec r q).length := by
  cases q with
  | fhdr a b c d =>
    rw [show encPRec r (PRec.fhdr a b c d) = encFrameHdr a b r c d from rfl,
      encFrameHdr_length]
    omega
  | slc a b body =>
    rw [show encPRec r (PRec.slc a b body) =
      encSliceHdr a b body.length (crc32_calc body) ++ body from rfl,
      List.length_append, encSliceHdr_length]
    omega

theorem recs_length_le_bytes (r : Nat) (recs : List PRec) :
    recs.length ≤ ((recs.map (encPRec r)).flatten).length := by
  induction recs with
  | nil => simp
  | cons q tl ih =>
    rw [List.map_cons, List.flatten_cons, List.length_append, List.length_cons]
    have := encPRec_pos r q
    omega

/-- Every record of the pack stream is well-formed and accepted by the
parser. -/
theorem packRecs_wf (r S D : Nat) (input : List Nat)
    (hr2 : r ≤ 63) (hS : 0 < S) (hS16 : S < 65536)
    (hlen : input.length < 2 ^ 64) :
    ∀ q ∈ packRecs r S D input ((input.length + FRAME_BYTES - 1) / FRAME_BYTES),
      PRecWF q ∧ recOK ((input.length + FRAME_BYTES - 1) / FRAME_BYTES) q := by
  intro q hq
  have hFB : FRAME_BYTES = 12288 := rfl
  have hF64 : (input.length + FRAME_BYTES - 1) / FRAME_BYTES < 2 ^ 64 := by
    rw [hFB]
    omega
  unfold packRecs at hq
  obtain ⟨grp, hgrp, hqgrp⟩ := List.mem_flatten.mp hq
  obtain ⟨g, hgmem, rfl⟩ := List.mem_map.mp hgrp
  unfold groupRecs at hqgrp
  rcases List.mem_append.mp hqgrp with h | h
  · obtain ⟨gi, hgi, rfl⟩ := List.mem_map.mp h
    have hgiK := List.mem_range.mp hgi
    have hidxF : g * D + gi < (input.length + FRAME_BYTES - 1) / FRAME_BYTES := by
      omega
    have htr := to_read_le_probe input.length
      ((input.length + FRAME_BYTES - 1) / FRAME_BYTES) (g * D + gi)
    refine ⟨⟨by omega, by rw [hFB] at htr ⊢; omega,
      crc32_calc_lt _, crc32_calc_lt _⟩, hidxF, htr⟩
  · obtain ⟨sub, hsub, hq2⟩ := List.mem_flatten.mp h
    obtain ⟨off, hoffmem, rfl⟩ := List.mem_map.mp hsub
    obtain ⟨gi, hgi, rfl⟩ := List.mem_map.mp hq2
    have hgiK := List.mem_range.mp hgi
    have hidxF : g * D + gi < (input.length + FRAME_BYTES - 1) / FRAME_BYTES := by
      omega
    have hoff := sliceOffsets_mem_lt (payload_len_bytes r) S _ hS hoffmem
    have hblen := packSliceBody_length r S input (g * D + gi) off hidxF hoff
    have hPAY := payload_len_bytes_eq r
    have hrl : r * SHARD_LEN ≤ 63 * SHARD_LEN := Nat.mul_le_mul_right _ hr2
    have hr2m : r * 2 ≤ 63 * 2 := Nat.mul_le_mul_right _ hr2
    have h63 : (63 : Nat) * SHARD_LEN = 4032 := rfl
    have h632 : (63 : Nat) * 2 = 126 := rfl
    have hK2 : K_SHARDS * 2 = 384 := rfl
    have hchunk : sliceChunk (payload_len_bytes r) S off ≠ 0 ∧
        sliceChunk (payload_len_bytes r) S off < 65536 := by
      unfold sliceChunk
      split_ifs with hcc
      · omega
      · constructor
        · omega
        · rw [hFB] at hPAY
          omega
    refine ⟨⟨by omega, ?_, by rw [hblen]; exact hchunk.1,
      by rw [hblen]; exact hchunk.2⟩, hidxF⟩
    rw [hFB] at hPAY
    omega

theorem sum_map_ones {α : Type} (l : List α) (f : α → Nat)
    (h : ∀ x ∈ l, f x = 1) : (l.map f).sum = l.length := by
  induction l with
  | nil => rfl
  | cons x xs ih =>
    rw [List.map_cons, List.sum_cons, h x (List.mem_cons_self x xs),
      List.length_cons, ih (fun y hy => h y (List.mem_cons_of_mem x hy))]
    omega

theorem sum_map_zeros {α : Type} (l : List α) (f : α → Nat)
    (h : ∀ x ∈ l, f x = 0) : (l.map f).sum = 0 := by
  induction l with
  | nil => rfl
  | cons x xs ih =>
    rw [List.map_cons, List.sum_cons, h x (List.mem_cons_self x xs),
      ih (fun y hy => h y (List.mem_cons_of_mem x hy))]

theorem sum_map_const {α : Type} (l : List α) (c : Nat) :
    (l.map (fun _ => c)).sum = l.length * c := by
  induction l with
  | nil => simp
  | cons x xs ih =>
    rw [List.map_cons, List.sum_cons, ih, List.length_cons]
    ring

theorem sum_map_mul {α : Type} (K : Nat) (l : List α) (f : α → Nat) :
    (l.map (fun x => K * f x)).sum = K * (l.map f).sum := by
  induction l with
  | nil => rfl
  | cons x xs ih =>
    rw [List.map_cons, List.sum_cons, ih, List.map_cons, List.sum_cons]
    ring

theorem sum_min_groups (D : Nat) : ∀ (G F : Nat),
    ((List.range G).map (fun g => min D (F - g * D))).sum = min F (G * D) := by
  intro G
  induction G with
  | zero =>
    intro F
    simp
  | succ n ih =>
    intro F
    rw [List.range_succ, List.map_append, List.sum_append, ih]
    simp only [List.map_cons, List.map_nil, List.sum_cons, List.sum_nil]
    have hexp : (n + 1) * D = n * D + D := by ring
    omega

/-- The number of slice records in the pack stream: one per offset per
frame. -/
theorem packRecs_slc_sum (r S D : Nat) (input : List Nat) (F : Nat)
    (hFD : F ≤ ((F + D - 1) / D) * D) :
    ((packRecs r S D input F).map slcCount).sum =
      ((payload_len_bytes r + S - 1) / S) * F := by
  unfold packRecs
  rw [List.map_flatten, List.map_map]
  have hsum1 : ∀ (gs : List Nat),
      ((gs.map ((List.map slcCount) ∘ (fun g => groupRecs r S input F (g * D)
        (min D (F - g * D))))).map List.sum).sum =
      ((gs.map (fun g => ((payload_len_bytes r + S - 1) / S) *
        min D (F - g * D))).sum) := by
    intro gs
    rw [List.map_map]
    refine congrArg List.sum (List.map_congr_left ?_)
    intro g _
    simp only [Function.comp]
    unfold groupRecs
    rw [List.map_append, List.sum_append]
    have hzero : ((List.map slcCount ((List.range (min D (F - g * D))).map
        (fun gi => PRec.fhdr (g * D + gi)
          (to_read input.length F (g * D + gi))
          (crc32_calc (packFrameData input F (g * D + gi)))
          (crc32_calc (packFramePar r input F (g * D + gi))))))).sum = 0 := by
      rw [List.map_map]
      exact sum_map_zeros _ _ (fun x _ => rfl)
    rw [hzero]
    rw [List.map_flatten, List.sum_flatten, List.map_map, List.map_map]
    have hper : ((sliceOffsets (payload_len_bytes r) S).map
        ((List.sum ∘ List.map slcCount) ∘ (fun off => (List.range (min D (F - g * D))).map
          (fun gi => PRec.slc (g * D + gi) off
            (packSliceBody r S input F (g * D + gi) off))))).sum =
        ((sliceOffsets (payload_len_bytes r) S).map
          (fun _ => min D (F - g * D))).sum := by
      refine congrArg List.sum (List.map_congr_left ?_)
      intro off _
      simp only [Function.comp]
      rw [List.map_map]
      exact (sum_map_ones _ _ (fun x _ => rfl)).trans (List.length_range _)
    rw [hper, sum_map_const]
    have hlen : (sliceOffsets (payload_len_bytes r) S).length =
        (payload_len_bytes r + S - 1) / S := by
      unfold sliceOffsets
      rw [List.length_map, List.length_range]
    rw [hlen]
    omega
  rw [List.sum_flatten, hsum1 (List.range ((F + D - 1) / D))]
  rw [sum_map_mul ((payload_len_bytes r + S - 1) / S) (List.range ((F + D - 1) / D))
    (fun g => min D (F - g * D))]
  rw [sum_min_groups D ((F + D - 1) / D) F]
  have hmin : min F (((F + D - 1) / D) * D) = F := by omega
  rw [hmin]

/-! ## Reading the global header back -/

/-- The unpack header reads on a packed container recover the packed fields. -/
theorem globalHeader_readback (rn pad orig F il sb : Nat) (rest : List Nat)
    (hrn : rn < 2 ^ 16) (hsb : sb < 2 ^ 16)
    (horig : orig < 2 ^ 64) (hF : F < 2 ^ 64) :
    (encGlobalHeader rn pad orig F il sb ++ rest).length = 36 + rest.length ∧
    leVal ((encGlobalHeader rn pad orig F il sb ++ rest).take 4) = GLOBAL_MAGIC ∧
    leVal (((encGlobalHeader rn pad orig F il sb ++ rest).drop 4).take 2) = 4 ∧
    leVal (((encGlobalHeader rn pad orig F il sb ++ rest).drop 6).take 2) = K_SHARDS ∧
    leVal (((encGlobalHeader rn pad orig F il sb ++ rest).drop 8).take 2) = rn ∧
    leVal (((encGlobalHeader rn pad orig F il sb ++ rest).drop 10).take 2) = SHARD_LEN ∧
    leVal (((encGlobalHeader rn pad orig F il sb ++ rest).drop 14).take 8) = orig ∧
    leVal (((encGlobalHeader rn pad orig F il sb ++ rest).drop 22).take 8) = F ∧
    leVal (((encGlobalHeader rn pad orig F il sb ++ rest).drop 32).take 2) = sb ∧
    (encGlobalHeader rn pad orig F il sb ++ rest).drop 36 = rest := by
  have hassoc : encGlobalHeader rn pad orig F il sb ++ rest =
      le32 GLOBAL_MAGIC ++ (le16 4 ++ (le16 K_SHARDS ++ (le16 rn ++ (le16 SHARD_LEN ++
        (le16 pad ++ (le64 orig ++ (le64 F ++ (le16 il ++ (le16 sb ++
          (le16 0 ++ rest)))))))))) := by
    simp only [encGlobalHeader, List.append_assoc]
  have d4 : (encGlobalHeader rn pad orig F il sb ++ rest).drop 4 =
      le16 4 ++ (le16 K_SHARDS ++ (le16 rn ++ (le16 SHARD_LEN ++ (le16 pad ++
        (le64 orig ++ (le64 F ++ (le16 il ++ (le16 sb ++ (le16 0 ++ rest))))))))) := by
    rw [hassoc]
    exact drop_append_len _ _ _ (le32_length _)
  have d6 : (encGlobalHeader rn pad orig F il sb ++ rest).drop 6 =
      le16 K_SHARDS ++ (le16 rn ++ (le16 SHARD_LEN ++ (le16 pad ++
        (le64 orig ++ (le64 F ++ (le16 il ++ (le16 sb ++ (le16 0 ++ rest)))))))) := by
    have h2 : (encGlobalHeader rn pad orig F il sb ++ rest).drop 6 =
        ((encGlobalHeader rn pad orig F il sb ++ rest).drop 4).drop 2 := by
      rw [List.drop_drop]
    rw [h2, d4]
    exact drop_append_len _ _ _ (le16_length _)
  have d8 : (encGlobalHeader rn pad orig F il sb ++ rest).drop 8 =
      le16 rn ++ (le16 SHARD_LEN ++ (le16 pad ++ (le64 orig ++ (le64 F ++
        (le16 il ++ (le16 sb ++ (le16 0 ++ rest))))))) := by
    have h2 : (encGlobalHeader rn pad orig F il sb ++ rest).drop 8 =
        ((encGlobalHeader rn pad orig F il sb ++ rest).drop 6).drop 2 := by
      rw [List.drop_drop]
    rw [h2, d6]
    exact drop_append_len _ _ _ (le16_length _)
  have d10 : (encGlobalHeader rn pad orig F il sb ++ rest).drop 10 =
      le16 SHARD_LEN ++ (le16 pad ++ (le64 orig ++ (le64 F ++ (le16 il ++
        (le16 sb ++ (le16 0 ++ rest)))))) := by
    have h2 : (encGlobalHeader rn pad orig F il sb ++ rest).drop 10 =
        ((encGlobalHeader rn pad orig F il sb ++ rest).drop 8).drop 2 := by
      rw [List.drop_drop]
    rw [h2, d8]
    exact drop_append_len _ _ _ (le16_length _)
  have d12 : (encGlobalHeader rn pad orig F il sb ++ rest).drop 12 =
      le16 pad ++ (le64 orig ++ (le64 F ++ (le16 il ++ (le16 sb ++
        (le16 0 ++ rest))))) := by
    have h2 : (encGlobalHeader rn pad orig F il sb ++ rest).drop 12 =
        ((encGlobalHeader rn pad orig F il sb ++ rest).drop 10).drop 2 := by
      rw [List.drop_drop]
    rw [h2, d10]
    exact drop_append_len _ _ _ (le16_length _)
  have d14 : (encGlobalHeader rn pad orig F il sb ++ rest).drop 14 =
      le64 orig ++ (le64 F ++ (le16 il ++ (le16 sb ++ (le16 0 ++ rest)))) := by
    have h2 : (encGlobalHeader rn pad orig F il sb ++ rest).drop 14 =
        ((encGlobalHeader rn pad orig F il sb ++ rest).drop 12).drop 2 := by
      rw [List.drop_drop]
    rw [h2, d12]
    exact drop_append_len _ _ _ (le16_length _)
  have d22 : (encGlobalHeader rn pad orig F il sb ++ rest).drop 22 =
      le64 F ++ (le16 il ++ (le16 sb ++ (le16 0 ++ rest))) := by
    have h2 : (encGlobalHeader rn pad orig F il sb ++ rest).drop 22 =
        ((encGlobalHeader rn pad orig F il sb ++ rest).drop 14).drop 8 := by
      rw [List.drop_drop]
    rw [h2, d14]
    exact drop_append_len _ _ _ (le64_length _)
  have d30 : (encGlobalHeader rn pad orig F il sb ++ rest).drop 30 =
      le16 il ++ (le16 sb ++ (le16 0 ++ rest)) := by
    have h2 : (encGlobalHeader rn pad orig F il sb ++ rest).drop 30 =
        ((encGlobalHeader rn pad orig F il sb ++ rest).drop 22).drop 8 := by
      rw [List.drop_drop]
    rw [h2, d22]
    exact drop_append_len _ _ _ (le64_length _)
  have d32 : (encGlobalHeader rn pad orig F il sb ++ rest).drop 32 =
      le16 sb ++ (le16 0 ++ rest) := by
    have h2 : (encGlobalHeader rn pad orig F il sb ++ rest).drop 32 =
        ((encGlobalHeader rn pad orig F il sb ++ rest).drop 30).drop 2 := by
      rw [List.drop_drop]
    rw [h2, d30]
    exact drop_append_len _ _ _ (le16_length _)
  have d34 : (encGlobalHeader rn pad orig F il sb ++ rest).drop 34 =
      le16 0 ++ rest := by
    have h2 : (encGlobalHeader rn pad orig F il sb ++ rest).drop 34 =
        ((encGlobalHeader rn pad orig F il sb ++ rest).drop 32).drop 2 := by
      rw [List.drop_drop]
    rw [h2, d32]
    exact drop_append_len _ _ _ (le16_length _)
  refine ⟨?_, ?_, ?_, ?_, ?_, ?_, ?_, ?_, ?_, ?_⟩
  · rw [List.length_append, encGlobalHeader_length]
  · rw [hassoc, take_append_len _ _ _ (le32_length _)]
    exact leVal_le32 _ (by decide)
  · rw [d4, take_append_len _ _ _ (le16_length _)]
    exact leVal_le16 _ (by decide)
  · rw [d6, take_append_len _ _ _ (le16_length _)]
    exact leVal_le16 _ (by decide)
  · rw [d8, take_append_len _ _ _ (le16_length _)]
    exact leVal_le16 _ hrn
  · rw [d10, take_append_len _ _ _ (le16_length _)]
    exact leVal_le16 _ (by decide)
  · rw [d14, take_append_len _ _ _ (le64_length _)]
    exact leVal_le64 _ horig
  · rw [d22, take_append_len _ _ _ (le64_length _)]
    exact leVal_le64 _ hF
  · rw [d32, take_append_len _ _ _ (le16_length _)]
    exact leVal_le16 _ hsb
  · have h2 : (encGlobalHeader rn pad orig F il sb ++ rest).drop 36 =
        ((encGlobalHeader rn pad orig F il sb ++ rest).drop 34).drop 2 := by
      rw [List.drop_drop]
    rw [h2, d34]
    exact drop_append_len _ _ _ (le16_length _)

/-! ## The round trip -/

/-- Unpacking a freshly packed container (default interleave and slice
parameters) returns code 0, the original bytes, and clean statistics. -/
theorem unpack_pack_props (rn : Nat) (hr1 : 1 ≤ rn) (hr2 : rn ≤ 63)
    (input : List Nat) (hlen : input.length < 2 ^ 64) :
    (rs_unpack_internal (pack_impl input (rn : Int) 16 512) 0).1 = 0 ∧
    (rs_unpack_internal (pack_impl input (rn : Int) 16 512) 0).2.1 = input ∧
    (rs_unpack_internal (pack_impl input (rn : Int) 16 512) 0).2.2.frames_total =
      (input.length + FRAME_BYTES - 1) / FRAME_BYTES ∧
    (rs_unpack_internal (pack_impl input (rn : Int) 16 512) 0).2.2.slices_ok =
      ((payload_len_bytes rn + 512 - 1) / 512) *
        ((input.length + FRAME_BYTES - 1) / FRAME_BYTES) ∧
    (rs_unpack_internal (pack_impl input (rn : Int) 16 512) 0).2.2.corrected_symbols = 0 ∧
    (rs_unpack_internal (pack_impl input (rn : Int) 16 512) 0).2.2.rs_fail_columns = 0 ∧
    (rs_unpack_internal (pack_impl input (rn : Int) 16 512) 0).2.2.residual_bad_bytes = 0 ∧
    (rs_unpack_internal (pack_impl input (rn : Int) 16 512) 0).2.2.total_written_bytes =
      input.length := by
  have hFB : FRAME_BYTES = 12288 := rfl
  have hnr : norm_r (rn : Int) = rn := by
    unfold norm_r
    rw [if_neg (by push_cast; omega)]
    exact Int.toNat_ofNat rn
  have hpack : pack_impl input (rn : Int) 16 512 =
      encGlobalHeader rn (compute_pad rn) input.length
        ((input.length + FRAME_BYTES - 1) / FRAME_BYTES) 16 512 ++
      ((packRecs rn 512 16 input
        ((input.length + FRAME_BYTES - 1) / FRAME_BYTES)).map (encPRec rn)).flatten := by
    simp only [pack_impl, hnr]
    rw [show norm_il 16 % 65536 = 16 from rfl, show norm_sb 512 % 65536 = 512 from rfl]
    rw [pack_body_eq_recs rn 512 16 (by omega) input]
  have hrb := globalHeader_readback rn (compute_pad rn) input.length
    ((input.length + FRAME_BYTES - 1) / FRAME_BYTES) 16 512
    ((packRecs rn 512 16 input
      ((input.length + FRAME_BYTES - 1) / FRAME_BYTES)).map (encPRec rn)).flatten
    (by omega) (by decide) hlen (by rw [hFB]; omega)
  obtain ⟨g1, g2, g3, g4, g5, g6, g7, g8, g9, g10⟩ := hrb
  rw [hpack]
  have hlen36 : ¬ (encGlobalHeader rn (compute_pad rn) input.length
      ((input.length + FRAME_BYTES - 1) / FRAME_BYTES) 16 512 ++
      ((packRecs rn 512 16 input
        ((input.length + FRAME_BYTES - 1) / FRAME_BYTES)).map (encPRec rn)).flatten).length
      < 36 := by
    rw [g1]
    omega
  have hMAXR : MAX_R = 63 := rfl
  have hrcond : ¬ (rn = 0 ∨ rn > MAX_R) := by
    rw [hMAXR]
    omega
  simp only [rs_unpack_internal, g2, g3, g4, g5, g6, g7, g8, g9, g10, hlen36,
    ne_eq, eq_self_iff_true, not_true, or_self, if_false, ite_false, ite_true,
    if_true, not_false_eq_true, hrcond]
  have hps := parseLoop_records rn ((input.length + FRAME_BYTES - 1) / FRAME_BYTES)
    input.length
    (packRecs rn 512 16 input ((input.length + FRAME_BYTES - 1) / FRAME_BYTES))
    ((encGlobalHeader rn (compute_pad rn) input.length
      ((input.length + FRAME_BYTES - 1) / FRAME_BYTES) 16 512 ++
      ((packRecs rn 512 16 input
        ((input.length + FRAME_BYTES - 1) / FRAME_BYTES)).map (encPRec rn)).flatten).length + 1)
    ⟨List.replicate ((input.length + FRAME_BYTES - 1) / FRAME_BYTES) emptyFrameBuf, 0, 0⟩
    (by
      have hub := recs_length_le_bytes rn
        (packRecs rn 512 16 input ((input.length + FRAME_BYTES - 1) / FRAME_BYTES))
      rw [g1]
      omega)
    (fun q hq => (packRecs_wf rn 512 16 input hr2 (by omega) (by decide) hlen q hq).1)
  rw [hps]
  set PS : ParseState :=
    (packRecs rn 512 16 input ((input.length + FRAME_BYTES - 1) / FRAME_BYTES)).foldl
      (applyPRec rn ((input.length + FRAME_BYTES - 1) / FRAME_BYTES) input.length)
      ⟨List.replicate ((input.length + FRAME_BYTES - 1) / FRAME_BYTES) emptyFrameBuf, 0, 0⟩
    with hPS
  have hT : ∀ fidx, fidx < (input.length + FRAME_BYTES - 1) / FRAME_BYTES →
      PS.tab.getD fidx emptyFrameBuf = goodSlot rn input fidx := by
    intro fidx hfid
    rw [hPS, foldl_applyPRec_slot rn ((input.length + FRAME_BYTES - 1) / FRAME_BYTES)
      input.length fidx _ _ (List.length_replicate _ _)
      (fun q hq => (packRecs_wf rn 512 16 input hr2 (by omega) (by decide) hlen q hq).2)]
    rw [getD_replicate _ fidx _ _ hfid]
    rw [packRecs_slot_value rn 512 16 input.length
      ((input.length + FRAME_BYTES - 1) / FRAME_BYTES) (by omega) (by omega)
      input fidx hfid]
    rfl
  have h0min : min input.length (0 * FRAME_BYTES) = 0 := by
    rw [Nat.zero_mul]
    omega
  have hfold := unpackFold_good rn 0 input PS.tab hT
    ((input.length + FRAME_BYTES - 1) / FRAME_BYTES) 0
    ⟨PS.tab, [], 0, 0, 0, 0, 0, 0⟩ (by omega) rfl
    (by rw [h0min, List.take_zero])
    (by rw [h0min]) rfl rfl rfl (by rw [h0min])
  obtain ⟨f1, f2, f3, f4, f5, f6, f7⟩ := hfold
  have hminL : min input.length
      ((0 + (input.length + FRAME_BYTES - 1) / FRAME_BYTES) * FRAME_BYTES) =
      input.length := by
    rw [hFB] at *
    omega
  rw [hminL, List.take_length] at f2
  rw [hminL] at f7
  rw [List.range_eq_range']
  refine ⟨trivial, f2, trivial, ?_, f4, f5, f6, f7⟩
  rw [hPS, foldl_applyPRec_slices_ok]
  rw [packRecs_slc_sum rn 512 16 input ((input.length + FRAME_BYTES - 1) / FRAME_BYTES)
    (by omega)]
  simp

end RSV4
